import Mathlib

/-!
# StackMapStream (compiler/optimizing/stack_map_stream.cc)

A shallow embedding of the stack-map stream builder: the builder object is a
record of its member variables, every member function is a function from the
builder to `Except Fault StackMapStream`, and a failed `DCHECK` is the fault
`Fault.dcheck` (the embedding is of the debug build, where `DCHECK` is active).

Only `stack_map_stream.cc` is part of the sources.  The helpers it calls that
are declared elsewhere (`bit_table.h`, `bit_vector.h`, `bit_utils.h`,
`stack_map.h`, `leb128.h`, `dex_register_location.h`) are either parameters
(`Externals`) or definitions whose doc comment says that they are modelled from
the specification.

The deferred verification closures (`dchecks_`, under `kVerifyStackMaps`) only
append to a list that is replayed against the external decoder; they do not
influence any other member and are left out.
-/

namespace art

/-! ## Faults -/

/-- The two ways a member function can fail: a `DCHECK` that does not hold, and
an index past the end of a container. -/
inductive Fault where
  | dcheck
  | outOfRange
deriving DecidableEq, Repr

/-! ## Helpers declared outside `stack_map_stream.cc` -/

/-- Modelled from the spec: `StackMap::kNoValue`, the "none" index stored in a
record that refers to no table entry (declared in `stack_map.h`); the all-ones
32-bit word, as in `static_cast<uint32_t>(-1)`. -/
def kNoValue : Nat := 0xFFFFFFFF

/-- Count of trailing zero bits of `x`, looking at no more than `fuel` bits. -/
def CountTrailingZeros : Nat → Nat → Nat
  | 0, _ => 0
  | fuel + 1, x => if x % 2 = 1 then 0 else CountTrailingZeros fuel (x / 2) + 1

/-- Modelled from the spec: `LeastSignificantBit` (declared in `bit_utils.h`),
the position of the lowest set bit of a 32-bit word ("shifted so its lowest set
bit aligns to bit 0, with the shift amount itself recorded"). -/
def LeastSignificantBit (x : Nat) : Nat := CountTrailingZeros 32 x

/-- Modelled from the spec: `BitTableBuilder<T>::Dedup` for one record
(declared in `bit_table.h`): "returns the existing index for an exact
duplicate; otherwise appends and returns the new index".  The table is the
insertion-ordered list of its distinct records; the result is the index and
the table after the call. -/
def Dedup {α : Type} [DecidableEq α] (rows : List α) (x : α) : Nat × List α :=
  if x ∈ rows then (rows.indexOf x, rows) else (rows.length, rows ++ [x])

/-- Modelled from the spec: `BitTableBuilder<T>::Add` (declared in
`bit_table.h`), which appends one record without deduplication. -/
def Add {α : Type} (rows : List α) (x : α) : List α := rows ++ [x]

/-- Modelled from the spec: `BitVector` (declared in `bit_vector.h`), a
growable bitset.  `bits[i]` is bit `i`; the number of bits is the length. -/
structure BitVector where
  bits : List Bool
deriving DecidableEq, Repr

/-- Modelled from the spec: `BitVector::GetNumberOfBits`. -/
def BitVector.GetNumberOfBits (v : BitVector) : Nat := v.bits.length

/-- Modelled from the spec: `BitVector::GetRawStorage`. -/
def BitVector.GetRawStorage (v : BitVector) : List Bool := v.bits

/-- Modelled from the spec: `BitVector::IsBitSet`. -/
def BitVector.IsBitSet (v : BitVector) (i : Nat) : Bool := v.bits.getD i false

/-- Modelled from the spec: `BitVector::ClearAllBits`.  A cleared bitset is the
bitset "with all zero bits", which §4.2.1 maps to "none": it has no bits. -/
def BitVector.ClearAllBits (_v : BitVector) : BitVector := ⟨[]⟩

/-- Modelled from the spec: `BitVector::SetBit`, which grows the bitset so that
it holds bit `i` and sets that bit. -/
def BitVector.SetBit (v : BitVector) (i : Nat) : BitVector :=
  ⟨(v.bits ++ List.replicate (i + 1 - v.bits.length) false).set i true⟩

/-- Modelled from the spec: `BitmapTableBuilder::Dedup` (declared in
`bit_table.h`): the record is the first `num_bits` bits of the raw storage. -/
def DedupBitmap (rows : List (List Bool)) (raw : List Bool) (num_bits : Nat) :
    Nat × List (List Bool) :=
  Dedup rows (raw.take num_bits)

/-- Modelled from the spec: `DexRegisterLocation::Kind` (declared in
`dex_register_location.h`): "in register", "in stack slot", "constant",
"none". -/
inductive Kind where
  | kNone
  | kInStack
  | kConstant
  | kInRegister
deriving DecidableEq, Repr

/-- Modelled from the spec: `DexRegisterLocation` (declared in
`dex_register_location.h`), a kind tag and an `int32_t` value. -/
structure DexRegisterLocation where
  kind : Kind
  value : Int
deriving DecidableEq, Repr

/-- Modelled from the spec: `DexRegisterLocation::IsLive`: the register "is
live/has a known location", that is, its kind is not "none". -/
def DexRegisterLocation.IsLive (r : DexRegisterLocation) : Bool :=
  decide (r.kind ≠ Kind.kNone)

/-- Modelled from the spec: the `is_last` column of an inline-info record
(`InlineInfo::kLast` and `InlineInfo::kMore`, declared in `stack_map.h`). -/
inductive IsLast where
  | kMore
  | kLast
deriving DecidableEq, Repr

/-- An `ArtMethod*`: the address held by the pointer, and the two members of
the pointee that the builder reads. -/
structure ArtMethod where
  address : Nat
  dex_method_index : Nat
  dex_file : Nat
deriving DecidableEq, Repr

/-- `High32Bits` of a `uintptr_t`. -/
def High32Bits (x : Nat) : Nat := (x >>> 32) % 2 ^ 32

/-- `Low32Bits` of a `uintptr_t`. -/
def Low32Bits (x : Nat) : Nat := x % 2 ^ 32

/-- The functions of other components that the builder calls and that the
specification leaves open. -/
structure Externals where
  /-- `StackMap::PackNativePc(native_pc_offset, instruction_set)`. -/
  PackNativePc : Nat → Nat → Nat
  /-- `DexRegisterInfo::PackValue(kind, value)`. -/
  PackValue : Kind → Int → Nat
  /-- `EncodeArtMethodInInlineInfo(method)`. -/
  EncodeArtMethodInInlineInfo : ArtMethod → Bool
  /-- `IsSameDexFile(outer_dex_file, method->GetDexFile())`. -/
  IsSameDexFile : Nat → Nat → Bool

/-! ## Records -/

structure StackMapEntry where
  packed_native_pc : Nat
  dex_pc : Nat
  register_mask_index : Nat
  stack_mask_index : Nat
  inline_info_index : Nat
  dex_register_mask_index : Nat
  dex_register_map_index : Nat
deriving DecidableEq, Repr

structure RegisterMaskEntry where
  value : Nat
  shift : Nat
deriving DecidableEq, Repr

structure InvokeInfoEntry where
  packed_native_pc : Nat
  invoke_type : Nat
  method_info_index : Nat
deriving DecidableEq, Repr

structure InlineInfoEntry where
  is_last : IsLast
  dex_pc : Nat
  method_info_index : Nat
  art_method_hi : Nat
  art_method_lo : Nat
  dex_register_mask_index : Nat
  dex_register_map_index : Nat
deriving DecidableEq, Repr

structure DexRegisterEntry where
  kind : Kind
  packed_value : Nat
deriving DecidableEq, Repr

/-! ## The builder -/

/-- The members of `StackMapStream`.  A table is the list of its rows; a
`BitVector*` is `none` for `nullptr` and `some a` for the bitset at address
`a`. -/
structure StackMapStream where
  instruction_set_ : Nat
  stack_maps_ : List StackMapEntry
  register_masks_ : List RegisterMaskEntry
  stack_masks_ : List (List Bool)
  invoke_infos_ : List InvokeInfoEntry
  inline_infos_ : List (List InlineInfoEntry)
  dex_register_masks_ : List (List Bool)
  dex_register_maps_ : List (List Nat)
  dex_register_catalog_ : List DexRegisterEntry
  out_ : List Nat
  method_infos_ : List Nat
  lazy_stack_masks_ : List (Option Nat)
  in_stack_map_ : Bool
  in_inline_info_ : Bool
  current_stack_map_ : StackMapEntry
  current_inline_infos_ : List InlineInfoEntry
  current_dex_registers_ : List DexRegisterLocation
  expected_num_dex_registers_ : Nat
  temp_dex_register_mask_ : BitVector
  temp_dex_register_map_ : List Nat
deriving DecidableEq, Repr

/-- Modelled from the spec: the constructor (declared in `stack_map_stream.h`):
every table and accumulator is empty and no position or inline frame is open. -/
def StackMapStream.create (instruction_set : Nat) : StackMapStream where
  instruction_set_ := instruction_set
  stack_maps_ := []
  register_masks_ := []
  stack_masks_ := []
  invoke_infos_ := []
  inline_infos_ := []
  dex_register_masks_ := []
  dex_register_maps_ := []
  dex_register_catalog_ := []
  out_ := []
  method_infos_ := []
  lazy_stack_masks_ := []
  in_stack_map_ := false
  in_inline_info_ := false
  current_stack_map_ := ⟨0, 0, kNoValue, kNoValue, kNoValue, kNoValue, kNoValue⟩
  current_inline_infos_ := []
  current_dex_registers_ := []
  expected_num_dex_registers_ := 0
  temp_dex_register_mask_ := ⟨[]⟩
  temp_dex_register_map_ := []

/-- The effect of `v.back() = f(v.back())` on a vector; no effect on an empty
vector (the builder only does it after checking `!v.empty()`). -/
def modifyBack {α : Type} (v : List α) (f : α → α) : List α :=
  v.dropLast ++ (v.getLast?.map f).toList

/-- `StackMapStream::BeginStackMapEntry`. -/
def StackMapStream.BeginStackMapEntry (E : Externals) (s : StackMapStream)
    (dex_pc native_pc_offset register_mask : Nat) (stack_mask : Option Nat)
    (num_dex_registers : Nat) (_inlining_depth : Nat) : Except Fault StackMapStream :=
  if s.in_stack_map_ then .error .dcheck else
  let s := { s with in_stack_map_ := true }
  let entry : StackMapEntry :=
    { packed_native_pc := E.PackNativePc native_pc_offset s.instruction_set_
      dex_pc := dex_pc
      register_mask_index := kNoValue
      stack_mask_index := kNoValue
      inline_info_index := kNoValue
      dex_register_mask_index := kNoValue
      dex_register_map_index := kNoValue }
  let s := { s with current_stack_map_ := entry }
  let s :=
    if register_mask ≠ 0 then
      let shift := LeastSignificantBit register_mask
      let entry : RegisterMaskEntry := { value := register_mask >>> shift, shift := shift }
      let r := Dedup s.register_masks_ entry
      { s with
        register_masks_ := r.2,
        current_stack_map_ := { s.current_stack_map_ with register_mask_index := r.1 } }
    else s
  .ok { s with
    lazy_stack_masks_ := s.lazy_stack_masks_ ++ [stack_mask],
    current_inline_infos_ := [],
    current_dex_registers_ := [],
    expected_num_dex_registers_ := num_dex_registers }

/-- `StackMapStream::EndStackMapEntry`. -/
def StackMapStream.EndStackMapEntry (s : StackMapStream) : Except Fault StackMapStream :=
  if !s.in_stack_map_ then .error .dcheck else
  let s := { s with in_stack_map_ := false }
  if s.expected_num_dex_registers_ ≠ s.current_dex_registers_.length then .error .dcheck else
  let s :=
    if !s.current_inline_infos_.isEmpty then
      let back := modifyBack s.current_inline_infos_ (fun e => { e with is_last := IsLast.kLast })
      let s := { s with current_inline_infos_ := back }
      let r := Dedup s.inline_infos_ s.current_inline_infos_
      { s with
        inline_infos_ := r.2,
        current_stack_map_ := { s.current_stack_map_ with inline_info_index := r.1 } }
    else s
  .ok { s with stack_maps_ := Add s.stack_maps_ s.current_stack_map_ }

/-- The body of the `for` loop of `CreateDexRegisterMap`, run from slot `i` over
the remaining registers; the state of the loop is `temp_dex_register_mask_`,
`temp_dex_register_map_` and `dex_register_catalog_`. -/
def CreateDexRegisterMapLoop (E : Externals) :
    List DexRegisterLocation → Nat → BitVector × List Nat × List DexRegisterEntry →
    BitVector × List Nat × List DexRegisterEntry
  | [], _, acc => acc
  | reg :: rest, i, (mask, map, catalog) =>
    if reg.IsLive then
      let entry : DexRegisterEntry :=
        { kind := reg.kind, packed_value := E.PackValue reg.kind reg.value }
      let r := Dedup catalog entry
      CreateDexRegisterMapLoop E rest (i + 1) (mask.SetBit i, map ++ [r.1], r.2)
    else
      CreateDexRegisterMapLoop E rest (i + 1) (mask, map, catalog)

/-- `StackMapStream::CreateDexRegisterMap`. -/
def StackMapStream.CreateDexRegisterMap (E : Externals) (s : StackMapStream) : StackMapStream :=
  let s := { s with temp_dex_register_mask_ := s.temp_dex_register_mask_.ClearAllBits }
  let s := { s with temp_dex_register_map_ := [] }
  let l := CreateDexRegisterMapLoop E s.current_dex_registers_ 0
    (s.temp_dex_register_mask_, s.temp_dex_register_map_, s.dex_register_catalog_)
  let s := { s with
    temp_dex_register_mask_ := l.1,
    temp_dex_register_map_ := l.2.1,
    dex_register_catalog_ := l.2.2 }
  let m : Nat × List (List Bool) :=
    if s.temp_dex_register_mask_.GetNumberOfBits ≠ 0 then
      DedupBitmap s.dex_register_masks_ s.temp_dex_register_mask_.GetRawStorage
        s.temp_dex_register_mask_.GetNumberOfBits
    else (kNoValue, s.dex_register_masks_)
  let mask_index := m.1
  let s := { s with dex_register_masks_ := m.2 }
  let r := Dedup s.dex_register_maps_ s.temp_dex_register_map_
  let map_index := r.1
  let s := { s with dex_register_maps_ := r.2 }
  if !s.current_inline_infos_.isEmpty then
    let back := modifyBack s.current_inline_infos_ (fun e =>
      { e with dex_register_mask_index := mask_index, dex_register_map_index := map_index })
    { s with current_inline_infos_ := back }
  else
    let entry : StackMapEntry := { s.current_stack_map_ with
      dex_register_mask_index := mask_index, dex_register_map_index := map_index }
    { s with current_stack_map_ := entry }

/-- `StackMapStream::AddDexRegisterEntry`. -/
def StackMapStream.AddDexRegisterEntry (E : Externals) (s : StackMapStream)
    (kind : Kind) (value : Int) : Except Fault StackMapStream :=
  let s := { s with current_dex_registers_ := s.current_dex_registers_ ++ [⟨kind, value⟩] }
  if s.current_dex_registers_.length = s.expected_num_dex_registers_ then
    .ok (s.CreateDexRegisterMap E)
  else .ok s

/-- `StackMapStream::AddInvoke`. -/
def StackMapStream.AddInvoke (s : StackMapStream) (invoke_type dex_method_index : Nat) :
    Except Fault StackMapStream :=
  let packed_native_pc := s.current_stack_map_.packed_native_pc
  let r := Dedup s.method_infos_ dex_method_index
  let entry : InvokeInfoEntry :=
    { packed_native_pc := packed_native_pc
      invoke_type := invoke_type
      method_info_index := r.1 }
  .ok { s with method_infos_ := r.2, invoke_infos_ := Add s.invoke_infos_ entry }

/-- `StackMapStream::BeginInlineInfoEntry`. -/
def StackMapStream.BeginInlineInfoEntry (E : Externals) (s : StackMapStream)
    (method : ArtMethod) (dex_pc num_dex_registers : Nat) (outer_dex_file : Nat) :
    Except Fault StackMapStream :=
  if s.in_inline_info_ then .error .dcheck else
  let s := { s with in_inline_info_ := true }
  if s.expected_num_dex_registers_ ≠ s.current_dex_registers_.length then .error .dcheck else
  let entry : InlineInfoEntry :=
    { is_last := IsLast.kMore
      dex_pc := dex_pc
      method_info_index := kNoValue
      art_method_hi := kNoValue
      art_method_lo := kNoValue
      dex_register_mask_index := kNoValue
      dex_register_map_index := kNoValue }
  if E.EncodeArtMethodInInlineInfo method then
    let entry := { entry with
      art_method_hi := High32Bits method.address
      art_method_lo := Low32Bits method.address }
    .ok { s with
      current_inline_infos_ := s.current_inline_infos_ ++ [entry],
      current_dex_registers_ := [],
      expected_num_dex_registers_ := num_dex_registers }
  else
    if dex_pc ≠ 0xFFFFFFFF ∧ ¬ E.IsSameDexFile outer_dex_file method.dex_file then
      .error .dcheck
    else
      let r := Dedup s.method_infos_ method.dex_method_index
      let entry := { entry with method_info_index := r.1 }
      .ok { s with
        method_infos_ := r.2,
        current_inline_infos_ := s.current_inline_infos_ ++ [entry],
        current_dex_registers_ := [],
        expected_num_dex_registers_ := num_dex_registers }

/-- `StackMapStream::EndInlineInfoEntry`. -/
def StackMapStream.EndInlineInfoEntry (s : StackMapStream) : Except Fault StackMapStream :=
  if !s.in_inline_info_ then .error .dcheck else
  let s := { s with in_inline_info_ := false }
  if s.expected_num_dex_registers_ ≠ s.current_dex_registers_.length then .error .dcheck else
  .ok s

/-! ## Finalizer -/

/-- The byte whose bit `j` is `bs[j]` (least significant bit first). -/
def byteOfBits (bs : List Bool) : Nat := bs.foldr (fun b n => 2 * n + b.toNat) 0

/-- The eight bits of a byte, least significant bit first. -/
def bitsOfByte (n : Nat) : List Bool := (List.range 8).map n.testBit

/-- A byte vector seen as a bit string: bit `i` is bit `i % 8` of byte `i / 8`. -/
def unpackBits (bytes : List Nat) : List Bool := bytes.flatMap bitsOfByte

/-- A bit string stored in the fewest bytes that hold it; the unused bits of the
last byte are zero. -/
def packBytes (bits : List Bool) : List Nat :=
  (List.range ((bits.length + 7) / 8)).map (fun k => byteOfBits ((bits.drop (8 * k)).take 8))

/-- The bit-level table codec, a primitive outside this component: for every
table, the bit string of its bit-packed encoding. -/
structure TableCodec where
  stack_maps : List StackMapEntry → List Bool
  register_masks : List RegisterMaskEntry → List Bool
  stack_masks : List (List Bool) → List Bool
  invoke_infos : List InvokeInfoEntry → List Bool
  inline_infos : List (List InlineInfoEntry) → List Bool
  dex_register_masks : List (List Bool) → List Bool
  dex_register_maps : List (List Nat) → List Bool
  dex_register_catalog : List DexRegisterEntry → List Bool

/-- Modelled from the spec: `Encode(buffer, bit_cursor)` of a table (declared in
`bit_table.h`): "serializes the stored sequence as a bit-packed block,
advancing the bit cursor".  The buffer keeps its bits below the cursor, the
block `bits` of the table follows them, and the buffer is as many bytes as
hold the result.  The result is the buffer and the cursor after the call. -/
def Encode (bits : List Bool) (out : List Nat) (bit_offset : Nat) : List Nat × Nat :=
  (packBytes ((unpackBits out).take bit_offset ++ bits), bit_offset + bits.length)

/-- The bytes of an unsigned LEB128 number, low group first, no more than
`fuel` of them. -/
def Leb128Bytes : Nat → Nat → List Nat
  | 0, _ => []
  | fuel + 1, value =>
    if value / 128 = 0 then [value % 128]
    else (value % 128 + 128) :: Leb128Bytes fuel (value / 128)

/-- Modelled from the spec: `EncodeUnsignedLeb128` (declared in `leb128.h`),
the "variable-length unsigned length prefix" of a `uint32_t`. -/
def EncodeUnsignedLeb128 (value : Nat) : List Nat := Leb128Bytes 5 (value % 2 ^ 32)

/-- Modelled from the spec: `UnsignedLeb128Size` (declared in `leb128.h`), the
number of bytes of the unsigned LEB128 encoding of a `uint32_t`: one byte for
every started group of seven bits. -/
def UnsignedLeb128Size (data : Nat) : Nat :=
  let data := data % 2 ^ 32
  if data < 2 ^ 7 then 1
  else if data < 2 ^ 14 then 2
  else if data < 2 ^ 21 then 3
  else if data < 2 ^ 28 then 4
  else 5

/-- The `for` loop of `PrepareForFillIn` that reads the deferred stack masks,
run from position `i` over the remaining references; `mem` gives the bitset
that an address refers to when the loop runs.  The state of the loop is
`stack_maps_` and `stack_masks_`. -/
def PrepareForFillInLoop (mem : Nat → BitVector) :
    List (Option Nat) → Nat → List StackMapEntry × List (List Bool) →
    Except Fault (List StackMapEntry × List (List Bool))
  | [], _, acc => .ok acc
  | none :: rest, i, acc => PrepareForFillInLoop mem rest (i + 1) acc
  | some a :: rest, i, (maps, masks) =>
    if (mem a).GetNumberOfBits ≠ 0 then
      let r := DedupBitmap masks (mem a).GetRawStorage (mem a).GetNumberOfBits
      match maps[i]? with
      | none => .error .outOfRange
      | some e =>
        PrepareForFillInLoop mem rest (i + 1) (maps.set i { e with stack_mask_index := r.1 }, r.2)
    else PrepareForFillInLoop mem rest (i + 1) (maps, masks)

/-- `StackMapStream::PrepareForFillIn`; the result is the builder and the
returned size. -/
def StackMapStream.PrepareForFillIn (C : TableCodec) (mem : Nat → BitVector)
    (s : StackMapStream) : Except Fault (StackMapStream × Nat) :=
  if s.out_.length ≠ 0 then .error .dcheck else
  match PrepareForFillInLoop mem s.lazy_stack_masks_ 0 (s.stack_maps_, s.stack_masks_) with
  | .error f => .error f
  | .ok l =>
    let s := { s with stack_maps_ := l.1, stack_masks_ := l.2 }
    let e := Encode (C.stack_maps s.stack_maps_) s.out_ 0
    let e := Encode (C.register_masks s.register_masks_) e.1 e.2
    let e := Encode (C.stack_masks s.stack_masks_) e.1 e.2
    let e := Encode (C.invoke_infos s.invoke_infos_) e.1 e.2
    let e := Encode (C.inline_infos s.inline_infos_) e.1 e.2
    let e := Encode (C.dex_register_masks s.dex_register_masks_) e.1 e.2
    let e := Encode (C.dex_register_maps s.dex_register_maps_) e.1 e.2
    let e := Encode (C.dex_register_catalog s.dex_register_catalog_) e.1 e.2
    let s := { s with out_ := e.1 }
    .ok (s, UnsignedLeb128Size s.out_.length + s.out_.length)

/-- `StackMapStream::FillInCodeInfo`, for a destination of `region_size` bytes;
the result is the content of the destination after the call. -/
def StackMapStream.FillInCodeInfo (s : StackMapStream) (region_size : Nat) :
    Except Fault (List Nat) :=
  if s.in_stack_map_ ≠ false then .error .dcheck else
  if s.in_inline_info_ ≠ false then .error .dcheck else
  if s.out_.length = 0 then .error .dcheck else
  if region_size ≠ UnsignedLeb128Size s.out_.length + s.out_.length then .error .dcheck else
  .ok (EncodeUnsignedLeb128 s.out_.length ++ s.out_)

/-- Modelled from the spec: `MethodInfo` (declared in `method_info.h`), the
region that holds the Method-Reference Table "alone": the number of method
indices and the indices, entry `i` at position `i`. -/
structure MethodInfo where
  num_method_indices : Nat
  method_indices : List Nat
deriving DecidableEq, Repr

/-- Modelled from the spec: the constructor `MethodInfo(ptr, num_method_indices)`
over a destination whose entry slots hold `region`: it records the count and
leaves the slots as they are. -/
def MethodInfo.create (region : List Nat) (num_method_indices : Nat) : MethodInfo :=
  ⟨num_method_indices, (region ++ List.replicate num_method_indices 0).take num_method_indices⟩

/-- Modelled from the spec: `MethodInfo::SetMethodIndex`. -/
def MethodInfo.SetMethodIndex (info : MethodInfo) (i value : Nat) : MethodInfo :=
  { info with method_indices := info.method_indices.set i value }

/-- Modelled from the spec: `MethodInfo::GetMethodIndex`. -/
def MethodInfo.GetMethodIndex (info : MethodInfo) (i : Nat) : Nat :=
  info.method_indices.getD i 0

/-- Modelled from the spec: `MethodInfo::NumMethodIndices`. -/
def MethodInfo.NumMethodIndices (info : MethodInfo) : Nat := info.num_method_indices

/-- The first `for` loop of `FillInMethodInfo`, run from index `i` over the
remaining entries of `method_infos_`. -/
def FillInMethodInfoLoop : List Nat → Nat → MethodInfo → MethodInfo
  | [], _, info => info
  | value :: rest, i, info => FillInMethodInfoLoop rest (i + 1) (info.SetMethodIndex i value)

/-- `StackMapStream::FillInMethodInfo`, for a destination whose entry slots hold
`region`; the result is the destination after the call.  The second block
reads the destination back and checks it against `method_infos_`. -/
def StackMapStream.FillInMethodInfo (s : StackMapStream) (region : List Nat) :
    Except Fault MethodInfo :=
  let info := MethodInfo.create region s.method_infos_.length
  let info := FillInMethodInfoLoop s.method_infos_ 0 info
  let count := info.NumMethodIndices
  if count ≠ s.method_infos_.length then .error .dcheck else
  if (List.range count).any (fun i => info.GetMethodIndex i ≠ s.method_infos_.getD i 0) then
    .error .dcheck
  else .ok info

/-- `StackMapStream::ComputeMethodInfoSize`; `ComputeSize` is
`MethodInfo::ComputeSize` (declared in `method_info.h`). -/
def StackMapStream.ComputeMethodInfoSize (ComputeSize : Nat → Nat) (s : StackMapStream) :
    Except Fault Nat :=
  if s.out_.length = 0 then .error .dcheck else
  .ok (ComputeSize s.method_infos_.length)

/-! ## Call sequences -/

/-- One call of the builder protocol, with its arguments. -/
inductive Call where
  | BeginStackMapEntry (dex_pc native_pc_offset register_mask : Nat) (stack_mask : Option Nat)
      (num_dex_registers inlining_depth : Nat)
  | EndStackMapEntry
  | AddDexRegisterEntry (kind : Kind) (value : Int)
  | AddInvoke (invoke_type dex_method_index : Nat)
  | BeginInlineInfoEntry (method : ArtMethod) (dex_pc num_dex_registers outer_dex_file : Nat)
  | EndInlineInfoEntry
deriving DecidableEq, Repr

/-- The builder after one call. -/
def StackMapStream.call (E : Externals) (s : StackMapStream) : Call → Except Fault StackMapStream
  | .BeginStackMapEntry dex_pc native_pc_offset register_mask stack_mask num_dex_registers
      inlining_depth =>
    s.BeginStackMapEntry E dex_pc native_pc_offset register_mask stack_mask num_dex_registers
      inlining_depth
  | .EndStackMapEntry => s.EndStackMapEntry
  | .AddDexRegisterEntry kind value => s.AddDexRegisterEntry E kind value
  | .AddInvoke invoke_type dex_method_index => s.AddInvoke invoke_type dex_method_index
  | .BeginInlineInfoEntry method dex_pc num_dex_registers outer_dex_file =>
    s.BeginInlineInfoEntry E method dex_pc num_dex_registers outer_dex_file
  | .EndInlineInfoEntry => s.EndInlineInfoEntry

/-- The builder after a sequence of calls; the first fault ends the run. -/
def StackMapStream.run (E : Externals) (s : StackMapStream) : List Call → Except Fault StackMapStream
  | [] => .ok s
  | c :: cs =>
    match s.call E c with
    | .error f => .error f
    | .ok s1 => s1.run E cs

/-! ## Concrete parameters for the examples -/

/-- Externals for the examples: the native pc and the value are stored as they
are, a method of dex file `0` is encoded directly, and dex files are compared
by number. -/
def sampleExternals : Externals :=
  { PackNativePc := fun native_pc_offset _ => native_pc_offset
    PackValue := fun _ value => value.toNat
    EncodeArtMethodInInlineInfo := fun method => decide (method.dex_file = 0)
    IsSameDexFile := fun a b => decide (a = b) }

/-- A table codec for the examples: one `true` bit for every row, closed by a
`false` bit. -/
def sampleCodec : TableCodec :=
  { stack_maps := fun t => t.map (fun _ => true) ++ [false]
    register_masks := fun t => t.map (fun _ => true) ++ [false]
    stack_masks := fun t => t.map (fun _ => true) ++ [false]
    invoke_infos := fun t => t.map (fun _ => true) ++ [false]
    inline_infos := fun t => t.map (fun _ => true) ++ [false]
    dex_register_masks := fun t => t.map (fun _ => true) ++ [false]
    dex_register_maps := fun t => t.map (fun _ => true) ++ [false]
    dex_register_catalog := fun t => t.map (fun _ => true) ++ [false] }

/-! ## Notions used in the statements -/

/-- The table after the records `f x`, for `x` in `xs`, are deduplicated into
`rows` one after the other. -/
def DedupAll {α β : Type} [DecidableEq α] (f : β → α) (rows : List α) (xs : List β) : List α :=
  xs.foldl (fun t x => (Dedup t (f x)).2) rows

/-- The record that `BeginStackMapEntry` builds from a register mask. -/
def canonicalRegisterMask (register_mask : Nat) : RegisterMaskEntry :=
  ⟨register_mask >>> LeastSignificantBit register_mask, LeastSignificantBit register_mask⟩

/-- The non-zero register masks supplied by the `BeginStackMapEntry` calls of a
call sequence, in call order. -/
def suppliedRegisterMasks : List Call → List Nat
  | [] => []
  | Call.BeginStackMapEntry _ _ register_mask _ _ _ :: cs =>
    if register_mask ≠ 0 then register_mask :: suppliedRegisterMasks cs
    else suppliedRegisterMasks cs
  | _ :: cs => suppliedRegisterMasks cs

/-- The bits that `PrepareForFillIn` deduplicates for a retained reference when
memory is `mem`: none for `nullptr` and for a bitset with zero bits. -/
def deferredStackMask (mem : Nat → BitVector) : Option Nat → Option (List Bool)
  | none => none
  | some a =>
    if (mem a).GetNumberOfBits ≠ 0 then
      some ((mem a).GetRawStorage.take (mem a).GetNumberOfBits)
    else none

/-- The stack-mask references supplied by the `BeginStackMapEntry` calls of a
call sequence, in call order. -/
def suppliedStackMasks : List Call → List (Option Nat)
  | [] => []
  | Call.BeginStackMapEntry _ _ _ stack_mask _ _ :: cs => stack_mask :: suppliedStackMasks cs
  | _ :: cs => suppliedStackMasks cs

/-- Memory for the examples: the bitset at address `7` has the bits `101`, every
other bitset has no bits. -/
def sampleMemory : Nat → BitVector :=
  fun a => if a = 7 then ⟨[true, false, true]⟩ else ⟨[]⟩

/-- Whether a call is a `BeginStackMapEntry`. -/
def Call.isBeginStackMapEntry : Call → Bool
  | .BeginStackMapEntry _ _ _ _ _ _ => true
  | _ => false

/-- Whether a call is a `BeginInlineInfoEntry`. -/
def Call.isBeginInlineInfoEntry : Call → Bool
  | .BeginInlineInfoEntry _ _ _ _ => true
  | _ => false

/-- The bytecode pc and the packed native position of the positions opened by
the `BeginStackMapEntry` calls of a call sequence, in call order. -/
def suppliedPositions (E : Externals) (instruction_set : Nat) : List Call → List (Nat × Nat)
  | [] => []
  | Call.BeginStackMapEntry dex_pc native_pc_offset _ _ _ _ :: cs =>
    (dex_pc, E.PackNativePc native_pc_offset instruction_set) ::
      suppliedPositions E instruction_set cs
  | _ :: cs => suppliedPositions E instruction_set cs

/-- The number that a sequence of unsigned LEB128 bytes stands for: seven bits
from every byte, low group first. -/
def DecodeUnsignedLeb128 : List Nat → Nat
  | [] => 0
  | b :: bs => b % 128 + 128 * DecodeUnsignedLeb128 bs

/-- A builder for the examples: one position with bytecode pc 5, native
position `0x10`, register mask `0b1010000`, the stack mask at address 7 and
the two registers "in register 3" and "in register 7". -/
def sampleBuilder : StackMapStream :=
  match (StackMapStream.create 0).run sampleExternals
      [Call.BeginStackMapEntry 5 0x10 0b1010000 (some 7) 2 0,
       Call.AddDexRegisterEntry Kind.kInRegister 3,
       Call.AddDexRegisterEntry Kind.kInRegister 7,
       Call.EndStackMapEntry] with
  | .ok s => s
  | .error _ => StackMapStream.create 0

/-- Whether a call is an `AddDexRegisterEntry`. -/
def Call.isAddDexRegisterEntry : Call → Bool
  | .AddDexRegisterEntry _ _ => true
  | _ => false

/-- The dex-register-mask index stored on the current frame: on the innermost
record of the inline-frame accumulator if there is one, else on the current
Position Record. -/
def StackMapStream.frameDexRegisterMaskIndex (s : StackMapStream) : Nat :=
  match s.current_inline_infos_.getLast? with
  | some e => e.dex_register_mask_index
  | none => s.current_stack_map_.dex_register_mask_index

/-- The positions opened by the `BeginStackMapEntry` calls of a call sequence,
in call order: bytecode pc and packed native position, with the stack-mask
reference supplied to the same call. -/
def suppliedBegins (E : Externals) (instruction_set : Nat) :
    List Call → List ((Nat × Nat) × Option Nat)
  | [] => []
  | Call.BeginStackMapEntry dex_pc native_pc_offset _ stack_mask _ _ :: cs =>
    ((dex_pc, E.PackNativePc native_pc_offset instruction_set), stack_mask) ::
      suppliedBegins E instruction_set cs
  | _ :: cs => suppliedBegins E instruction_set cs

/-! # Theorems -/

/-! ## Register-mask canonicalisation -/

theorem CountTrailingZeros_spec (fuel : Nat) : ∀ x : Nat, 0 < x → x < 2 ^ fuel →
    CountTrailingZeros fuel x < fuel ∧ 2 ^ CountTrailingZeros fuel x ∣ x ∧
      x / 2 ^ CountTrailingZeros fuel x % 2 = 1 := by
  induction fuel with
  | zero => intro x h0 h1; simp at h1; omega
  | succ fuel ih =>
    intro x h0 h1
    unfold CountTrailingZeros
    by_cases hodd : x % 2 = 1
    · simp [hodd]
    · simp only [hodd, if_false]
      have hx2 : 0 < x / 2 := by omega
      have hlt : x / 2 < 2 ^ fuel := by
        rw [pow_succ] at h1; omega
      obtain ⟨hk, hdvd, hbit⟩ := ih (x / 2) hx2 hlt
      refine ⟨by omega, ?_, ?_⟩
      · have hx : x = x / 2 * 2 := by omega
        rw [pow_succ]
        have h2 := Nat.mul_dvd_mul hdvd (dvd_refl 2)
        rw [← hx] at h2
        exact h2
      · rw [pow_succ, Nat.mul_comm, ← Nat.div_div_eq_div_mul]; exact hbit

theorem LeastSignificantBit_spec (x : Nat) (h0 : x ≠ 0) (h32 : x < 2 ^ 32) :
    LeastSignificantBit x < 32 ∧ x.testBit (LeastSignificantBit x) = true ∧
      (∀ j, j < LeastSignificantBit x → x.testBit j = false) ∧
      (x >>> LeastSignificantBit x) % 2 = 1 ∧
      (x >>> LeastSignificantBit x) <<< LeastSignificantBit x = x := by
  obtain ⟨hk, hdvd, hbit⟩ := CountTrailingZeros_spec 32 x (Nat.pos_of_ne_zero h0) h32
  unfold LeastSignificantBit
  refine ⟨hk, ?_, ?_, ?_, ?_⟩
  · rw [Nat.testBit_to_div_mod]; simp [hbit]
  · intro j hj
    rw [Nat.testBit_to_div_mod]
    obtain ⟨q, hq⟩ := hdvd
    have hsplit : 2 ^ CountTrailingZeros 32 x =
        2 ^ j * (2 * 2 ^ (CountTrailingZeros 32 x - j - 1)) := by
      rw [← pow_succ', ← pow_add]; congr 1; omega
    have : x / 2 ^ j = 2 * (2 ^ (CountTrailingZeros 32 x - j - 1) * q) := by
      conv_lhs => rw [hq, hsplit]
      rw [Nat.mul_assoc, Nat.mul_div_cancel_left _ (Nat.pow_pos (by decide))]
      ring
    simp [this]
  · rw [Nat.shiftRight_eq_div_pow]; exact hbit
  · rw [Nat.shiftRight_eq_div_pow, Nat.shiftLeft_eq]
    exact Nat.div_mul_cancel hdvd

/-- C1: `BeginStackMapEntry` on a builder with no open position returns, and
for a non-zero 32-bit `register_mask` the record it hands to the Register Mask
Table is `(value, shift)` where `shift` is the index of the lowest set bit
(below 32), `value = register_mask >> shift` is odd and
`(value << shift) mod 2^32 = register_mask` (`0b1010000` gives shift 4 and
value `0b101`); the open record holds the index that `Dedup` returned.  For
`register_mask = 0` the Register Mask Table is unchanged and the open record's
`register_mask_index` is `kNoValue`. -/
theorem BeginStackMapEntry_register_mask_canonical (E : Externals) (s : StackMapStream)
    (dex_pc native_pc_offset register_mask : Nat) (stack_mask : Option Nat)
    (num_dex_registers inlining_depth : Nat)
    (hclosed : s.in_stack_map_ = false) (h32 : register_mask < 2 ^ 32) :
    ∃ s1, s.BeginStackMapEntry E dex_pc native_pc_offset register_mask stack_mask
        num_dex_registers inlining_depth = .ok s1 ∧
      (register_mask ≠ 0 → ∃ value shift,
        shift < 32 ∧ register_mask.testBit shift = true ∧
        (∀ j, j < shift → register_mask.testBit j = false) ∧
        value = register_mask >>> shift ∧ value % 2 = 1 ∧
        (value <<< shift) % 2 ^ 32 = register_mask ∧
        (register_mask = 0b1010000 → shift = 4 ∧ value = 0b101) ∧
        s1.register_masks_ = (Dedup s.register_masks_ ⟨value, shift⟩).2 ∧
        s1.current_stack_map_.register_mask_index =
          (Dedup s.register_masks_ ⟨value, shift⟩).1) ∧
      (register_mask = 0 → s1.register_masks_ = s.register_masks_ ∧
        s1.current_stack_map_.register_mask_index = kNoValue) := by
  by_cases h0 : register_mask = 0
  · subst h0
    refine ⟨_, by simp [StackMapStream.BeginStackMapEntry, hclosed]; rfl, ?_, ?_⟩
    · intro h; exact absurd rfl h
    · intro _; exact ⟨rfl, rfl⟩
  · obtain ⟨hk, hset, hlow, hodd, hback⟩ := LeastSignificantBit_spec register_mask h0 h32
    refine ⟨_, by simp [StackMapStream.BeginStackMapEntry, hclosed, h0]; rfl, ?_, ?_⟩
    · intro _
      refine ⟨register_mask >>> LeastSignificantBit register_mask,
        LeastSignificantBit register_mask, hk, hset, hlow, rfl, hodd, ?_, ?_, rfl, rfl⟩
      · rw [hback]; exact Nat.mod_eq_of_lt h32
      · intro h; subst h; decide
    · intro h; exact absurd h h0

/-- The theorem `BeginStackMapEntry_register_mask_canonical` at the mask
`0b1010000` on a new builder. -/
theorem BeginStackMapEntry_register_mask_canonical_witness :
    (StackMapStream.create 0).in_stack_map_ = false ∧ 0b1010000 < 2 ^ 32 ∧
    ∃ s1, (StackMapStream.create 0).BeginStackMapEntry sampleExternals 5 0x10 0b1010000 none
        2 0 = .ok s1 ∧
      (0b1010000 ≠ 0 → ∃ value shift,
        shift < 32 ∧ (0b1010000 : Nat).testBit shift = true ∧
        (∀ j, j < shift → (0b1010000 : Nat).testBit j = false) ∧
        value = 0b1010000 >>> shift ∧ value % 2 = 1 ∧
        (value <<< shift) % 2 ^ 32 = 0b1010000 ∧
        (0b1010000 = 0b1010000 → shift = 4 ∧ value = 0b101) ∧
        s1.register_masks_ = (Dedup (StackMapStream.create 0).register_masks_ ⟨value, shift⟩).2 ∧
        s1.current_stack_map_.register_mask_index =
          (Dedup (StackMapStream.create 0).register_masks_ ⟨value, shift⟩).1) ∧
      (0b1010000 = 0 → s1.register_masks_ = (StackMapStream.create 0).register_masks_ ∧
        s1.current_stack_map_.register_mask_index = kNoValue) :=
  ⟨rfl, by decide, BeginStackMapEntry_register_mask_canonical sampleExternals
    (StackMapStream.create 0) 5 0x10 0b1010000 none 2 0 rfl (by decide)⟩

/-! ## Catalogue deduplication -/

theorem Dedup_table {α : Type} [DecidableEq α] (rows : List α) (x : α) :
    (Dedup rows x).2 = if x ∈ rows then rows else rows ++ [x] := by
  unfold Dedup; split <;> rfl

theorem Dedup_extends {α : Type} [DecidableEq α] (rows : List α) (x : α) :
    ∃ ext, (Dedup rows x).2 = rows ++ ext := by
  unfold Dedup; split
  · exact ⟨[], by simp⟩
  · exact ⟨[x], rfl⟩

theorem Dedup_mem {α : Type} [DecidableEq α] (rows : List α) (x : α) :
    x ∈ (Dedup rows x).2 := by
  unfold Dedup; split
  · assumption
  · simp

theorem Dedup_index {α : Type} [DecidableEq α] (rows : List α) (x : α) (ext : List α) :
    ((Dedup rows x).2 ++ ext).indexOf x = (Dedup rows x).1 := by
  unfold Dedup; split
  · rename_i h; simp [List.indexOf_append_of_mem h]
  · rename_i h
    simp only [List.append_assoc]
    rw [List.indexOf_append_of_not_mem h]
    simp

theorem Dedup_index_self {α : Type} [DecidableEq α] (rows : List α) (x : α) :
    (Dedup rows x).2.indexOf x = (Dedup rows x).1 := by
  simpa using Dedup_index rows x []

/-! ## Bit vectors -/

theorem SetBit_bits (v : BitVector) (i : Nat) (h : v.bits.length ≤ i) :
    (v.SetBit i).bits = v.bits ++ List.replicate (i - v.bits.length) false ++ [true] := by
  unfold BitVector.SetBit
  have e : i + 1 - v.bits.length = (i - v.bits.length) + 1 := by omega
  rw [e, List.replicate_succ', ← List.append_assoc]
  have hl : (v.bits ++ List.replicate (i - v.bits.length) false).length = i := by
    simp; omega
  conv_lhs => rw [← hl]
  simp



/-! ## Dex-register-map synthesis -/

theorem CreateDexRegisterMapLoop_spec (E : Externals) (regs : List DexRegisterLocation) :
    ∀ (i : Nat) (mask : BitVector) (map : List Nat) (catalog : List DexRegisterEntry),
      mask.bits.length ≤ i →
      (∃ ext, (CreateDexRegisterMapLoop E regs i (mask, map, catalog)).2.2 = catalog ++ ext) ∧
      (∀ reg ∈ regs, reg.IsLive = true →
        (⟨reg.kind, E.PackValue reg.kind reg.value⟩ : DexRegisterEntry) ∈
          (CreateDexRegisterMapLoop E regs i (mask, map, catalog)).2.2) ∧
      (CreateDexRegisterMapLoop E regs i (mask, map, catalog)).2.1 =
        map ++ (regs.filter (fun reg => reg.IsLive)).map (fun reg =>
          (CreateDexRegisterMapLoop E regs i (mask, map, catalog)).2.2.indexOf
            ⟨reg.kind, E.PackValue reg.kind reg.value⟩) ∧
      (CreateDexRegisterMapLoop E regs i (mask, map, catalog)).1.bits.length ≤ i + regs.length ∧
      (∀ j, (CreateDexRegisterMapLoop E regs i (mask, map, catalog)).1.IsBitSet j =
        if j < i then mask.IsBitSet j else (regs.map (fun reg => reg.IsLive)).getD (j - i) false) ∧
      (CreateDexRegisterMapLoop E regs i (mask, map, catalog)).1.bits.count true =
        mask.bits.count true + (regs.filter (fun reg => reg.IsLive)).length := by
  induction regs with
  | nil =>
    intro i mask map catalog hlen
    refine ⟨⟨[], by simp [CreateDexRegisterMapLoop]⟩, by simp, by simp [CreateDexRegisterMapLoop],
      by simpa [CreateDexRegisterMapLoop] using hlen, ?_, by simp [CreateDexRegisterMapLoop]⟩
    intro j
    simp only [CreateDexRegisterMapLoop, List.map_nil, List.getD_nil]
    split
    · rfl
    · unfold BitVector.IsBitSet
      rw [List.getD_eq_default]; omega
  | cons reg rest ih =>
    intro i mask map catalog hlen
    by_cases hlive : reg.IsLive = true
    · have hstep : CreateDexRegisterMapLoop E (reg :: rest) i (mask, map, catalog) =
          CreateDexRegisterMapLoop E rest (i + 1) (mask.SetBit i,
            map ++ [(Dedup catalog ⟨reg.kind, E.PackValue reg.kind reg.value⟩).1],
            (Dedup catalog ⟨reg.kind, E.PackValue reg.kind reg.value⟩).2) := by
        simp [CreateDexRegisterMapLoop, hlive]
      rw [hstep]
      have hbits := SetBit_bits mask i hlen
      have hlen1 : (mask.SetBit i).bits.length ≤ i + 1 := by
        rw [hbits]; simp; omega
      obtain ⟨⟨ext, hext⟩, hmem, hmap, hl, hbit, hcount⟩ :=
        ih (i + 1) (mask.SetBit i)
          (map ++ [(Dedup catalog ⟨reg.kind, E.PackValue reg.kind reg.value⟩).1])
          (Dedup catalog ⟨reg.kind, E.PackValue reg.kind reg.value⟩).2 hlen1
      obtain ⟨ext0, hext0⟩ := Dedup_extends catalog
        (⟨reg.kind, E.PackValue reg.kind reg.value⟩ : DexRegisterEntry)
      refine ⟨⟨ext0 ++ ext, by rw [hext, hext0, List.append_assoc]⟩, ?_, ?_, ?_, ?_, ?_⟩
      · intro r hr hrl
        rcases List.mem_cons.mp hr with h | h
        · subst h
          rw [hext]
          exact List.mem_append_left _ (Dedup_mem _ _)
        · exact hmem r h hrl
      · rw [hmap]
        simp only [List.filter_cons, hlive, if_true, List.map_cons, List.append_assoc,
          List.singleton_append]
        congr 2
        rw [hext, Dedup_index]
      · simp only [List.length_cons]; omega
      · intro j
        rw [hbit]
        by_cases hj : j < i
        · have hj1 : j < i + 1 := by omega
          simp only [hj, hj1, if_true]
          unfold BitVector.IsBitSet
          rw [hbits]
          by_cases hjl : j < mask.bits.length
          · simp [List.getD_eq_getElem?_getD, List.getElem?_append_left, hjl]
          · have h1 : mask.bits.length ≤ j := by omega
            rw [List.getD_eq_default _ _ h1]
            simp only [List.getD_eq_getElem?_getD, List.append_assoc]
            rw [List.getElem?_append_right h1]
            have h2 : j - mask.bits.length < (List.replicate (i - mask.bits.length) false).length := by
              simp; omega
            rw [List.getElem?_append_left h2]
            simp
        · by_cases hji : j = i
          · subst hji
            simp only [lt_add_one, if_true, lt_irrefl, if_false, Nat.sub_self]
            unfold BitVector.IsBitSet
            rw [hbits]
            have hl2 : (mask.bits ++ List.replicate (j - mask.bits.length) false).length = j := by
              simp; omega
            simp [List.getD_eq_getElem?_getD, hlive]
            rw [List.getElem?_append_right (by omega)]
            simp
          · have hj1 : ¬ j < i + 1 := by omega
            simp only [hj, hj1, if_false]
            have : j - i = (j - (i + 1)) + 1 := by omega
            rw [this]
            simp
      · rw [hcount, hbits]
        simp [List.count_append, List.filter_cons, hlive, List.count_replicate]
        omega
    · have hstep : CreateDexRegisterMapLoop E (reg :: rest) i (mask, map, catalog) =
          CreateDexRegisterMapLoop E rest (i + 1) (mask, map, catalog) := by
        simp [CreateDexRegisterMapLoop, hlive]
      rw [hstep]
      obtain ⟨hext, hmem, hmap, hl, hbit, hcount⟩ :=
        ih (i + 1) mask map catalog (by omega)
      refine ⟨hext, ?_, ?_, ?_, ?_, ?_⟩
      · intro r hr hrl
        rcases List.mem_cons.mp hr with h | h
        · subst h; exact absurd hrl hlive
        · exact hmem r h hrl
      · rw [hmap]; simp [List.filter_cons, hlive]
      · simp only [List.length_cons]; omega
      · intro j
        rw [hbit]
        by_cases hj : j < i
        · have hj1 : j < i + 1 := by omega
          simp [hj, hj1]
        · by_cases hji : j = i
          · subst hji
            simp only [lt_add_one, if_true, lt_irrefl, if_false, Nat.sub_self]
            unfold BitVector.IsBitSet
            rw [List.getD_eq_default _ _ hlen]
            simp [hlive]
          · have hj1 : ¬ j < i + 1 := by omega
            simp only [hj, hj1, if_false]
            have : j - i = (j - (i + 1)) + 1 := by omega
            rw [this]
            simp
      · rw [hcount]; simp [List.filter_cons, hlive]

theorem CreateDexRegisterMap_temp (E : Externals) (s : StackMapStream) :
    (s.CreateDexRegisterMap E).temp_dex_register_mask_ =
        (CreateDexRegisterMapLoop E s.current_dex_registers_ 0
          (⟨[]⟩, [], s.dex_register_catalog_)).1 ∧
      (s.CreateDexRegisterMap E).temp_dex_register_map_ =
        (CreateDexRegisterMapLoop E s.current_dex_registers_ 0
          (⟨[]⟩, [], s.dex_register_catalog_)).2.1 ∧
      (s.CreateDexRegisterMap E).dex_register_catalog_ =
        (CreateDexRegisterMapLoop E s.current_dex_registers_ 0
          (⟨[]⟩, [], s.dex_register_catalog_)).2.2 := by
  unfold StackMapStream.CreateDexRegisterMap
  simp only [BitVector.ClearAllBits]
  split <;> exact ⟨rfl, rfl, rfl⟩

/-- C2: `CreateDexRegisterMap` leaves in `temp_dex_register_mask_` a bitset in
which bit `i` is set iff register `i` of the accumulator exists and is live,
and in `temp_dex_register_map_`, for exactly the live registers and in slot
order, the index in the Register-Location Catalogue of the record
`(kind, PackValue(kind, value))`, which the catalogue then holds.  The index
sequence is as long as the number of set bits.  Both are the same for every
builder with the same accumulator and catalogue, whatever the mask and map
left by an earlier synthesis.  On a new builder the registers "in register 3"
and "in register 7" give the bits `{0, 1}` and the index sequence `[0, 1]`
(for a `PackValue` that tells 3 from 7). -/
theorem CreateDexRegisterMap_mask_and_map (E : Externals) (s : StackMapStream) :
    (∀ i, (s.CreateDexRegisterMap E).temp_dex_register_mask_.IsBitSet i = true ↔
      ∃ reg, s.current_dex_registers_[i]? = some reg ∧ reg.IsLive = true) ∧
    (s.CreateDexRegisterMap E).temp_dex_register_map_ =
      (s.current_dex_registers_.filter (fun reg => reg.IsLive)).map (fun reg =>
        (s.CreateDexRegisterMap E).dex_register_catalog_.indexOf
          ⟨reg.kind, E.PackValue reg.kind reg.value⟩) ∧
    (∀ reg ∈ s.current_dex_registers_, reg.IsLive = true →
      (⟨reg.kind, E.PackValue reg.kind reg.value⟩ : DexRegisterEntry) ∈
        (s.CreateDexRegisterMap E).dex_register_catalog_) ∧
    (s.CreateDexRegisterMap E).temp_dex_register_map_.length =
      (s.CreateDexRegisterMap E).temp_dex_register_mask_.bits.count true ∧
    (∀ s2 : StackMapStream, s2.current_dex_registers_ = s.current_dex_registers_ →
      s2.dex_register_catalog_ = s.dex_register_catalog_ →
      (s2.CreateDexRegisterMap E).temp_dex_register_mask_ =
          (s.CreateDexRegisterMap E).temp_dex_register_mask_ ∧
        (s2.CreateDexRegisterMap E).temp_dex_register_map_ =
          (s.CreateDexRegisterMap E).temp_dex_register_map_) ∧
    (E.PackValue Kind.kInRegister 3 ≠ E.PackValue Kind.kInRegister 7 →
      ∃ s1, (StackMapStream.create s.instruction_set_).run E
          [Call.BeginStackMapEntry 5 0x10 0b1010000 none 2 0,
           Call.AddDexRegisterEntry Kind.kInRegister 3,
           Call.AddDexRegisterEntry Kind.kInRegister 7] = .ok s1 ∧
        s1.temp_dex_register_mask_.bits = [true, true] ∧
        s1.temp_dex_register_map_ = [0, 1]) := by
  obtain ⟨hm, hp, hc⟩ := CreateDexRegisterMap_temp E s
  obtain ⟨-, hmem, hmap, -, hbit, hcount⟩ :=
    CreateDexRegisterMapLoop_spec E s.current_dex_registers_ 0 ⟨[]⟩ [] s.dex_register_catalog_
      (Nat.le_refl _)
  refine ⟨?_, ?_, ?_, ?_, ?_, ?_⟩
  · intro i
    rw [hm, hbit]
    simp only [Nat.not_lt_zero, if_false, Nat.sub_zero, List.getD_eq_getElem?_getD,
      List.getElem?_map]
    cases h : s.current_dex_registers_[i]? with
    | none => simp
    | some reg => simp
  · rw [hp, hc]; simpa using hmap
  · rw [hc]; exact hmem
  · rw [hp, hm, hcount, hmap]; simp
  · intro s2 h1 h2
    obtain ⟨hm2, hp2, -⟩ := CreateDexRegisterMap_temp E s2
    rw [hm2, hp2, hm, hp, h1, h2]
    exact ⟨rfl, rfl⟩
  · intro hne
    refine ⟨_, rfl, ?_, ?_⟩
    · rw [(CreateDexRegisterMap_temp E _).1]
      simp [CreateDexRegisterMapLoop, DexRegisterLocation.IsLive, BitVector.SetBit]
    · rw [(CreateDexRegisterMap_temp E _).2.1]
      simp [CreateDexRegisterMapLoop, DexRegisterLocation.IsLive, Dedup, hne.symm,
        StackMapStream.create]

/-- The theorem `CreateDexRegisterMap_mask_and_map` on a builder whose
accumulator holds a dead register between two live ones. -/
theorem CreateDexRegisterMap_mask_and_map_witness :
    ((({ StackMapStream.create 0 with
          current_dex_registers_ := [⟨Kind.kInRegister, 3⟩, ⟨Kind.kNone, 0⟩, ⟨Kind.kInStack, 8⟩] }
        ).CreateDexRegisterMap sampleExternals).temp_dex_register_mask_.IsBitSet 1 = true ↔
      ∃ reg, ({ StackMapStream.create 0 with
          current_dex_registers_ := [⟨Kind.kInRegister, 3⟩, ⟨Kind.kNone, 0⟩, ⟨Kind.kInStack, 8⟩] }
        ).current_dex_registers_[1]? = some reg ∧ reg.IsLive = true) ∧
    (sampleExternals.PackValue Kind.kInRegister 3 ≠ sampleExternals.PackValue Kind.kInRegister 7 →
      ∃ s1, (StackMapStream.create 0).run sampleExternals
          [Call.BeginStackMapEntry 5 0x10 0b1010000 none 2 0,
           Call.AddDexRegisterEntry Kind.kInRegister 3,
           Call.AddDexRegisterEntry Kind.kInRegister 7] = .ok s1 ∧
        s1.temp_dex_register_mask_.bits = [true, true] ∧
        s1.temp_dex_register_map_ = [0, 1]) :=
  ⟨(CreateDexRegisterMap_mask_and_map sampleExternals _).1 1,
   (CreateDexRegisterMap_mask_and_map sampleExternals (StackMapStream.create 0)).2.2.2.2.2⟩

/-! ## Deduplication of a sequence of insertions -/


theorem DedupAll_append {α β : Type} [DecidableEq α] (f : β → α) (rows : List α)
    (xs ys : List β) : DedupAll f rows (xs ++ ys) = DedupAll f (DedupAll f rows xs) ys := by
  simp [DedupAll, List.foldl_append]

theorem DedupAll_spec {α β : Type} [DecidableEq α] [DecidableEq β] (f : β → α)
    (hf : Function.Injective f) (xs : List β) :
    (DedupAll f [] xs).length = xs.toFinset.card ∧
    (∀ x, f x ∈ DedupAll f [] xs ↔ x ∈ xs) ∧
    (∀ x ∈ xs, (DedupAll f [] xs).indexOf (f x) = (xs.take (xs.indexOf x)).toFinset.card) ∧
    (DedupAll f [] xs).Nodup := by
  induction xs using List.reverseRecOn with
  | nil => simp [DedupAll]
  | append_singleton xs y ih =>
    obtain ⟨hlen, hmem, hidx, hnd⟩ := ih
    have hstep : DedupAll f [] (xs ++ [y]) = (Dedup (DedupAll f [] xs) (f y)).2 := by
      simp [DedupAll, List.foldl_append]
    by_cases hy : y ∈ xs
    · have hfy : f y ∈ DedupAll f [] xs := (hmem y).2 hy
      have htab : DedupAll f [] (xs ++ [y]) = DedupAll f [] xs := by
        rw [hstep, Dedup_table, if_pos hfy]
      rw [htab]
      refine ⟨?_, ?_, ?_, hnd⟩
      · rw [hlen]; congr 1; ext z; simp; intro h; subst h; exact hy
      · intro x; rw [hmem]; simp; intro h; subst h; exact hy
      · intro x hx
        have hx' : x ∈ xs := by
          rcases List.mem_append.mp hx with h | h
          · exact h
          · simp at h; subst h; exact hy
        rw [hidx x hx', List.indexOf_append_of_mem hx',
          List.take_append_of_le_length (List.indexOf_le_length)]
    · have hfy : f y ∉ DedupAll f [] xs := fun h => hy ((hmem y).1 h)
      have htab : DedupAll f [] (xs ++ [y]) = DedupAll f [] xs ++ [f y] := by
        rw [hstep, Dedup_table, if_neg hfy]
      rw [htab]
      refine ⟨?_, ?_, ?_, ?_⟩
      · have hy2 : y ∉ xs.toFinset := by simpa using hy
        have hu : (xs ++ [y]).toFinset = insert y xs.toFinset := by
          ext z; simp [or_comm]
        rw [hu, Finset.card_insert_of_not_mem hy2]
        simp [hlen]
      · intro x
        simp only [List.mem_append, List.mem_singleton, hmem]
        constructor
        · rintro (h | h)
          · exact Or.inl h
          · exact Or.inr (hf h)
        · rintro (h | h)
          · exact Or.inl h
          · exact Or.inr (by rw [h])
      · intro x hx
        by_cases hx' : x ∈ xs
        · rw [List.indexOf_append_of_mem ((hmem x).2 hx'), hidx x hx',
            List.indexOf_append_of_mem hx',
            List.take_append_of_le_length (List.indexOf_le_length)]
        · have hxy : x = y := by
            rcases List.mem_append.mp hx with h | h
            · exact absurd h hx'
            · simpa using h
          subst hxy
          rw [List.indexOf_append_of_not_mem hfy, List.indexOf_append_of_not_mem hx']
          simp [hlen]
      · rw [List.nodup_append]
        refine ⟨hnd, by simp, ?_⟩
        intro a ha hb
        simp at hb; subst hb; exact hfy ha

/-! ## The effect of each call -/

theorem BeginStackMapEntry_ok (E : Externals) (s s1 : StackMapStream)
    (dex_pc native_pc_offset register_mask : Nat) (stack_mask : Option Nat)
    (num_dex_registers inlining_depth : Nat)
    (h : s.BeginStackMapEntry E dex_pc native_pc_offset register_mask stack_mask
      num_dex_registers inlining_depth = .ok s1) :
    s.in_stack_map_ = false ∧
    s1 = { s with
      in_stack_map_ := true,
      current_stack_map_ :=
        ⟨E.PackNativePc native_pc_offset s.instruction_set_, dex_pc,
          if register_mask ≠ 0 then
            (Dedup s.register_masks_ ⟨register_mask >>> LeastSignificantBit register_mask,
              LeastSignificantBit register_mask⟩).1
          else kNoValue,
          kNoValue, kNoValue, kNoValue, kNoValue⟩,
      register_masks_ :=
        if register_mask ≠ 0 then
          (Dedup s.register_masks_ ⟨register_mask >>> LeastSignificantBit register_mask,
            LeastSignificantBit register_mask⟩).2
        else s.register_masks_,
      lazy_stack_masks_ := s.lazy_stack_masks_ ++ [stack_mask],
      current_inline_infos_ := [],
      current_dex_registers_ := [],
      expected_num_dex_registers_ := num_dex_registers } := by
  cases hin : s.in_stack_map_ with
  | true => simp [StackMapStream.BeginStackMapEntry, hin] at h
  | false =>
    refine ⟨rfl, ?_⟩
    by_cases hm : register_mask = 0
    · subst hm
      simp [StackMapStream.BeginStackMapEntry, hin] at h
      rw [← h]; simp
    · simp [StackMapStream.BeginStackMapEntry, hin, hm] at h
      rw [← h]; simp [hm]

theorem EndStackMapEntry_ok (s s1 : StackMapStream) (h : s.EndStackMapEntry = .ok s1) :
    s.in_stack_map_ = true ∧
    s.expected_num_dex_registers_ = s.current_dex_registers_.length ∧
    s1 = (if s.current_inline_infos_ = [] then
        { s with
          in_stack_map_ := false,
          stack_maps_ := s.stack_maps_ ++ [s.current_stack_map_] }
      else
        { s with
          in_stack_map_ := false,
          current_inline_infos_ :=
            modifyBack s.current_inline_infos_ (fun e => { e with is_last := IsLast.kLast }),
          inline_infos_ := (Dedup s.inline_infos_
            (modifyBack s.current_inline_infos_ (fun e => { e with is_last := IsLast.kLast }))).2,
          current_stack_map_ := { s.current_stack_map_ with inline_info_index :=
            (Dedup s.inline_infos_
              (modifyBack s.current_inline_infos_
                (fun e => { e with is_last := IsLast.kLast }))).1 },
          stack_maps_ := s.stack_maps_ ++ [{ s.current_stack_map_ with inline_info_index :=
            (Dedup s.inline_infos_
              (modifyBack s.current_inline_infos_
                (fun e => { e with is_last := IsLast.kLast }))).1 }] }) := by
  cases hin : s.in_stack_map_ with
  | false => simp [StackMapStream.EndStackMapEntry, hin] at h
  | true =>
    by_cases hq : s.expected_num_dex_registers_ = s.current_dex_registers_.length
    · refine ⟨rfl, hq, ?_⟩
      by_cases he : s.current_inline_infos_ = []
      · simp [StackMapStream.EndStackMapEntry, hin, hq, he, Add] at h
        rw [← h]; simp [he, hq]
      · have he2 : s.current_inline_infos_.isEmpty = false := by
          simpa [List.isEmpty_iff] using he
        simp [StackMapStream.EndStackMapEntry, hin, hq, he2, Add] at h
        rw [← h]; simp [he, hq]
    · simp [StackMapStream.EndStackMapEntry, hin, hq] at h

theorem CreateDexRegisterMap_eq (E : Externals) (s : StackMapStream) :
    s.CreateDexRegisterMap E =
      (let l := CreateDexRegisterMapLoop E s.current_dex_registers_ 0
        (⟨[]⟩, [], s.dex_register_catalog_)
      let m := if l.1.bits.length ≠ 0 then DedupBitmap s.dex_register_masks_ l.1.bits
        l.1.bits.length else (kNoValue, s.dex_register_masks_)
      let r := Dedup s.dex_register_maps_ l.2.1
      if s.current_inline_infos_ = [] then
        { s with
          temp_dex_register_mask_ := l.1,
          temp_dex_register_map_ := l.2.1,
          dex_register_catalog_ := l.2.2,
          dex_register_masks_ := m.2,
          dex_register_maps_ := r.2,
          current_stack_map_ := { s.current_stack_map_ with
            dex_register_mask_index := m.1, dex_register_map_index := r.1 } }
      else
        { s with
          temp_dex_register_mask_ := l.1,
          temp_dex_register_map_ := l.2.1,
          dex_register_catalog_ := l.2.2,
          dex_register_masks_ := m.2,
          dex_register_maps_ := r.2,
          current_inline_infos_ := modifyBack s.current_inline_infos_ (fun e =>
            { e with dex_register_mask_index := m.1, dex_register_map_index := r.1 }) }) := by
  by_cases he : s.current_inline_infos_ = []
  · simp [StackMapStream.CreateDexRegisterMap, he, BitVector.ClearAllBits,
      BitVector.GetNumberOfBits, BitVector.GetRawStorage]
  · have he2 : s.current_inline_infos_.isEmpty = false := by
      simpa [List.isEmpty_iff] using he
    simp [StackMapStream.CreateDexRegisterMap, he, he2, BitVector.ClearAllBits,
      BitVector.GetNumberOfBits, BitVector.GetRawStorage]

theorem AddDexRegisterEntry_ok (E : Externals) (s s1 : StackMapStream) (kind : Kind)
    (value : Int) (h : s.AddDexRegisterEntry E kind value = .ok s1) :
    s1 = (if s.current_dex_registers_.length + 1 = s.expected_num_dex_registers_ then
        ({ s with current_dex_registers_ := s.current_dex_registers_ ++ [DexRegisterLocation.mk kind value] }
          ).CreateDexRegisterMap E
      else { s with current_dex_registers_ := s.current_dex_registers_ ++ [DexRegisterLocation.mk kind value] }) := by
  unfold StackMapStream.AddDexRegisterEntry at h
  simp only [List.length_append, List.length_singleton] at h
  split at h <;> rename_i hc
  · rw [if_pos hc]; exact (Except.ok.inj h).symm
  · rw [if_neg hc]; exact (Except.ok.inj h).symm

theorem AddInvoke_ok (s s1 : StackMapStream) (invoke_type dex_method_index : Nat)
    (h : s.AddInvoke invoke_type dex_method_index = .ok s1) :
    s1 = { s with
      method_infos_ := (Dedup s.method_infos_ dex_method_index).2,
      invoke_infos_ := s.invoke_infos_ ++ [⟨s.current_stack_map_.packed_native_pc, invoke_type,
        (Dedup s.method_infos_ dex_method_index).1⟩] } := by
  unfold StackMapStream.AddInvoke at h
  exact (Except.ok.inj h).symm

theorem BeginInlineInfoEntry_ok (E : Externals) (s s1 : StackMapStream) (method : ArtMethod)
    (dex_pc num_dex_registers outer_dex_file : Nat)
    (h : s.BeginInlineInfoEntry E method dex_pc num_dex_registers outer_dex_file = .ok s1) :
    s.in_inline_info_ = false ∧
    s.expected_num_dex_registers_ = s.current_dex_registers_.length ∧
    s1 = { s with
      in_inline_info_ := true,
      method_infos_ :=
        if E.EncodeArtMethodInInlineInfo method = true then s.method_infos_
        else (Dedup s.method_infos_ method.dex_method_index).2,
      current_inline_infos_ := s.current_inline_infos_ ++
        [⟨IsLast.kMore, dex_pc,
          if E.EncodeArtMethodInInlineInfo method = true then kNoValue
          else (Dedup s.method_infos_ method.dex_method_index).1,
          if E.EncodeArtMethodInInlineInfo method = true then High32Bits method.address
          else kNoValue,
          if E.EncodeArtMethodInInlineInfo method = true then Low32Bits method.address
          else kNoValue,
          kNoValue, kNoValue⟩],
      current_dex_registers_ := [],
      expected_num_dex_registers_ := num_dex_registers } := by
  cases hin : s.in_inline_info_ with
  | true => simp [StackMapStream.BeginInlineInfoEntry, hin] at h
  | false =>
    by_cases hq : s.expected_num_dex_registers_ = s.current_dex_registers_.length
    · refine ⟨rfl, hq, ?_⟩
      cases henc : E.EncodeArtMethodInInlineInfo method with
      | true =>
        simp [StackMapStream.BeginInlineInfoEntry, hin, hq, henc] at h
        rw [← h]; simp [hq]
      | false =>
        simp only [StackMapStream.BeginInlineInfoEntry, hin, hq, henc, ne_eq,
          not_true_eq_false, if_false, Bool.false_eq_true] at h
        split at h
        · exact absurd h (by simp)
        · rw [← Except.ok.inj h]; simp [hq]
    · simp [StackMapStream.BeginInlineInfoEntry, hin, hq] at h

theorem EndInlineInfoEntry_ok (s s1 : StackMapStream) (h : s.EndInlineInfoEntry = .ok s1) :
    s.in_inline_info_ = true ∧
    s.expected_num_dex_registers_ = s.current_dex_registers_.length ∧
    s1 = { s with in_inline_info_ := false } := by
  cases hin : s.in_inline_info_ with
  | false => simp [StackMapStream.EndInlineInfoEntry, hin] at h
  | true =>
    by_cases hq : s.expected_num_dex_registers_ = s.current_dex_registers_.length
    · refine ⟨rfl, hq, ?_⟩
      simp [StackMapStream.EndInlineInfoEntry, hin, hq] at h
      rw [← h]; simp [hq]
    · simp [StackMapStream.EndInlineInfoEntry, hin, hq] at h

theorem run_cons_ok (E : Externals) (s s2 : StackMapStream) (c : Call) (cs : List Call)
    (h : s.run E (c :: cs) = .ok s2) :
    ∃ s1, s.call E c = .ok s1 ∧ s1.run E cs = .ok s2 := by
  unfold StackMapStream.run at h
  cases hc : s.call E c with
  | error f => simp [hc] at h
  | ok s1 => exact ⟨s1, rfl, by simpa [hc] using h⟩

theorem run_append_ok (E : Externals) (cs1 cs2 : List Call) :
    ∀ (s s2 : StackMapStream), s.run E (cs1 ++ cs2) = .ok s2 →
      ∃ s1, s.run E cs1 = .ok s1 ∧ s1.run E cs2 = .ok s2 := by
  induction cs1 with
  | nil => intro s s2 h; exact ⟨s, rfl, h⟩
  | cons c cs ih =>
    intro s s2 h
    obtain ⟨sa, hca, hra⟩ := run_cons_ok E s s2 c (cs ++ cs2) h
    obtain ⟨s1, h1, h2⟩ := ih sa s2 hra
    exact ⟨s1, by simp [StackMapStream.run, hca, h1], h2⟩


/-! ## Register mask indices -/

theorem CountTrailingZeros_dvd (fuel : Nat) : ∀ x : Nat, 2 ^ CountTrailingZeros fuel x ∣ x := by
  induction fuel with
  | zero => intro x; simp [CountTrailingZeros]
  | succ fuel ih =>
    intro x
    unfold CountTrailingZeros
    by_cases hodd : x % 2 = 1
    · simp [hodd]
    · simp only [hodd, if_false]
      have hx : x = x / 2 * 2 := by omega
      rw [pow_succ]
      have h2 := Nat.mul_dvd_mul (ih (x / 2)) (dvd_refl 2)
      rw [← hx] at h2
      exact h2

theorem canonicalRegisterMask_injective : Function.Injective canonicalRegisterMask := by
  intro a b h
  unfold canonicalRegisterMask at h
  injection h with hv hs
  rw [← hs] at hv
  have ha := CountTrailingZeros_dvd 32 a
  have hb := CountTrailingZeros_dvd 32 b
  unfold LeastSignificantBit at hv hs
  rw [← hs] at hb
  rw [Nat.shiftRight_eq_div_pow, Nat.shiftRight_eq_div_pow] at hv
  rw [← Nat.div_mul_cancel ha, ← Nat.div_mul_cancel hb, hv]

theorem CreateDexRegisterMap_register_masks (E : Externals) (s : StackMapStream) :
    (s.CreateDexRegisterMap E).register_masks_ = s.register_masks_ := by
  rw [CreateDexRegisterMap_eq]
  dsimp only
  split <;> rfl

theorem call_register_masks (E : Externals) (s s1 : StackMapStream) (c : Call)
    (h : s.call E c = .ok s1) :
    s1.register_masks_ =
      DedupAll canonicalRegisterMask s.register_masks_ (suppliedRegisterMasks [c]) := by
  cases c with
  | BeginStackMapEntry dex_pc native_pc_offset register_mask stack_mask num_dex_registers
      inlining_depth =>
    obtain ⟨-, hs⟩ := BeginStackMapEntry_ok E s s1 dex_pc native_pc_offset register_mask
      stack_mask num_dex_registers inlining_depth h
    rw [hs]
    by_cases hm : register_mask = 0
    · simp [suppliedRegisterMasks, hm, DedupAll]
    · simp [suppliedRegisterMasks, hm, DedupAll, canonicalRegisterMask]
  | EndStackMapEntry =>
    obtain ⟨-, -, hs⟩ := EndStackMapEntry_ok s s1 h
    rw [hs]; split <;> simp [suppliedRegisterMasks, DedupAll]
  | AddDexRegisterEntry kind value =>
    have hs := AddDexRegisterEntry_ok E s s1 kind value h
    rw [hs]
    split
    · rw [CreateDexRegisterMap_register_masks]; simp [suppliedRegisterMasks, DedupAll]
    · simp [suppliedRegisterMasks, DedupAll]
  | AddInvoke invoke_type dex_method_index =>
    have hs := AddInvoke_ok s s1 _ _ h
    rw [hs]; simp [suppliedRegisterMasks, DedupAll]
  | BeginInlineInfoEntry method dex_pc num_dex_registers outer_dex_file =>
    obtain ⟨-, -, hs⟩ := BeginInlineInfoEntry_ok E s s1 _ _ _ _ h
    rw [hs]; simp [suppliedRegisterMasks, DedupAll]
  | EndInlineInfoEntry =>
    obtain ⟨-, -, hs⟩ := EndInlineInfoEntry_ok s s1 h
    rw [hs]; simp [suppliedRegisterMasks, DedupAll]

theorem suppliedRegisterMasks_cons (c : Call) (cs : List Call) :
    suppliedRegisterMasks (c :: cs) = suppliedRegisterMasks [c] ++ suppliedRegisterMasks cs := by
  cases c <;> simp [suppliedRegisterMasks]
  split <;> simp

theorem run_register_masks (E : Externals) (cs : List Call) :
    ∀ (s s1 : StackMapStream), s.run E cs = .ok s1 →
      s1.register_masks_ =
        DedupAll canonicalRegisterMask s.register_masks_ (suppliedRegisterMasks cs) := by
  induction cs with
  | nil =>
    intro s s1 h
    simp [StackMapStream.run] at h
    rw [← h]; simp [suppliedRegisterMasks, DedupAll]
  | cons c cs ih =>
    intro s s1 h
    obtain ⟨sa, hca, hra⟩ := run_cons_ok E s s1 c cs h
    rw [suppliedRegisterMasks_cons, DedupAll_append, ← call_register_masks E s sa c hca]
    exact ih sa s1 hra

theorem Dedup_DedupAll {α β : Type} [DecidableEq α] [DecidableEq β] (f : β → α)
    (hf : Function.Injective f) (xs : List β) (x : β) :
    (Dedup (DedupAll f [] xs) (f x)).1 =
        ((xs ++ [x]).take ((xs ++ [x]).indexOf x)).toFinset.card ∧
      (Dedup (DedupAll f [] xs) (f x)).2 = DedupAll f [] (xs ++ [x]) := by
  have h2 : (Dedup (DedupAll f [] xs) (f x)).2 = DedupAll f [] (xs ++ [x]) := by
    simp [DedupAll, List.foldl_append]
  refine ⟨?_, h2⟩
  rw [← Dedup_index_self, h2]
  exact (DedupAll_spec f hf (xs ++ [x])).2.2.1 x (by simp)

theorem take_indexOf_append {β : Type} [DecidableEq β] (xs ys : List β) (x : β) (hx : x ∈ xs) :
    (xs ++ ys).take ((xs ++ ys).indexOf x) = xs.take (xs.indexOf x) := by
  rw [List.indexOf_append_of_mem hx, List.take_append_of_le_length List.indexOf_le_length]

theorem create_register_masks (instruction_set : Nat) :
    (StackMapStream.create instruction_set).register_masks_ = [] := rfl

/-- C3: after any call sequence `cs` on a new builder, a `BeginStackMapEntry`
with a non-zero `register_mask` records as `register_mask_index` the 0-based
rank of that mask, in first-seen order, among the non-zero masks supplied so
far (the number of distinct masks supplied before its first occurrence); the
Register Mask Table then holds one entry for every distinct non-zero mask and
no entry twice, and the recorded index is the row of the mask's record.  When
every mask supplied so far is this one, the index is 0 and the table has one
entry.  A later position opened with the same mask gets the same index and
adds no entry. -/
theorem register_mask_index_first_seen_rank (E : Externals) (instruction_set : Nat)
    (cs : List Call) (s s1 : StackMapStream)
    (dex_pc native_pc_offset register_mask : Nat) (stack_mask : Option Nat)
    (num_dex_registers inlining_depth : Nat)
    (hrun : (StackMapStream.create instruction_set).run E cs = .ok s)
    (hbegin : s.BeginStackMapEntry E dex_pc native_pc_offset register_mask stack_mask
      num_dex_registers inlining_depth = .ok s1)
    (hm : register_mask ≠ 0) :
    s1.current_stack_map_.register_mask_index =
      ((suppliedRegisterMasks cs ++ [register_mask]).take
        ((suppliedRegisterMasks cs ++ [register_mask]).indexOf register_mask)).toFinset.card ∧
    s1.register_masks_.length = (suppliedRegisterMasks cs ++ [register_mask]).toFinset.card ∧
    s1.register_masks_.Nodup ∧
    (∀ m, canonicalRegisterMask m ∈ s1.register_masks_ ↔
      m ∈ suppliedRegisterMasks cs ++ [register_mask]) ∧
    s1.register_masks_[s1.current_stack_map_.register_mask_index]? =
      some (canonicalRegisterMask register_mask) ∧
    ((∀ m ∈ suppliedRegisterMasks cs, m = register_mask) →
      s1.current_stack_map_.register_mask_index = 0 ∧ s1.register_masks_.length = 1) ∧
    (∀ (cs2 : List Call) (s2 s3 : StackMapStream) (dex_pc2 native_pc_offset2 : Nat)
      (stack_mask2 : Option Nat) (num_dex_registers2 inlining_depth2 : Nat),
      s1.run E cs2 = .ok s2 →
      s2.BeginStackMapEntry E dex_pc2 native_pc_offset2 register_mask stack_mask2
        num_dex_registers2 inlining_depth2 = .ok s3 →
      s3.current_stack_map_.register_mask_index = s1.current_stack_map_.register_mask_index ∧
        s3.register_masks_.length = s2.register_masks_.length) := by
  have hinj := canonicalRegisterMask_injective
  have hs := run_register_masks E cs _ s hrun
  rw [create_register_masks] at hs
  obtain ⟨-, h1⟩ := BeginStackMapEntry_ok E s s1 dex_pc native_pc_offset register_mask
    stack_mask num_dex_registers inlining_depth hbegin
  obtain ⟨hD1, hD2⟩ := Dedup_DedupAll canonicalRegisterMask hinj (suppliedRegisterMasks cs)
    register_mask
  have hidx : s1.current_stack_map_.register_mask_index =
      (Dedup s.register_masks_ (canonicalRegisterMask register_mask)).1 := by
    rw [h1]; simp [hm, canonicalRegisterMask]
  have htab : s1.register_masks_ =
      (Dedup s.register_masks_ (canonicalRegisterMask register_mask)).2 := by
    rw [h1]; simp [hm, canonicalRegisterMask]
  rw [hs] at hidx htab
  rw [hD1] at hidx
  rw [hD2] at htab
  obtain ⟨hlen, hmem, hix, hnd⟩ :=
    DedupAll_spec canonicalRegisterMask hinj (suppliedRegisterMasks cs ++ [register_mask])
  have hget : s1.register_masks_[s1.current_stack_map_.register_mask_index]? =
      some (canonicalRegisterMask register_mask) := by
    have hin : canonicalRegisterMask register_mask ∈ s1.register_masks_ := by
      rw [htab]; exact (hmem register_mask).2 (by simp)
    have hlt := List.indexOf_lt_length.2 hin
    have := List.getElem_indexOf hlt
    rw [hidx, ← hix register_mask (by simp), ← htab]
    rw [List.getElem?_eq_getElem hlt, this]
  refine ⟨hidx, by rw [htab, hlen], by rw [htab]; exact hnd, by rw [htab]; exact hmem, hget,
    ?_, ?_⟩
  · intro hall
    have hfin : (suppliedRegisterMasks cs ++ [register_mask]).toFinset = {register_mask} := by
      ext z; simp
      intro hz; exact hall z hz
    refine ⟨?_, by rw [htab, hlen, hfin]; rfl⟩
    rw [hidx]
    cases hc : suppliedRegisterMasks cs with
    | nil => simp
    | cons a rest =>
      have ha : a = register_mask := hall a (by rw [hc]; simp)
      subst ha
      simp
  · intro cs2 s2 s3 dex_pc2 native_pc_offset2 stack_mask2 num_dex_registers2 inlining_depth2
      hrun2 hbegin2
    have hs2 := run_register_masks E cs2 s1 s2 hrun2
    rw [htab, ← DedupAll_append] at hs2
    obtain ⟨-, h3⟩ := BeginStackMapEntry_ok E s2 s3 dex_pc2 native_pc_offset2 register_mask
      stack_mask2 num_dex_registers2 inlining_depth2 hbegin2
    have hidx3 : s3.current_stack_map_.register_mask_index =
        (Dedup s2.register_masks_ (canonicalRegisterMask register_mask)).1 := by
      rw [h3]; simp [hm, canonicalRegisterMask]
    have htab3 : s3.register_masks_ =
        (Dedup s2.register_masks_ (canonicalRegisterMask register_mask)).2 := by
      rw [h3]; simp [hm, canonicalRegisterMask]
    obtain ⟨-, hmem2, hix2, -⟩ := DedupAll_spec canonicalRegisterMask hinj
      (suppliedRegisterMasks cs ++ [register_mask] ++ suppliedRegisterMasks cs2)
    have hin2 : canonicalRegisterMask register_mask ∈ s2.register_masks_ := by
      rw [hs2]; exact (hmem2 register_mask).2 (by simp)
    constructor
    · rw [hidx3, hidx, ← Dedup_index_self, Dedup_table, if_pos hin2, hs2,
        hix2 register_mask (by simp), take_indexOf_append _ _ _ (by simp)]
    · rw [htab3, Dedup_table, if_pos hin2]

/-- The theorem `register_mask_index_first_seen_rank` for the second of two
positions that are opened with the same register mask on a new builder. -/
theorem register_mask_index_first_seen_rank_witness :
    ∃ s s1 : StackMapStream,
      (StackMapStream.create 0).run sampleExternals
        [Call.BeginStackMapEntry 5 0x10 0b1010000 none 0 0, Call.EndStackMapEntry] = .ok s ∧
      s.BeginStackMapEntry sampleExternals 6 0x20 0b1010000 none 0 0 = .ok s1 ∧
      0b1010000 ≠ 0 ∧
      s.stack_maps_.map (fun e => e.register_mask_index) = [0] ∧
      s1.current_stack_map_.register_mask_index = 0 ∧ s1.register_masks_.length = 1 :=
  ⟨_, _, rfl, rfl, by decide, rfl,
    (register_mask_index_first_seen_rank sampleExternals 0
      [Call.BeginStackMapEntry 5 0x10 0b1010000 none 0 0, Call.EndStackMapEntry] _ _
      6 0x20 0b1010000 none 0 0 rfl rfl (by decide)).2.2.2.2.2.1
      (by simp [suppliedRegisterMasks])⟩

/-! ## Deferred stack masks -/

theorem DedupAll_extends {α β : Type} [DecidableEq α] (f : β → α) (xs : List β) :
    ∀ rows : List α, ∃ ext, DedupAll f rows xs = rows ++ ext := by
  induction xs with
  | nil => intro rows; exact ⟨[], by simp [DedupAll]⟩
  | cons x xs ih =>
    intro rows
    obtain ⟨e1, h1⟩ := Dedup_extends rows (f x)
    obtain ⟨e2, h2⟩ := ih (Dedup rows (f x)).2
    refine ⟨e1 ++ e2, ?_⟩
    have : DedupAll f rows (x :: xs) = DedupAll f (Dedup rows (f x)).2 xs := by
      simp [DedupAll]
    rw [this, h2, h1, List.append_assoc]

theorem DedupAll_cons {α β : Type} [DecidableEq α] (f : β → α) (rows : List α) (x : β)
    (xs : List β) : DedupAll f rows (x :: xs) = DedupAll f (Dedup rows (f x)).2 xs := by
  simp [DedupAll]

theorem Dedup_get {α : Type} [DecidableEq α] (rows : List α) (x : α) (ext : List α) :
    ((Dedup rows x).2 ++ ext)[(Dedup rows x).1]? = some x := by
  unfold Dedup
  split
  · rename_i h
    have hlt := List.indexOf_lt_length.2 h
    simp only
    rw [List.getElem?_append_left hlt, List.getElem?_eq_getElem hlt, List.getElem_indexOf hlt]
  · simp only [List.append_assoc, List.singleton_append]
    rw [List.getElem?_append_right (Nat.le_refl _)]
    simp

theorem PrepareForFillInLoop_spec (mem : Nat → BitVector) (refs : List (Option Nat)) :
    ∀ (i : Nat) (maps : List StackMapEntry) (masks : List (List Bool)),
      i + refs.length ≤ maps.length →
      ∃ maps1, PrepareForFillInLoop mem refs i (maps, masks) =
          .ok (maps1, DedupAll (fun b => b) masks (refs.filterMap (deferredStackMask mem))) ∧
        maps1.length = maps.length ∧
        (∀ j, j < i ∨ i + refs.length ≤ j → maps1[j]? = maps[j]?) ∧
        (∀ k p, refs[k]? = some p → ∃ e, maps[i + k]? = some e ∧
          match deferredStackMask mem p with
          | some bits => ∃ idx, maps1[i + k]? = some { e with stack_mask_index := idx } ∧
              (DedupAll (fun b => b) masks (refs.filterMap (deferredStackMask mem)))[idx]? =
                some bits
          | none => maps1[i + k]? = some e) := by
  induction refs with
  | nil =>
    intro i maps masks _
    exact ⟨maps, by simp [PrepareForFillInLoop, DedupAll], rfl, fun _ _ => rfl, by simp⟩
  | cons p rest ih =>
    intro i maps masks hlen
    simp only [List.length_cons] at hlen
    have hi : i < maps.length := by omega
    cases hd : deferredStackMask mem p with
    | none =>
      have hstep : PrepareForFillInLoop mem (p :: rest) i (maps, masks) =
          PrepareForFillInLoop mem rest (i + 1) (maps, masks) := by
        cases p with
        | none => simp [PrepareForFillInLoop]
        | some a =>
          have : ¬ (mem a).GetNumberOfBits ≠ 0 := by
            intro h; simp [deferredStackMask, h] at hd
          simp only [PrepareForFillInLoop, this, if_false]
      obtain ⟨maps1, h1, h2, h3, h4⟩ := ih (i + 1) maps masks (by omega)
      refine ⟨maps1, ?_, h2, ?_, ?_⟩
      · rw [hstep, h1]; simp [List.filterMap_cons, hd]
      · intro j hj
        exact h3 j (by simp only [List.length_cons] at hj; omega)
      · intro k q hk
        cases k with
        | zero =>
          simp at hk; subst hk
          refine ⟨maps[i], by simp [hi], ?_⟩
          rw [hd]
          dsimp only
          rw [Nat.add_zero, h3 i (Or.inl (by omega))]
          simp [hi]
        | succ k =>
          simp at hk
          obtain ⟨e, he1, he2⟩ := h4 k q hk
          have hik : i + (k + 1) = i + 1 + k := by omega
          refine ⟨e, by rw [hik]; exact he1, ?_⟩
          rw [hik]
          simpa [List.filterMap_cons, hd] using he2
    | some bits =>
      obtain ⟨a, hp⟩ : ∃ a, p = some a := by
        cases p with
        | none => simp [deferredStackMask] at hd
        | some a => exact ⟨a, rfl⟩
      subst hp
      have hne : (mem a).GetNumberOfBits ≠ 0 := by
        intro h; simp [deferredStackMask, h] at hd
      have hbits : (mem a).GetRawStorage.take (mem a).GetNumberOfBits = bits := by
        simpa [deferredStackMask, hne] using hd
      have hstep : PrepareForFillInLoop mem (some a :: rest) i (maps, masks) =
          PrepareForFillInLoop mem rest (i + 1)
            (maps.set i { maps[i] with stack_mask_index := (Dedup masks bits).1 },
              (Dedup masks bits).2) := by
        simp [PrepareForFillInLoop, hne, DedupBitmap, hbits, hi]
      obtain ⟨maps1, h1, h2, h3, h4⟩ := ih (i + 1)
        (maps.set i { maps[i] with stack_mask_index := (Dedup masks bits).1 })
        (Dedup masks bits).2 (by simp; omega)
      have hfm : (some a :: rest).filterMap (deferredStackMask mem) =
          bits :: rest.filterMap (deferredStackMask mem) := by
        simp [List.filterMap_cons, hd]
      refine ⟨maps1, ?_, ?_, ?_, ?_⟩
      · rw [hstep, h1, hfm, DedupAll_cons]
      · rw [h2]; simp
      · intro j hj
        simp only [List.length_cons] at hj
        rw [h3 j (by omega)]
        rw [List.getElem?_set_ne (by omega)]
      · intro k q hk
        rw [hfm, DedupAll_cons]
        cases k with
        | zero =>
          simp at hk; subst hk
          refine ⟨maps[i], by simp [hi], ?_⟩
          rw [hd]
          dsimp only
          obtain ⟨ext, hext⟩ := DedupAll_extends (fun b : List Bool => b)
            (rest.filterMap (deferredStackMask mem)) (Dedup masks bits).2
          refine ⟨(Dedup masks bits).1, ?_, ?_⟩
          · rw [Nat.add_zero, h3 i (Or.inl (by omega))]
            simp [hi]
          · rw [hext]; exact Dedup_get masks bits ext
        | succ k =>
          simp at hk
          obtain ⟨e, he1, he2⟩ := h4 k q hk
          have hik : i + (k + 1) = i + 1 + k := by omega
          rw [List.getElem?_set_ne (by omega)] at he1
          refine ⟨e, by rw [hik]; exact he1, ?_⟩
          rw [hik]
          exact he2

theorem suppliedStackMasks_cons (c : Call) (cs : List Call) :
    suppliedStackMasks (c :: cs) = suppliedStackMasks [c] ++ suppliedStackMasks cs := by
  cases c <;> simp [suppliedStackMasks]

theorem call_stack_mask_invariant (E : Externals) (s s1 : StackMapStream) (c : Call)
    (h : s.call E c = .ok s1) :
    s1.out_ = s.out_ ∧ s1.stack_masks_ = s.stack_masks_ ∧
    s1.lazy_stack_masks_ = s.lazy_stack_masks_ ++ suppliedStackMasks [c] ∧
    (s.lazy_stack_masks_.length = s.stack_maps_.length + (if s.in_stack_map_ then 1 else 0) →
      s1.lazy_stack_masks_.length =
        s1.stack_maps_.length + (if s1.in_stack_map_ then 1 else 0)) ∧
    ((∀ e ∈ s.stack_maps_, e.stack_mask_index = kNoValue) ∧
        s.current_stack_map_.stack_mask_index = kNoValue →
      (∀ e ∈ s1.stack_maps_, e.stack_mask_index = kNoValue) ∧
        s1.current_stack_map_.stack_mask_index = kNoValue) := by
  cases c with
  | BeginStackMapEntry dex_pc native_pc_offset register_mask stack_mask num_dex_registers
      inlining_depth =>
    obtain ⟨hin, hs⟩ := BeginStackMapEntry_ok E s s1 dex_pc native_pc_offset register_mask
      stack_mask num_dex_registers inlining_depth h
    subst hs
    refine ⟨rfl, rfl, rfl, ?_, ?_⟩
    · intro hl; simp [hin] at hl ⊢; exact hl
    · intro hn; exact ⟨hn.1, rfl⟩
  | EndStackMapEntry =>
    obtain ⟨hin, -, hs⟩ := EndStackMapEntry_ok s s1 h
    subst hs
    split
    · refine ⟨rfl, rfl, by simp [suppliedStackMasks], ?_, ?_⟩
      · intro hl; simp [hin] at hl ⊢; exact hl
      · intro hn
        refine ⟨?_, hn.2⟩
        intro e he
        simp only [List.mem_append, List.mem_singleton] at he
        rcases he with he | he
        · exact hn.1 e he
        · rw [he]; exact hn.2
    · refine ⟨rfl, rfl, by simp [suppliedStackMasks], ?_, ?_⟩
      · intro hl; simp [hin] at hl ⊢; exact hl
      · intro hn
        refine ⟨?_, hn.2⟩
        intro e he
        simp only [List.mem_append, List.mem_singleton] at he
        rcases he with he | he
        · exact hn.1 e he
        · rw [he]; exact hn.2
  | AddDexRegisterEntry kind value =>
    have hs := AddDexRegisterEntry_ok E s s1 kind value h
    subst hs
    split
    · rw [CreateDexRegisterMap_eq]
      dsimp only
      split
      · exact ⟨rfl, rfl, by simp [suppliedStackMasks], fun hl => hl, fun hn => ⟨hn.1, hn.2⟩⟩
      · exact ⟨rfl, rfl, by simp [suppliedStackMasks], fun hl => hl, fun hn => hn⟩
    · exact ⟨rfl, rfl, by simp [suppliedStackMasks], fun hl => hl, fun hn => hn⟩
  | AddInvoke invoke_type dex_method_index =>
    have hs := AddInvoke_ok s s1 _ _ h
    subst hs
    exact ⟨rfl, rfl, by simp [suppliedStackMasks], fun hl => hl, fun hn => hn⟩
  | BeginInlineInfoEntry method dex_pc num_dex_registers outer_dex_file =>
    obtain ⟨-, -, hs⟩ := BeginInlineInfoEntry_ok E s s1 _ _ _ _ h
    subst hs
    exact ⟨rfl, rfl, by simp [suppliedStackMasks], fun hl => hl, fun hn => hn⟩
  | EndInlineInfoEntry =>
    obtain ⟨-, -, hs⟩ := EndInlineInfoEntry_ok s s1 h
    subst hs
    exact ⟨rfl, rfl, by simp [suppliedStackMasks], fun hl => hl, fun hn => hn⟩

theorem run_stack_mask_invariant (E : Externals) (cs : List Call) :
    ∀ (s s1 : StackMapStream), s.run E cs = .ok s1 →
      s1.out_ = s.out_ ∧ s1.stack_masks_ = s.stack_masks_ ∧
      s1.lazy_stack_masks_ = s.lazy_stack_masks_ ++ suppliedStackMasks cs ∧
      (s.lazy_stack_masks_.length = s.stack_maps_.length + (if s.in_stack_map_ then 1 else 0) →
        s1.lazy_stack_masks_.length =
          s1.stack_maps_.length + (if s1.in_stack_map_ then 1 else 0)) ∧
      ((∀ e ∈ s.stack_maps_, e.stack_mask_index = kNoValue) ∧
          s.current_stack_map_.stack_mask_index = kNoValue →
        (∀ e ∈ s1.stack_maps_, e.stack_mask_index = kNoValue) ∧
          s1.current_stack_map_.stack_mask_index = kNoValue) := by
  induction cs with
  | nil =>
    intro s s1 h
    simp [StackMapStream.run] at h
    subst h
    exact ⟨rfl, rfl, by simp [suppliedStackMasks], fun hl => hl, fun hn => hn⟩
  | cons c cs ih =>
    intro s s1 h
    obtain ⟨sa, hca, hra⟩ := run_cons_ok E s s1 c cs h
    obtain ⟨a1, a2, a3, a4, a5⟩ := call_stack_mask_invariant E s sa c hca
    obtain ⟨b1, b2, b3, b4, b5⟩ := ih sa s1 hra
    refine ⟨b1.trans a1, b2.trans a2, ?_, fun hl => b4 (a4 hl), fun hn => b5 (a5 hn)⟩
    rw [b3, a3, List.append_assoc, ← suppliedStackMasks_cons]

theorem PrepareForFillIn_of_loop (C : TableCodec) (mem : Nat → BitVector) (s : StackMapStream)
    (l : List StackMapEntry × List (List Bool)) (hout : s.out_ = [])
    (hl : PrepareForFillInLoop mem s.lazy_stack_masks_ 0 (s.stack_maps_, s.stack_masks_) = .ok l) :
    ∃ out n, s.PrepareForFillIn C mem =
      .ok ({ s with stack_maps_ := l.1, stack_masks_ := l.2, out_ := out }, n) := by
  unfold StackMapStream.PrepareForFillIn
  simp only [hout, List.length_nil, ne_eq, not_true_eq_false, if_false, hl]
  exact ⟨_, _, rfl⟩

/-- C4: `BeginStackMapEntry` only stores the stack-mask reference (the retained
references are the supplied ones, in call order, one for every position), and
`PrepareForFillIn`, run with no position open on a builder reached from a new
one, returns and resolves them against the memory `mem` of that moment,
whatever it is: the Stack Mask Table is the deduplication, in position order,
of the bits of the references that are not null and have a non-zero number of
bits; for such a reference the `i`-th record gets an index at which the table
holds those bits; for a null reference or a bitset with zero bits the `i`-th
record is unchanged, its `stack_mask_index` being `kNoValue`. -/
theorem PrepareForFillIn_deferred_stack_masks (E : Externals) (C : TableCodec)
    (mem : Nat → BitVector) (instruction_set : Nat) (cs : List Call) (s : StackMapStream)
    (hrun : (StackMapStream.create instruction_set).run E cs = .ok s)
    (hclosed : s.in_stack_map_ = false) :
    s.lazy_stack_masks_ = suppliedStackMasks cs ∧
    s.stack_maps_.length = (suppliedStackMasks cs).length ∧
    ∃ s1 n, s.PrepareForFillIn C mem = .ok (s1, n) ∧
      s1.stack_maps_.length = s.stack_maps_.length ∧
      s1.stack_masks_ = DedupAll (fun b => b) []
        ((suppliedStackMasks cs).filterMap (deferredStackMask mem)) ∧
      s1.stack_masks_.Nodup ∧
      ∀ (i : Nat) (p : Option Nat), (suppliedStackMasks cs)[i]? = some p →
        ∃ e : StackMapEntry, s.stack_maps_[i]? = some e ∧ e.stack_mask_index = kNoValue ∧
          (p = none → s1.stack_maps_[i]? = some e) ∧
          (∀ a, p = some a → (mem a).GetNumberOfBits = 0 → s1.stack_maps_[i]? = some e) ∧
          (∀ a, p = some a → (mem a).GetNumberOfBits ≠ 0 →
            ∃ idx : Nat, s1.stack_maps_[i]? = some { e with stack_mask_index := idx } ∧
              s1.stack_masks_[idx]? =
                some ((mem a).GetRawStorage.take (mem a).GetNumberOfBits)) := by
  obtain ⟨hout, hmasks, hlazy, hlen, hnone⟩ := run_stack_mask_invariant E cs _ s hrun
  have hout : s.out_ = [] := hout
  have hmasks : s.stack_masks_ = [] := hmasks
  have hlazy : s.lazy_stack_masks_ = suppliedStackMasks cs := by
    simpa [StackMapStream.create] using hlazy
  have hlen : s.lazy_stack_masks_.length = s.stack_maps_.length := by
    simpa [hclosed] using hlen rfl
  have hnone := (hnone ⟨by simp [StackMapStream.create], rfl⟩).1
  obtain ⟨maps1, hloop, hlen1, -, hk⟩ :=
    PrepareForFillInLoop_spec mem s.lazy_stack_masks_ 0 s.stack_maps_ s.stack_masks_
      (by omega)
  obtain ⟨out, n, hprep⟩ := PrepareForFillIn_of_loop C mem s _ hout hloop
  refine ⟨hlazy, by rw [← hlen, hlazy], _, n, hprep, hlen1, ?_, ?_, ?_⟩
  · show DedupAll _ s.stack_masks_ _ = _
    rw [hmasks, hlazy]
  · show (DedupAll _ s.stack_masks_ _).Nodup
    rw [hmasks]
    exact (DedupAll_spec (fun b : List Bool => b) (fun _ _ h => h) _).2.2.2
  · intro i p hp
    rw [← hlazy] at hp
    obtain ⟨e, he, hm⟩ := hk i p hp
    rw [Nat.zero_add] at he hm
    refine ⟨e, he, hnone e (List.getElem?_mem he), ?_, ?_, ?_⟩
    · intro h; subst h; simpa [deferredStackMask] using hm
    · intro a h h0; subst h; simpa [deferredStackMask, h0] using hm
    · intro a h h0; subst h
      simpa [deferredStackMask, h0] using hm

/-- The theorem `PrepareForFillIn_deferred_stack_masks` for three positions: a
bitset with the bits `101`, a null reference and a bitset with zero bits. -/
theorem PrepareForFillIn_deferred_stack_masks_witness :
    ∃ s : StackMapStream,
      (StackMapStream.create 0).run sampleExternals
        [Call.BeginStackMapEntry 5 0x10 0 (some 7) 0 0, Call.EndStackMapEntry,
         Call.BeginStackMapEntry 6 0x20 0 none 0 0, Call.EndStackMapEntry,
         Call.BeginStackMapEntry 7 0x30 0 (some 8) 0 0, Call.EndStackMapEntry] = .ok s ∧
      s.in_stack_map_ = false ∧
      s.lazy_stack_masks_ = [some 7, none, some 8] ∧
      (∃ s1 n, s.PrepareForFillIn sampleCodec sampleMemory = .ok (s1, n) ∧
        s1.stack_maps_.map (fun e => e.stack_mask_index) = [0, kNoValue, kNoValue] ∧
        s1.stack_masks_ = [[true, false, true]]) ∧
      ∃ s1 n, s.PrepareForFillIn sampleCodec sampleMemory = .ok (s1, n) ∧
        s1.stack_maps_.length = s.stack_maps_.length :=
  ⟨_, rfl, rfl, rfl, ⟨_, _, rfl, rfl, rfl⟩,
    (PrepareForFillIn_deferred_stack_masks sampleExternals sampleCodec sampleMemory 0
      [Call.BeginStackMapEntry 5 0x10 0 (some 7) 0 0, Call.EndStackMapEntry,
       Call.BeginStackMapEntry 6 0x20 0 none 0 0, Call.EndStackMapEntry,
       Call.BeginStackMapEntry 7 0x30 0 (some 8) 0 0, Call.EndStackMapEntry] _ rfl rfl).2.2.imp
      (fun _ h => h.imp (fun _ h => ⟨h.1, h.2.1⟩))⟩

/-! ## Inline-info runs -/

theorem modifyBack_nil {α : Type} (f : α → α) : modifyBack ([] : List α) f = [] := rfl

theorem modifyBack_concat {α : Type} (l : List α) (x : α) (f : α → α) :
    modifyBack (l ++ [x]) f = l ++ [f x] := by
  simp [modifyBack]

theorem modifyBack_length {α : Type} (l : List α) (f : α → α) :
    (modifyBack l f).length = l.length := by
  rcases List.eq_nil_or_concat l with h | ⟨l1, x, h⟩
  · subst h; rfl
  · subst h; rw [List.concat_eq_append, modifyBack_concat]; simp

theorem modifyBack_forall {α : Type} (l : List α) (f : α → α) (P : α → Prop)
    (hf : ∀ a, P a → P (f a)) (hl : ∀ a ∈ l, P a) : ∀ a ∈ modifyBack l f, P a := by
  rcases List.eq_nil_or_concat l with h | ⟨l1, x, h⟩
  · subst h; intro a ha; simp [modifyBack] at ha
  · subst h
    rw [List.concat_eq_append] at hl ⊢
    rw [modifyBack_concat]
    intro a ha
    rcases List.mem_append.mp ha with h1 | h1
    · exact hl a (List.mem_append_left _ h1)
    · simp at h1; subst h1; exact hf x (hl x (by simp))

theorem call_inline_infos (E : Externals) (s s1 : StackMapStream) (c : Call)
    (h : s.call E c = .ok s1) (hc : c.isBeginStackMapEntry = false)
    (hin : s1.in_stack_map_ = true) :
    s.in_stack_map_ = true ∧ s1.inline_infos_ = s.inline_infos_ ∧
    s1.stack_maps_ = s.stack_maps_ ∧
    s1.current_stack_map_.inline_info_index = s.current_stack_map_.inline_info_index ∧
    s1.current_inline_infos_.length =
      s.current_inline_infos_.length + [c].countP Call.isBeginInlineInfoEntry ∧
    ((∀ e ∈ s.current_inline_infos_, e.is_last = IsLast.kMore) →
      ∀ e ∈ s1.current_inline_infos_, e.is_last = IsLast.kMore) := by
  cases c with
  | BeginStackMapEntry dex_pc native_pc_offset register_mask stack_mask num_dex_registers
      inlining_depth => simp [Call.isBeginStackMapEntry] at hc
  | EndStackMapEntry =>
    obtain ⟨-, -, hs⟩ := EndStackMapEntry_ok s s1 h
    subst hs
    split at hin <;> simp at hin
  | AddDexRegisterEntry kind value =>
    have hs := AddDexRegisterEntry_ok E s s1 kind value h
    by_cases hq : s.current_dex_registers_.length + 1 = s.expected_num_dex_registers_
    · rw [if_pos hq, CreateDexRegisterMap_eq] at hs
      dsimp only at hs
      by_cases he : s.current_inline_infos_ = []
      · rw [if_pos he] at hs
        subst hs
        exact ⟨hin, rfl, rfl, rfl, by simp [Call.isBeginInlineInfoEntry], fun hk => hk⟩
      · rw [if_neg he] at hs
        subst hs
        refine ⟨hin, rfl, rfl, rfl, ?_, ?_⟩
        · simp [Call.isBeginInlineInfoEntry, modifyBack_length]
        · intro hk
          exact modifyBack_forall _ _ (fun e : InlineInfoEntry => e.is_last = IsLast.kMore)
            (fun a ha => ha) hk
    · rw [if_neg hq] at hs
      subst hs
      exact ⟨hin, rfl, rfl, rfl, by simp [Call.isBeginInlineInfoEntry], fun hk => hk⟩
  | AddInvoke invoke_type dex_method_index =>
    have hs := AddInvoke_ok s s1 _ _ h
    subst hs
    exact ⟨hin, rfl, rfl, rfl, by simp [Call.isBeginInlineInfoEntry], fun hk => hk⟩
  | BeginInlineInfoEntry method dex_pc num_dex_registers outer_dex_file =>
    obtain ⟨-, -, hs⟩ := BeginInlineInfoEntry_ok E s s1 _ _ _ _ h
    subst hs
    refine ⟨hin, rfl, rfl, rfl, by simp [Call.isBeginInlineInfoEntry], ?_⟩
    intro hk e he
    simp only [List.mem_append, List.mem_singleton] at he
    rcases he with he | he
    · exact hk e he
    · rw [he]
  | EndInlineInfoEntry =>
    obtain ⟨-, -, hs⟩ := EndInlineInfoEntry_ok s s1 h
    subst hs
    exact ⟨hin, rfl, rfl, rfl, by simp [Call.isBeginInlineInfoEntry], fun hk => hk⟩

theorem run_inline_infos (E : Externals) (cs : List Call) :
    ∀ (s s1 : StackMapStream), s.run E cs = .ok s1 →
      (∀ c ∈ cs, c.isBeginStackMapEntry = false) → s1.in_stack_map_ = true →
      s.in_stack_map_ = true ∧ s1.inline_infos_ = s.inline_infos_ ∧
      s1.stack_maps_ = s.stack_maps_ ∧
      s1.current_stack_map_.inline_info_index = s.current_stack_map_.inline_info_index ∧
      s1.current_inline_infos_.length =
        s.current_inline_infos_.length + cs.countP Call.isBeginInlineInfoEntry ∧
      ((∀ e ∈ s.current_inline_infos_, e.is_last = IsLast.kMore) →
        ∀ e ∈ s1.current_inline_infos_, e.is_last = IsLast.kMore) := by
  induction cs with
  | nil =>
    intro s s1 h _ hin
    simp [StackMapStream.run] at h
    subst h
    exact ⟨hin, rfl, rfl, rfl, by simp, fun hk => hk⟩
  | cons c cs ih =>
    intro s s1 h hcs hin
    obtain ⟨sa, hca, hra⟩ := run_cons_ok E s s1 c cs h
    obtain ⟨b0, b1, b2, b3, b4, b5⟩ :=
      ih sa s1 hra (fun c hc => hcs c (List.mem_cons_of_mem _ hc)) hin
    obtain ⟨a0, a1, a2, a3, a4, a5⟩ :=
      call_inline_infos E s sa c hca (hcs c (List.mem_cons_self _ _)) b0
    refine ⟨a0, b1.trans a1, b2.trans a2, b3.trans a3, ?_, fun hk => b5 (a5 hk)⟩
    rw [b4, a4]
    simp only [List.countP_cons, List.countP_nil]
    omega

/-- C5: for a position opened by `BeginStackMapEntry`, continued by calls `cs`
that open no position, and closed by `EndStackMapEntry`, let `D` be the number
of `BeginInlineInfoEntry` calls in `cs`.  The closed record is appended to the
Position sequence.  For `D = 0` the Inline-Info Table is unchanged and the
record's `inline_info_index` is `kNoValue`.  For `D ≥ 1` the run deduplicated
into the Inline-Info Table is the accumulator with its last record flagged: it
has exactly `D` records, record `i` has `is_last = kLast` if it is the last one
and `kMore` otherwise, and the index that `Dedup` returned is the record's
`inline_info_index`. -/
theorem EndStackMapEntry_terminal_flag (E : Externals) (s s0 s1 s2 : StackMapStream)
    (dex_pc native_pc_offset register_mask : Nat) (stack_mask : Option Nat)
    (num_dex_registers inlining_depth : Nat) (cs : List Call)
    (hbegin : s.BeginStackMapEntry E dex_pc native_pc_offset register_mask stack_mask
      num_dex_registers inlining_depth = .ok s0)
    (hcs : ∀ c ∈ cs, c.isBeginStackMapEntry = false)
    (hrun : s0.run E cs = .ok s1)
    (hend : s1.EndStackMapEntry = .ok s2) :
    s1.inline_infos_ = s.inline_infos_ ∧
    s1.current_inline_infos_.length = cs.countP Call.isBeginInlineInfoEntry ∧
    ∃ record : StackMapEntry, s2.stack_maps_ = s.stack_maps_ ++ [record] ∧
      (cs.countP Call.isBeginInlineInfoEntry = 0 →
        s2.inline_infos_ = s.inline_infos_ ∧ record.inline_info_index = kNoValue) ∧
      (1 ≤ cs.countP Call.isBeginInlineInfoEntry →
        ∃ run : List InlineInfoEntry,
          run = modifyBack s1.current_inline_infos_ (fun e => { e with is_last := IsLast.kLast }) ∧
          run.length = cs.countP Call.isBeginInlineInfoEntry ∧
          (∀ (i : Nat) (e : InlineInfoEntry), run[i]? = some e →
            e.is_last = if i + 1 = cs.countP Call.isBeginInlineInfoEntry then IsLast.kLast
              else IsLast.kMore) ∧
          s2.inline_infos_ = (Dedup s.inline_infos_ run).2 ∧
          record.inline_info_index = (Dedup s.inline_infos_ run).1) := by
  obtain ⟨hin1, -, hs2⟩ := EndStackMapEntry_ok s1 s2 hend
  obtain ⟨-, hs0⟩ := BeginStackMapEntry_ok E s s0 dex_pc native_pc_offset register_mask
    stack_mask num_dex_registers inlining_depth hbegin
  obtain ⟨-, hinl, hmaps, hidx, hlen, hmore⟩ := run_inline_infos E cs s0 s1 hrun hcs hin1
  have e1 : s0.inline_infos_ = s.inline_infos_ := by rw [hs0]
  have e2 : s0.stack_maps_ = s.stack_maps_ := by rw [hs0]
  have e3 : s0.current_stack_map_.inline_info_index = kNoValue := by rw [hs0]
  have e4 : s0.current_inline_infos_ = [] := by rw [hs0]
  rw [e4] at hlen hmore
  simp only [List.length_nil, Nat.zero_add] at hlen
  have hmore := hmore (by simp)
  rw [e1] at hinl
  rw [e2] at hmaps
  rw [e3] at hidx
  refine ⟨hinl, hlen, ?_⟩
  by_cases he : s1.current_inline_infos_ = []
  · rw [if_pos he] at hs2
    refine ⟨s1.current_stack_map_, by rw [hs2, ← hmaps], ?_, ?_⟩
    · intro _; exact ⟨by rw [hs2, ← hinl], hidx⟩
    · intro hD; rw [← hlen, he] at hD; simp at hD
  · rw [if_neg he] at hs2
    refine ⟨_, by rw [hs2, ← hmaps], ?_, ?_⟩
    · intro hD
      rw [← hlen] at hD
      exact absurd (List.length_eq_zero.mp hD) he
    · intro _
      refine ⟨_, rfl, by rw [modifyBack_length, hlen], ?_, by rw [hs2, ← hinl], by rw [hinl]⟩
      rcases List.eq_nil_or_concat s1.current_inline_infos_ with h | ⟨init, x, h⟩
      · exact absurd h he
      · rw [List.concat_eq_append] at h
        rw [← hlen, h, modifyBack_concat]
        intro i e hie
        simp only [List.length_append, List.length_singleton]
        by_cases hi : i < init.length
        · rw [List.getElem?_append_left hi] at hie
          have hmem : e ∈ s1.current_inline_infos_ := by
            rw [h]; exact List.mem_append_left _ (List.getElem?_mem hie)
          rw [hmore e hmem, if_neg (by omega)]
        · rw [List.getElem?_append_right (by omega)] at hie
          have hi0 : i - init.length = 0 := by
            by_contra hne
            rw [List.getElem?_eq_none (by simp; omega)] at hie
            exact absurd hie (by simp)
          rw [hi0] at hie
          simp at hie
          rw [← hie, if_pos (by omega)]

/-- The theorem `EndStackMapEntry_terminal_flag` for a position with two inline
frames on a new builder. -/
theorem EndStackMapEntry_terminal_flag_witness :
    ∃ s0 s1 s2 : StackMapStream,
      (StackMapStream.create 0).BeginStackMapEntry sampleExternals 5 0x10 0 none 0 2 = .ok s0 ∧
      (∀ c ∈ [Call.BeginInlineInfoEntry ⟨0x1234, 7, 0⟩ 2 0 0, Call.EndInlineInfoEntry,
          Call.BeginInlineInfoEntry ⟨0x5678, 9, 1⟩ 3 0 1, Call.EndInlineInfoEntry],
        c.isBeginStackMapEntry = false) ∧
      s0.run sampleExternals
        [Call.BeginInlineInfoEntry ⟨0x1234, 7, 0⟩ 2 0 0, Call.EndInlineInfoEntry,
          Call.BeginInlineInfoEntry ⟨0x5678, 9, 1⟩ 3 0 1, Call.EndInlineInfoEntry] = .ok s1 ∧
      s1.EndStackMapEntry = .ok s2 ∧
      s2.inline_infos_.map (fun run => run.map (fun e => e.is_last)) =
        [[IsLast.kMore, IsLast.kLast]] ∧
      s2.stack_maps_.map (fun e => e.inline_info_index) = [0] ∧
      s1.current_inline_infos_.length =
        [Call.BeginInlineInfoEntry ⟨0x1234, 7, 0⟩ 2 0 0, Call.EndInlineInfoEntry,
          Call.BeginInlineInfoEntry ⟨0x5678, 9, 1⟩ 3 0 1, Call.EndInlineInfoEntry].countP
          Call.isBeginInlineInfoEntry :=
  ⟨_, _, _, rfl, by simp [Call.isBeginStackMapEntry], rfl, rfl, rfl, rfl,
    (EndStackMapEntry_terminal_flag sampleExternals (StackMapStream.create 0) _ _ _
      5 0x10 0 none 0 2
      [Call.BeginInlineInfoEntry ⟨0x1234, 7, 0⟩ 2 0 0, Call.EndInlineInfoEntry,
        Call.BeginInlineInfoEntry ⟨0x5678, 9, 1⟩ 3 0 1, Call.EndInlineInfoEntry]
      rfl (by simp [Call.isBeginStackMapEntry]) rfl rfl).2.1⟩

/-! ## The virtual-register quota and synthesis -/

theorem modifyBack_get {α : Type} (l : List α) (f : α → α) (k : Nat) (e : α)
    (h : l[k]? = some e) :
    (modifyBack l f)[k]? = some (if k + 1 = l.length then f e else e) := by
  rcases List.eq_nil_or_concat l with hl | ⟨init, x, hl⟩
  · subst hl; simp at h
  · subst hl
    rw [List.concat_eq_append] at h ⊢
    rw [modifyBack_concat]
    simp only [List.length_append, List.length_singleton]
    by_cases hk : k < init.length
    · rw [List.getElem?_append_left hk] at h ⊢
      rw [h, if_neg (by omega)]
    · rw [List.getElem?_append_right (by omega)] at h ⊢
      have hk0 : k - init.length = 0 := by
        by_contra hne
        rw [List.getElem?_eq_none (by simp; omega)] at h
        exact absurd h (by simp)
      rw [hk0] at h ⊢
      simp at h
      rw [if_pos (by omega), h]
      simp

theorem modifyBack_eq_nil {α : Type} (l : List α) (f : α → α) :
    modifyBack l f = [] ↔ l = [] := by
  rw [← List.length_eq_zero, modifyBack_length, List.length_eq_zero]

theorem call_outer_dex_registers (E : Externals) (s s1 : StackMapStream) (c : Call)
    (h : s.call E c = .ok s1) (hc : c.isBeginStackMapEntry = false)
    (hinv : s.current_stack_map_.dex_register_mask_index = kNoValue ∧
      s.current_stack_map_.dex_register_map_index = kNoValue ∧
      (s.current_inline_infos_ = [] → s.expected_num_dex_registers_ = 0)) :
    s1.current_stack_map_.dex_register_mask_index = kNoValue ∧
      s1.current_stack_map_.dex_register_map_index = kNoValue ∧
      (s1.current_inline_infos_ = [] → s1.expected_num_dex_registers_ = 0) := by
  obtain ⟨h1, h2, h3⟩ := hinv
  cases c with
  | BeginStackMapEntry dex_pc native_pc_offset register_mask stack_mask num_dex_registers
      inlining_depth => simp [Call.isBeginStackMapEntry] at hc
  | EndStackMapEntry =>
    obtain ⟨-, -, hs⟩ := EndStackMapEntry_ok s s1 h
    by_cases he : s.current_inline_infos_ = []
    · rw [if_pos he] at hs; subst hs; exact ⟨h1, h2, h3⟩
    · rw [if_neg he] at hs; subst hs
      refine ⟨h1, h2, ?_⟩
      intro hn
      exact absurd ((modifyBack_eq_nil _ _).1 hn) he
  | AddDexRegisterEntry kind value =>
    have hs := AddDexRegisterEntry_ok E s s1 kind value h
    by_cases hq : s.current_dex_registers_.length + 1 = s.expected_num_dex_registers_
    · rw [if_pos hq, CreateDexRegisterMap_eq] at hs
      dsimp only at hs
      by_cases he : s.current_inline_infos_ = []
      · have := h3 he; omega
      · rw [if_neg he] at hs
        subst hs
        refine ⟨h1, h2, ?_⟩
        intro hn
        exact absurd ((modifyBack_eq_nil _ _).1 hn) he
    · rw [if_neg hq] at hs
      subst hs
      exact ⟨h1, h2, h3⟩
  | AddInvoke invoke_type dex_method_index =>
    have hs := AddInvoke_ok s s1 _ _ h
    subst hs
    exact ⟨h1, h2, h3⟩
  | BeginInlineInfoEntry method dex_pc num_dex_registers outer_dex_file =>
    obtain ⟨-, -, hs⟩ := BeginInlineInfoEntry_ok E s s1 _ _ _ _ h
    subst hs
    refine ⟨h1, h2, ?_⟩
    intro hn
    simp at hn
  | EndInlineInfoEntry =>
    obtain ⟨-, -, hs⟩ := EndInlineInfoEntry_ok s s1 h
    subst hs
    exact ⟨h1, h2, h3⟩

theorem run_outer_dex_registers (E : Externals) (cs : List Call) :
    ∀ (s s1 : StackMapStream), s.run E cs = .ok s1 →
      (∀ c ∈ cs, c.isBeginStackMapEntry = false) →
      s.current_stack_map_.dex_register_mask_index = kNoValue ∧
        s.current_stack_map_.dex_register_map_index = kNoValue ∧
        (s.current_inline_infos_ = [] → s.expected_num_dex_registers_ = 0) →
      s1.current_stack_map_.dex_register_mask_index = kNoValue ∧
        s1.current_stack_map_.dex_register_map_index = kNoValue ∧
        (s1.current_inline_infos_ = [] → s1.expected_num_dex_registers_ = 0) := by
  induction cs with
  | nil =>
    intro s s1 h _ hinv
    simp [StackMapStream.run] at h
    subst h; exact hinv
  | cons c cs ih =>
    intro s s1 h hcs hinv
    obtain ⟨sa, hca, hra⟩ := run_cons_ok E s s1 c cs h
    exact ih sa s1 hra (fun c hc => hcs c (List.mem_cons_of_mem _ hc))
      (call_outer_dex_registers E s sa c hca (hcs c (List.mem_cons_self _ _)) hinv)

theorem call_inline_dex_registers (E : Externals) (s s1 : StackMapStream) (c : Call) (k : Nat)
    (h : s.call E c = .ok s1) (hc : c.isBeginStackMapEntry = false)
    (hinv : (∃ e : InlineInfoEntry, s.current_inline_infos_[k]? = some e ∧
        e.dex_register_mask_index = kNoValue ∧ e.dex_register_map_index = kNoValue) ∧
      (s.current_inline_infos_.length = k + 1 → s.expected_num_dex_registers_ = 0)) :
    (∃ e : InlineInfoEntry, s1.current_inline_infos_[k]? = some e ∧
        e.dex_register_mask_index = kNoValue ∧ e.dex_register_map_index = kNoValue) ∧
      (s1.current_inline_infos_.length = k + 1 → s1.expected_num_dex_registers_ = 0) := by
  obtain ⟨⟨e, he, h1, h2⟩, h3⟩ := hinv
  have hne : s.current_inline_infos_ ≠ [] := by
    intro hn; rw [hn] at he; simp at he
  cases c with
  | BeginStackMapEntry dex_pc native_pc_offset register_mask stack_mask num_dex_registers
      inlining_depth => simp [Call.isBeginStackMapEntry] at hc
  | EndStackMapEntry =>
    obtain ⟨-, -, hs⟩ := EndStackMapEntry_ok s s1 h
    rw [if_neg hne] at hs; subst hs
    refine ⟨⟨_, modifyBack_get _ _ k e he, ?_, ?_⟩, ?_⟩
    · split <;> exact h1
    · split <;> exact h2
    · intro hl; exact h3 (by simpa [modifyBack_length] using hl)
  | AddDexRegisterEntry kind value =>
    have hs := AddDexRegisterEntry_ok E s s1 kind value h
    by_cases hq : s.current_dex_registers_.length + 1 = s.expected_num_dex_registers_
    · rw [if_pos hq, CreateDexRegisterMap_eq] at hs
      dsimp only at hs
      rw [if_neg hne] at hs
      subst hs
      have hk : k + 1 ≠ s.current_inline_infos_.length := by
        intro hk; have := h3 hk.symm; omega
      refine ⟨⟨e, ?_, h1, h2⟩, ?_⟩
      · have := modifyBack_get s.current_inline_infos_ (fun e : InlineInfoEntry =>
          { e with
            dex_register_mask_index := (if (CreateDexRegisterMapLoop E
                (s.current_dex_registers_ ++ [DexRegisterLocation.mk kind value]) 0
                (⟨[]⟩, [], s.dex_register_catalog_)).1.bits.length ≠ 0 then
              DedupBitmap s.dex_register_masks_ (CreateDexRegisterMapLoop E
                (s.current_dex_registers_ ++ [DexRegisterLocation.mk kind value]) 0
                (⟨[]⟩, [], s.dex_register_catalog_)).1.bits (CreateDexRegisterMapLoop E
                (s.current_dex_registers_ ++ [DexRegisterLocation.mk kind value]) 0
                (⟨[]⟩, [], s.dex_register_catalog_)).1.bits.length
              else (kNoValue, s.dex_register_masks_)).1,
            dex_register_map_index := (Dedup s.dex_register_maps_ (CreateDexRegisterMapLoop E
                (s.current_dex_registers_ ++ [DexRegisterLocation.mk kind value]) 0
                (⟨[]⟩, [], s.dex_register_catalog_)).2.1).1 }) k e he
        rw [if_neg hk] at this
        exact this
      · intro hl
        have hl2 : s.current_inline_infos_.length = k + 1 := by
          simpa [modifyBack_length] using hl
        exact absurd hl2.symm hk
    · rw [if_neg hq] at hs
      subst hs
      exact ⟨⟨e, he, h1, h2⟩, h3⟩
  | AddInvoke invoke_type dex_method_index =>
    have hs := AddInvoke_ok s s1 _ _ h
    subst hs
    exact ⟨⟨e, he, h1, h2⟩, h3⟩
  | BeginInlineInfoEntry method dex_pc num_dex_registers outer_dex_file =>
    obtain ⟨-, -, hs⟩ := BeginInlineInfoEntry_ok E s s1 _ _ _ _ h
    subst hs
    have hk : k < s.current_inline_infos_.length := by
      by_contra hk
      rw [List.getElem?_eq_none (by omega)] at he
      exact absurd he (by simp)
    refine ⟨⟨e, ?_, h1, h2⟩, ?_⟩
    · show (s.current_inline_infos_ ++ _)[k]? = some e
      rw [List.getElem?_append_left hk]; exact he
    · intro hl
      simp at hl
      omega
  | EndInlineInfoEntry =>
    obtain ⟨-, -, hs⟩ := EndInlineInfoEntry_ok s s1 h
    subst hs
    exact ⟨⟨e, he, h1, h2⟩, h3⟩

theorem run_inline_dex_registers (E : Externals) (k : Nat) (cs : List Call) :
    ∀ (s s1 : StackMapStream), s.run E cs = .ok s1 →
      (∀ c ∈ cs, c.isBeginStackMapEntry = false) →
      (∃ e : InlineInfoEntry, s.current_inline_infos_[k]? = some e ∧
          e.dex_register_mask_index = kNoValue ∧ e.dex_register_map_index = kNoValue) ∧
        (s.current_inline_infos_.length = k + 1 → s.expected_num_dex_registers_ = 0) →
      (∃ e : InlineInfoEntry, s1.current_inline_infos_[k]? = some e ∧
          e.dex_register_mask_index = kNoValue ∧ e.dex_register_map_index = kNoValue) ∧
        (s1.current_inline_infos_.length = k + 1 → s1.expected_num_dex_registers_ = 0) := by
  induction cs with
  | nil =>
    intro s s1 h _ hinv
    simp [StackMapStream.run] at h
    subst h; exact hinv
  | cons c cs ih =>
    intro s s1 h hcs hinv
    obtain ⟨sa, hca, hra⟩ := run_cons_ok E s s1 c cs h
    exact ih sa s1 hra (fun c hc => hcs c (List.mem_cons_of_mem _ hc))
      (call_inline_dex_registers E s sa c k hca (hcs c (List.mem_cons_self _ _)) hinv)

theorem CreateDexRegisterMap_registers (E : Externals) (s : StackMapStream) :
    (s.CreateDexRegisterMap E).current_dex_registers_ = s.current_dex_registers_ ∧
      (s.CreateDexRegisterMap E).expected_num_dex_registers_ = s.expected_num_dex_registers_ := by
  rw [CreateDexRegisterMap_eq]
  dsimp only
  split <;> exact ⟨rfl, rfl⟩

/-- C6: `AddDexRegisterEntry` returns, appends exactly one register location to
the accumulator, keeps the expected count, and its result is the synthesis
`CreateDexRegisterMap` of the builder with the appended accumulator if the
length after the append equals the expected count, and just the builder with
the appended accumulator if not.  The expected count is the one declared by
`BeginStackMapEntry` / `BeginInlineInfoEntry`, which also empty the
accumulator.  For a position declared with expected count 0, whatever calls
follow before it is closed, the closed record has both dex-register indices
`kNoValue`; for an inline frame declared with expected count 0, whatever calls
follow within the position, its record keeps both dex-register indices
`kNoValue`. -/
theorem AddDexRegisterEntry_quota (E : Externals) (s : StackMapStream) (kind : Kind)
    (value : Int) :
    (∃ s1, s.AddDexRegisterEntry E kind value = .ok s1 ∧
      s1.current_dex_registers_ = s.current_dex_registers_ ++ [⟨kind, value⟩] ∧
      s1.expected_num_dex_registers_ = s.expected_num_dex_registers_ ∧
      (s.current_dex_registers_.length + 1 = s.expected_num_dex_registers_ →
        s1 = ({ s with current_dex_registers_ :=
          s.current_dex_registers_ ++ [DexRegisterLocation.mk kind value] }
            ).CreateDexRegisterMap E) ∧
      (s.current_dex_registers_.length + 1 ≠ s.expected_num_dex_registers_ →
        s1 = { s with current_dex_registers_ :=
          s.current_dex_registers_ ++ [DexRegisterLocation.mk kind value] })) ∧
    (∀ (sb s0 : StackMapStream) (dex_pc native_pc_offset register_mask : Nat)
      (stack_mask : Option Nat) (num_dex_registers inlining_depth : Nat),
      sb.BeginStackMapEntry E dex_pc native_pc_offset register_mask stack_mask
        num_dex_registers inlining_depth = .ok s0 →
      s0.expected_num_dex_registers_ = num_dex_registers ∧ s0.current_dex_registers_ = []) ∧
    (∀ (sb s0 : StackMapStream) (method : ArtMethod)
      (dex_pc num_dex_registers outer_dex_file : Nat),
      sb.BeginInlineInfoEntry E method dex_pc num_dex_registers outer_dex_file = .ok s0 →
      s0.expected_num_dex_registers_ = num_dex_registers ∧ s0.current_dex_registers_ = []) ∧
    (∀ (sb s0 s1 s2 : StackMapStream) (dex_pc native_pc_offset register_mask : Nat)
      (stack_mask : Option Nat) (inlining_depth : Nat) (cs : List Call),
      sb.BeginStackMapEntry E dex_pc native_pc_offset register_mask stack_mask 0
        inlining_depth = .ok s0 →
      (∀ c ∈ cs, c.isBeginStackMapEntry = false) →
      s0.run E cs = .ok s1 → s1.EndStackMapEntry = .ok s2 →
      ∃ record : StackMapEntry, s2.stack_maps_ = sb.stack_maps_ ++ [record] ∧
        record.dex_register_mask_index = kNoValue ∧
        record.dex_register_map_index = kNoValue) ∧
    (∀ (sb s0 s1 : StackMapStream) (method : ArtMethod) (dex_pc outer_dex_file : Nat)
      (cs : List Call),
      sb.BeginInlineInfoEntry E method dex_pc 0 outer_dex_file = .ok s0 →
      (∀ c ∈ cs, c.isBeginStackMapEntry = false) →
      s0.run E cs = .ok s1 →
      ∃ e : InlineInfoEntry, s1.current_inline_infos_[sb.current_inline_infos_.length]? = some e ∧
        e.dex_register_mask_index = kNoValue ∧ e.dex_register_map_index = kNoValue) := by
  refine ⟨?_, ?_, ?_, ?_, ?_⟩
  · by_cases hq : s.current_dex_registers_.length + 1 = s.expected_num_dex_registers_
    · refine ⟨({ s with current_dex_registers_ :=
          s.current_dex_registers_ ++ [DexRegisterLocation.mk kind value] }
            ).CreateDexRegisterMap E, ?_, ?_, ?_, fun _ => rfl, fun hn => absurd hq hn⟩
      · simp [StackMapStream.AddDexRegisterEntry, hq]
      · exact (CreateDexRegisterMap_registers E _).1
      · exact (CreateDexRegisterMap_registers E _).2
    · refine ⟨{ s with current_dex_registers_ :=
          s.current_dex_registers_ ++ [DexRegisterLocation.mk kind value] }, ?_, rfl, rfl,
        fun h => absurd h hq, fun _ => rfl⟩
      simp [StackMapStream.AddDexRegisterEntry, hq]
  · intro sb s0 dex_pc native_pc_offset register_mask stack_mask num_dex_registers
      inlining_depth hb
    obtain ⟨-, hs⟩ := BeginStackMapEntry_ok E sb s0 dex_pc native_pc_offset register_mask
      stack_mask num_dex_registers inlining_depth hb
    subst hs; exact ⟨rfl, rfl⟩
  · intro sb s0 method dex_pc num_dex_registers outer_dex_file hb
    obtain ⟨-, -, hs⟩ := BeginInlineInfoEntry_ok E sb s0 _ _ _ _ hb
    subst hs; exact ⟨rfl, rfl⟩
  · intro sb s0 s1 s2 dex_pc native_pc_offset register_mask stack_mask inlining_depth cs
      hb hcs hrun hend
    obtain ⟨-, hs0⟩ := BeginStackMapEntry_ok E sb s0 dex_pc native_pc_offset register_mask
      stack_mask 0 inlining_depth hb
    obtain ⟨hin1, -, hs2⟩ := EndStackMapEntry_ok s1 s2 hend
    obtain ⟨-, -, hmaps, -, -, -⟩ := run_inline_infos E cs s0 s1 hrun hcs hin1
    have hinv := run_outer_dex_registers E cs s0 s1 hrun hcs
      (by subst hs0; exact ⟨rfl, rfl, fun _ => rfl⟩)
    have hm : s0.stack_maps_ = sb.stack_maps_ := by subst hs0; rfl
    rw [hm] at hmaps
    by_cases he : s1.current_inline_infos_ = []
    · rw [if_pos he] at hs2
      exact ⟨s1.current_stack_map_, by rw [hs2, ← hmaps], hinv.1, hinv.2.1⟩
    · rw [if_neg he] at hs2
      refine ⟨_, by rw [hs2, ← hmaps], ?_, ?_⟩
      · exact hinv.1
      · exact hinv.2.1
  · intro sb s0 s1 method dex_pc outer_dex_file cs hb hcs hrun
    obtain ⟨-, -, hs0⟩ := BeginInlineInfoEntry_ok E sb s0 _ _ _ _ hb
    refine (run_inline_dex_registers E sb.current_inline_infos_.length cs s0 s1 hrun hcs ?_).1
    have hget : ∀ x : InlineInfoEntry,
        (sb.current_inline_infos_ ++ [x])[sb.current_inline_infos_.length]? = some x := by
      intro x; rw [List.getElem?_append_right (Nat.le_refl _)]; simp
    subst hs0
    exact ⟨⟨_, hget _, rfl, rfl⟩, fun _ => rfl⟩

/-- The theorem `AddDexRegisterEntry_quota` for a position with zero own
registers and one inline frame (bytecode pc 2): no dex-register map at the
outer level. -/
theorem AddDexRegisterEntry_quota_witness :
    ∃ s0 s1 s2 : StackMapStream,
      (StackMapStream.create 0).BeginStackMapEntry sampleExternals 5 0x10 0 none 0 1 = .ok s0 ∧
      (∀ c ∈ [Call.BeginInlineInfoEntry ⟨0x1234, 7, 0⟩ 2 1 0,
          Call.AddDexRegisterEntry Kind.kInRegister 3, Call.EndInlineInfoEntry],
        c.isBeginStackMapEntry = false) ∧
      s0.run sampleExternals [Call.BeginInlineInfoEntry ⟨0x1234, 7, 0⟩ 2 1 0,
          Call.AddDexRegisterEntry Kind.kInRegister 3, Call.EndInlineInfoEntry] = .ok s1 ∧
      s1.EndStackMapEntry = .ok s2 ∧
      s2.inline_infos_.map (fun run => run.map (fun e => e.dex_register_map_index)) = [[0]] ∧
      ∃ record : StackMapEntry,
        s2.stack_maps_ = (StackMapStream.create 0).stack_maps_ ++ [record] ∧
        record.dex_register_mask_index = kNoValue ∧
        record.dex_register_map_index = kNoValue :=
  ⟨_, _, _, rfl, by simp [Call.isBeginStackMapEntry], rfl, rfl, rfl,
    (AddDexRegisterEntry_quota sampleExternals (StackMapStream.create 0) Kind.kNone 0).2.2.2.1
      (StackMapStream.create 0) _ _ _ 5 0x10 0 none 1
      [Call.BeginInlineInfoEntry ⟨0x1234, 7, 0⟩ 2 1 0,
        Call.AddDexRegisterEntry Kind.kInRegister 3, Call.EndInlineInfoEntry]
      rfl (by simp [Call.isBeginStackMapEntry]) rfl rfl⟩

/-! ## The frame that receives a synthesized dex-register map -/

theorem call_closed_inline_quota (E : Externals) (s s1 : StackMapStream) (c : Call)
    (h : s.call E c = .ok s1)
    (hinv : s.in_inline_info_ = false → s.current_inline_infos_ ≠ [] →
      s.expected_num_dex_registers_ ≤ s.current_dex_registers_.length) :
    s1.in_inline_info_ = false → s1.current_inline_infos_ ≠ [] →
      s1.expected_num_dex_registers_ ≤ s1.current_dex_registers_.length := by
  cases c with
  | BeginStackMapEntry dex_pc native_pc_offset register_mask stack_mask num_dex_registers
      inlining_depth =>
    obtain ⟨-, hs⟩ := BeginStackMapEntry_ok E s s1 dex_pc native_pc_offset register_mask
      stack_mask num_dex_registers inlining_depth h
    subst hs
    intro _ hne; exact absurd rfl hne
  | EndStackMapEntry =>
    obtain ⟨-, -, hs⟩ := EndStackMapEntry_ok s s1 h
    by_cases he : s.current_inline_infos_ = []
    · rw [if_pos he] at hs; subst hs
      intro _ hne; exact absurd he hne
    · rw [if_neg he] at hs; subst hs
      intro hf _; exact hinv hf he
  | AddDexRegisterEntry kind value =>
    have hs := AddDexRegisterEntry_ok E s s1 kind value h
    by_cases hq : s.current_dex_registers_.length + 1 = s.expected_num_dex_registers_
    · rw [if_pos hq, CreateDexRegisterMap_eq] at hs
      dsimp only at hs
      by_cases he : s.current_inline_infos_ = []
      · rw [if_pos he] at hs; subst hs
        intro _ hne; exact absurd he hne
      · rw [if_neg he] at hs; subst hs
        intro hf _
        have := hinv hf he
        simp only [List.length_append, List.length_singleton]
        omega
    · rw [if_neg hq] at hs
      subst hs
      intro hf hne
      have := hinv hf hne
      simp only [List.length_append, List.length_singleton]
      omega
  | AddInvoke invoke_type dex_method_index =>
    have hs := AddInvoke_ok s s1 _ _ h
    subst hs
    exact hinv
  | BeginInlineInfoEntry method dex_pc num_dex_registers outer_dex_file =>
    obtain ⟨-, -, hs⟩ := BeginInlineInfoEntry_ok E s s1 _ _ _ _ h
    subst hs
    intro hf; exact absurd hf (by simp)
  | EndInlineInfoEntry =>
    obtain ⟨-, hq, hs⟩ := EndInlineInfoEntry_ok s s1 h
    subst hs
    intro _ _; exact Nat.le_of_eq hq

theorem run_closed_inline_quota (E : Externals) (cs : List Call) :
    ∀ (s s1 : StackMapStream), s.run E cs = .ok s1 →
      (s.in_inline_info_ = false → s.current_inline_infos_ ≠ [] →
        s.expected_num_dex_registers_ ≤ s.current_dex_registers_.length) →
      s1.in_inline_info_ = false → s1.current_inline_infos_ ≠ [] →
        s1.expected_num_dex_registers_ ≤ s1.current_dex_registers_.length := by
  induction cs with
  | nil =>
    intro s s1 h hinv
    simp [StackMapStream.run] at h
    subst h; exact hinv
  | cons c cs ih =>
    intro s s1 h hinv
    obtain ⟨sa, hca, hra⟩ := run_cons_ok E s s1 c cs h
    exact ih sa s1 hra (call_closed_inline_quota E s sa c hca hinv)

/-- C7, as amended: in a call sequence on a new builder that passes every
check, when `AddDexRegisterEntry` runs the synthesis it stores the resulting
mask index and map index on the last record of the inline-frame accumulator if
the accumulator is not empty (an inline frame is then open), leaving the
top-level Position Record and all earlier inline records unchanged, and
otherwise on the open top-level Position Record; with no inline frame open the
accumulator is empty, so the Position Record is the target. -/
theorem synthesis_stores_on_innermost_record (E : Externals) (instruction_set : Nat)
    (cs : List Call) (s s1 : StackMapStream) (kind : Kind) (value : Int)
    (hrun : (StackMapStream.create instruction_set).run E cs = .ok s)
    (hadd : s.AddDexRegisterEntry E kind value = .ok s1)
    (hsynth : s.current_dex_registers_.length + 1 = s.expected_num_dex_registers_) :
    ∃ mask_index map_index : Nat,
      mask_index = (if s1.temp_dex_register_mask_.GetNumberOfBits ≠ 0 then
          (DedupBitmap s.dex_register_masks_ s1.temp_dex_register_mask_.GetRawStorage
            s1.temp_dex_register_mask_.GetNumberOfBits).1
        else kNoValue) ∧
      map_index = (Dedup s.dex_register_maps_ s1.temp_dex_register_map_).1 ∧
      (s.current_inline_infos_ = [] →
        s1.current_stack_map_ = { s.current_stack_map_ with
          dex_register_mask_index := mask_index, dex_register_map_index := map_index } ∧
        s1.current_inline_infos_ = []) ∧
      (∀ (earlier : List InlineInfoEntry) (innermost : InlineInfoEntry),
        s.current_inline_infos_ = earlier ++ [innermost] →
        s.in_inline_info_ = true ∧
        s1.current_inline_infos_ = earlier ++ [{ innermost with
          dex_register_mask_index := mask_index, dex_register_map_index := map_index }] ∧
        s1.current_stack_map_ = s.current_stack_map_) ∧
      (s.in_inline_info_ = false → s.current_inline_infos_ = []) := by
  have hinv := run_closed_inline_quota E cs _ s hrun
    (by intro _ hne; exact absurd rfl hne)
  have hflag : s.in_inline_info_ = false → s.current_inline_infos_ = [] := by
    intro hf
    by_contra hne
    have := hinv hf hne
    omega
  have hs := AddDexRegisterEntry_ok E s s1 kind value hadd
  rw [if_pos hsynth, CreateDexRegisterMap_eq] at hs
  dsimp only at hs
  refine ⟨(if s1.temp_dex_register_mask_.GetNumberOfBits ≠ 0 then
      (DedupBitmap s.dex_register_masks_ s1.temp_dex_register_mask_.GetRawStorage
        s1.temp_dex_register_mask_.GetNumberOfBits).1
    else kNoValue), (Dedup s.dex_register_maps_ s1.temp_dex_register_map_).1, rfl, rfl,
    ?_, ?_, hflag⟩
  · intro he
    rw [if_pos he] at hs
    subst hs
    refine ⟨?_, he⟩
    simp only [BitVector.GetNumberOfBits, BitVector.GetRawStorage]
    split <;> rfl
  · intro earlier innermost hcur
    have he : s.current_inline_infos_ ≠ [] := by rw [hcur]; simp
    rw [if_neg he] at hs
    subst hs
    refine ⟨?_, ?_, rfl⟩
    · cases hf : s.in_inline_info_ with
      | true => rfl
      | false => exact absurd (hflag hf) he
    · show modifyBack s.current_inline_infos_ _ = _
      rw [hcur, modifyBack_concat]
      simp only [BitVector.GetNumberOfBits, BitVector.GetRawStorage]
      split <;> rfl

/-- C7 fails as stated: a call sequence that passes every check, in which
synthesis runs while an inline frame is open (`in_inline_info_` is set, the
frame of the first position was never closed) and stores the indices on the
top-level Position Record, there being no inline record in the accumulator. -/
theorem synthesis_with_open_inline_frame_counterexample :
    ∃ (s s1 s2 s3 : StackMapStream) (n : Nat) (bytes : List Nat),
      (StackMapStream.create 0).run sampleExternals
        [Call.BeginStackMapEntry 5 0x10 0 none 0 1,
         Call.BeginInlineInfoEntry ⟨0x1234, 7, 0⟩ 2 0 0,
         Call.EndStackMapEntry,
         Call.BeginStackMapEntry 6 0x20 0 none 1 0] = .ok s ∧
      s.in_inline_info_ = true ∧
      s.current_dex_registers_.length + 1 = s.expected_num_dex_registers_ ∧
      s.current_stack_map_.dex_register_mask_index = kNoValue ∧
      s.current_stack_map_.dex_register_map_index = kNoValue ∧
      s.AddDexRegisterEntry sampleExternals Kind.kInRegister 3 = .ok s1 ∧
      s1.current_inline_infos_ = [] ∧
      s1.current_stack_map_.dex_register_mask_index = 0 ∧
      s1.current_stack_map_.dex_register_map_index = 0 ∧
      s1.run sampleExternals [Call.EndInlineInfoEntry, Call.EndStackMapEntry] = .ok s2 ∧
      s2.PrepareForFillIn sampleCodec sampleMemory = .ok (s3, n) ∧
      s3.FillInCodeInfo n = .ok bytes :=
  ⟨_, _, _, _, _, _, rfl, rfl, rfl, rfl, rfl, rfl, rfl, rfl, rfl, rfl, rfl, rfl⟩

/-- The theorem `synthesis_stores_on_innermost_record` for a synthesis in the
inline frame of a position on a new builder. -/
theorem synthesis_stores_on_innermost_record_witness :
    ∃ s s1 : StackMapStream,
      (StackMapStream.create 0).run sampleExternals
        [Call.BeginStackMapEntry 5 0x10 0 none 0 1,
         Call.BeginInlineInfoEntry ⟨0x1234, 7, 0⟩ 2 1 0] = .ok s ∧
      s.AddDexRegisterEntry sampleExternals Kind.kInRegister 3 = .ok s1 ∧
      s.current_dex_registers_.length + 1 = s.expected_num_dex_registers_ ∧
      s1.current_inline_infos_.map (fun e => e.dex_register_map_index) = [0] ∧
      s1.current_stack_map_.dex_register_map_index = kNoValue ∧
      (s.in_inline_info_ = false → s.current_inline_infos_ = []) :=
  ⟨_, _, rfl, rfl, rfl, rfl, rfl,
    (synthesis_stores_on_innermost_record sampleExternals 0
      [Call.BeginStackMapEntry 5 0x10 0 none 0 1,
       Call.BeginInlineInfoEntry ⟨0x1234, 7, 0⟩ 2 1 0] _ _ Kind.kInRegister 3
      rfl rfl rfl).elim (fun _ h => h.elim (fun _ h => h.2.2.2.2))⟩

/-! ## The Position sequence -/

theorem suppliedPositions_cons (E : Externals) (instruction_set : Nat) (c : Call)
    (cs : List Call) :
    suppliedPositions E instruction_set (c :: cs) =
      suppliedPositions E instruction_set [c] ++ suppliedPositions E instruction_set cs := by
  cases c <;> simp [suppliedPositions]

theorem call_positions (E : Externals) (s s1 : StackMapStream) (c : Call)
    (h : s.call E c = .ok s1) :
    s1.instruction_set_ = s.instruction_set_ ∧
    (∃ ext, s1.stack_maps_ = s.stack_maps_ ++ ext) ∧
    s1.stack_maps_.map (fun e => (e.dex_pc, e.packed_native_pc)) ++
        (if s1.in_stack_map_ then
          [(s1.current_stack_map_.dex_pc, s1.current_stack_map_.packed_native_pc)] else []) =
      (s.stack_maps_.map (fun e => (e.dex_pc, e.packed_native_pc)) ++
        (if s.in_stack_map_ then
          [(s.current_stack_map_.dex_pc, s.current_stack_map_.packed_native_pc)] else [])) ++
      suppliedPositions E s.instruction_set_ [c] := by
  cases c with
  | BeginStackMapEntry dex_pc native_pc_offset register_mask stack_mask num_dex_registers
      inlining_depth =>
    obtain ⟨hin, hs⟩ := BeginStackMapEntry_ok E s s1 dex_pc native_pc_offset register_mask
      stack_mask num_dex_registers inlining_depth h
    subst hs
    exact ⟨rfl, ⟨[], by simp⟩, by simp [hin, suppliedPositions]⟩
  | EndStackMapEntry =>
    obtain ⟨hin, -, hs⟩ := EndStackMapEntry_ok s s1 h
    by_cases he : s.current_inline_infos_ = []
    · rw [if_pos he] at hs; subst hs
      exact ⟨rfl, ⟨_, rfl⟩, by simp [hin, suppliedPositions]⟩
    · rw [if_neg he] at hs; subst hs
      exact ⟨rfl, ⟨_, rfl⟩, by simp [hin, suppliedPositions]⟩
  | AddDexRegisterEntry kind value =>
    have hs := AddDexRegisterEntry_ok E s s1 kind value h
    by_cases hq : s.current_dex_registers_.length + 1 = s.expected_num_dex_registers_
    · rw [if_pos hq, CreateDexRegisterMap_eq] at hs
      dsimp only at hs
      by_cases he : s.current_inline_infos_ = []
      · rw [if_pos he] at hs; subst hs
        exact ⟨rfl, ⟨[], by simp⟩, by simp [suppliedPositions]⟩
      · rw [if_neg he] at hs; subst hs
        exact ⟨rfl, ⟨[], by simp⟩, by simp [suppliedPositions]⟩
    · rw [if_neg hq] at hs
      subst hs
      exact ⟨rfl, ⟨[], by simp⟩, by simp [suppliedPositions]⟩
  | AddInvoke invoke_type dex_method_index =>
    have hs := AddInvoke_ok s s1 _ _ h
    subst hs
    exact ⟨rfl, ⟨[], by simp⟩, by simp [suppliedPositions]⟩
  | BeginInlineInfoEntry method dex_pc num_dex_registers outer_dex_file =>
    obtain ⟨-, -, hs⟩ := BeginInlineInfoEntry_ok E s s1 _ _ _ _ h
    subst hs
    exact ⟨rfl, ⟨[], by simp⟩, by simp [suppliedPositions]⟩
  | EndInlineInfoEntry =>
    obtain ⟨-, -, hs⟩ := EndInlineInfoEntry_ok s s1 h
    subst hs
    exact ⟨rfl, ⟨[], by simp⟩, by simp [suppliedPositions]⟩

theorem run_positions (E : Externals) (cs : List Call) :
    ∀ (s s1 : StackMapStream), s.run E cs = .ok s1 →
      s1.instruction_set_ = s.instruction_set_ ∧
      (∃ ext, s1.stack_maps_ = s.stack_maps_ ++ ext) ∧
      s1.stack_maps_.map (fun e => (e.dex_pc, e.packed_native_pc)) ++
          (if s1.in_stack_map_ then
            [(s1.current_stack_map_.dex_pc, s1.current_stack_map_.packed_native_pc)] else []) =
        (s.stack_maps_.map (fun e => (e.dex_pc, e.packed_native_pc)) ++
          (if s.in_stack_map_ then
            [(s.current_stack_map_.dex_pc, s.current_stack_map_.packed_native_pc)] else [])) ++
        suppliedPositions E s.instruction_set_ cs := by
  induction cs with
  | nil =>
    intro s s1 h
    simp [StackMapStream.run] at h
    subst h
    exact ⟨rfl, ⟨[], by simp⟩, by simp [suppliedPositions]⟩
  | cons c cs ih =>
    intro s s1 h
    obtain ⟨sa, hca, hra⟩ := run_cons_ok E s s1 c cs h
    obtain ⟨a1, ⟨e1, a2⟩, a3⟩ := call_positions E s sa c hca
    obtain ⟨b1, ⟨e2, b2⟩, b3⟩ := ih sa s1 hra
    refine ⟨b1.trans a1, ⟨e1 ++ e2, by rw [b2, a2, List.append_assoc]⟩, ?_⟩
    rw [b3, a3, a1, List.append_assoc, ← suppliedPositions_cons]

theorem BeginStackMapEntry_returns (E : Externals) (s : StackMapStream)
    (dex_pc native_pc_offset register_mask : Nat) (stack_mask : Option Nat)
    (num_dex_registers inlining_depth : Nat) (hclosed : s.in_stack_map_ = false) :
    ∃ s1, s.BeginStackMapEntry E dex_pc native_pc_offset register_mask stack_mask
      num_dex_registers inlining_depth = .ok s1 := by
  simp [StackMapStream.BeginStackMapEntry, hclosed]

theorem EndStackMapEntry_returns (s : StackMapStream) (hopen : s.in_stack_map_ = true)
    (hq : s.expected_num_dex_registers_ = s.current_dex_registers_.length) :
    ∃ s1, s.EndStackMapEntry = .ok s1 := by
  simp [StackMapStream.EndStackMapEntry, hopen, hq]

theorem Dedup_twice {α : Type} [DecidableEq α] (rows : List α) (x : α) :
    Dedup (Dedup rows x).2 x = ((Dedup rows x).1, (Dedup rows x).2) := by
  have hmem := Dedup_mem rows x
  have hidx := Dedup_index_self rows x
  have h : Dedup (Dedup rows x).2 x =
      if x ∈ (Dedup rows x).2 then ((Dedup rows x).2.indexOf x, (Dedup rows x).2)
      else ((Dedup rows x).2.length, (Dedup rows x).2 ++ [x]) := rfl
  rw [h, if_pos hmem, hidx]

/-- C8: after any call sequence on a new builder that passes every check, the
Position sequence, followed by the open record if a position is open, carries
in call order the bytecode pc and the packed native position given to the
`BeginStackMapEntry` calls; with no position open it has exactly one record for
every `BeginStackMapEntry`.  An `EndStackMapEntry` that passes its checks
appends exactly one record, the one of the last `BeginStackMapEntry`, and every
call keeps the records appended before it.  Two positions opened with the same
arguments give two equal, separate records. -/
theorem position_sequence_append_only (E : Externals) (instruction_set : Nat)
    (cs : List Call) (s : StackMapStream)
    (hrun : (StackMapStream.create instruction_set).run E cs = .ok s) :
    s.stack_maps_.map (fun e => (e.dex_pc, e.packed_native_pc)) ++
        (if s.in_stack_map_ then
          [(s.current_stack_map_.dex_pc, s.current_stack_map_.packed_native_pc)] else []) =
      suppliedPositions E instruction_set cs ∧
    (s.in_stack_map_ = false →
      s.stack_maps_.length = (suppliedPositions E instruction_set cs).length ∧
      s.stack_maps_.map (fun e => (e.dex_pc, e.packed_native_pc)) =
        suppliedPositions E instruction_set cs) ∧
    (∀ s2, s.EndStackMapEntry = .ok s2 →
      ∃ record : StackMapEntry, s2.stack_maps_ = s.stack_maps_ ++ [record] ∧
        s2.stack_maps_.length = s.stack_maps_.length + 1 ∧
        (suppliedPositions E instruction_set cs).getLast? =
          some (record.dex_pc, record.packed_native_pc)) ∧
    (∀ c s2, s.call E c = .ok s2 → ∃ ext, s2.stack_maps_ = s.stack_maps_ ++ ext) ∧
    (∀ (dex_pc native_pc_offset register_mask : Nat) (stack_mask : Option Nat)
      (inlining_depth : Nat), s.in_stack_map_ = false →
      ∃ (s2 : StackMapStream) (record : StackMapEntry),
        s.run E [Call.BeginStackMapEntry dex_pc native_pc_offset register_mask stack_mask 0
            inlining_depth, Call.EndStackMapEntry,
          Call.BeginStackMapEntry dex_pc native_pc_offset register_mask stack_mask 0
            inlining_depth, Call.EndStackMapEntry] = .ok s2 ∧
        s2.stack_maps_ = s.stack_maps_ ++ [record, record] ∧
        record.dex_pc = dex_pc ∧
        record.packed_native_pc = E.PackNativePc native_pc_offset instruction_set) := by
  obtain ⟨hset, -, hpos⟩ := run_positions E cs _ s hrun
  have hset : s.instruction_set_ = instruction_set := hset
  have hpos : s.stack_maps_.map (fun e => (e.dex_pc, e.packed_native_pc)) ++
        (if s.in_stack_map_ then
          [(s.current_stack_map_.dex_pc, s.current_stack_map_.packed_native_pc)] else []) =
      suppliedPositions E instruction_set cs := by
    simpa [StackMapStream.create] using hpos
  refine ⟨hpos, ?_, ?_, ?_, ?_⟩
  · intro hclosed
    rw [hclosed] at hpos
    simp only [Bool.false_eq_true, if_false, List.append_nil] at hpos
    exact ⟨by rw [← hpos, List.length_map], hpos⟩
  · intro s2 hend
    obtain ⟨hin, -, hs2⟩ := EndStackMapEntry_ok s s2 hend
    rw [hin] at hpos
    simp only [if_true] at hpos
    by_cases he : s.current_inline_infos_ = []
    · rw [if_pos he] at hs2; subst hs2
      exact ⟨_, rfl, by simp, by rw [← hpos]; simp⟩
    · rw [if_neg he] at hs2; subst hs2
      exact ⟨_, rfl, by simp, by rw [← hpos]; simp⟩
  · intro c s2 hc
    exact (call_positions E s s2 c hc).2.1
  · intro dex_pc native_pc_offset register_mask stack_mask inlining_depth hclosed
    obtain ⟨s0, h0⟩ := BeginStackMapEntry_returns E s dex_pc native_pc_offset register_mask
      stack_mask 0 inlining_depth hclosed
    obtain ⟨-, e0⟩ := BeginStackMapEntry_ok E s s0 _ _ _ _ _ inlining_depth h0
    obtain ⟨s1, h1⟩ := EndStackMapEntry_returns s0 (by rw [e0]) (by rw [e0]; rfl)
    obtain ⟨-, -, e1⟩ := EndStackMapEntry_ok s0 s1 h1
    rw [if_pos (by rw [e0])] at e1
    obtain ⟨s2, h2⟩ := BeginStackMapEntry_returns E s1 dex_pc native_pc_offset register_mask
      stack_mask 0 inlining_depth (by rw [e1])
    obtain ⟨-, e2⟩ := BeginStackMapEntry_ok E s1 s2 _ _ _ _ _ inlining_depth h2
    obtain ⟨s3, h3⟩ := EndStackMapEntry_returns s2 (by rw [e2]) (by rw [e2]; rfl)
    obtain ⟨-, -, e3⟩ := EndStackMapEntry_ok s2 s3 h3
    rw [if_pos (by rw [e2])] at e3
    refine ⟨s3, s0.current_stack_map_, ?_, ?_, by rw [e0], by rw [e0, hset]⟩
    · simp [StackMapStream.run, StackMapStream.call, h0, h1, h2, h3]
    · have hcur : s2.current_stack_map_ = s0.current_stack_map_ := by
        rw [e2, e1, e0]
        by_cases hm : register_mask = 0
        · simp [hm]
        · simp only [ne_eq, hm, not_false_eq_true, if_true, Dedup_twice]
      have hm0 : s0.stack_maps_ = s.stack_maps_ := by rw [e0]
      rw [e3, hcur, e2, e1]
      simp [hm0]

/-- The theorem `position_sequence_append_only` for two positions opened with
identical arguments on a new builder: two records. -/
theorem position_sequence_append_only_witness :
    ∃ s : StackMapStream,
      (StackMapStream.create 0).run sampleExternals
        [Call.BeginStackMapEntry 5 0x10 0b1010000 none 0 0, Call.EndStackMapEntry,
         Call.BeginStackMapEntry 5 0x10 0b1010000 none 0 0, Call.EndStackMapEntry] = .ok s ∧
      s.stack_maps_.length = 2 ∧
      s.stack_maps_.map (fun e => (e.dex_pc, e.packed_native_pc)) =
        suppliedPositions sampleExternals 0
          [Call.BeginStackMapEntry 5 0x10 0b1010000 none 0 0, Call.EndStackMapEntry,
           Call.BeginStackMapEntry 5 0x10 0b1010000 none 0 0, Call.EndStackMapEntry] :=
  ⟨_, rfl, rfl,
    ((position_sequence_append_only sampleExternals 0
      [Call.BeginStackMapEntry 5 0x10 0b1010000 none 0 0, Call.EndStackMapEntry,
       Call.BeginStackMapEntry 5 0x10 0b1010000 none 0 0, Call.EndStackMapEntry] _ rfl).2.1
      rfl).2⟩

/-! ## Bit packing -/

theorem byteOfBits_testBit (bs : List Bool) : ∀ j, (byteOfBits bs).testBit j = bs.getD j false := by
  induction bs with
  | nil => intro j; simp [byteOfBits]
  | cons b bs ih =>
    intro j
    have hcons : byteOfBits (b :: bs) = 2 * byteOfBits bs + b.toNat := by
      simp [byteOfBits]
    rw [hcons]
    cases j with
    | zero =>
      rw [Nat.testBit_zero]
      cases b <;> simp [Nat.add_mod]
    | succ j =>
      rw [Nat.testBit_succ]
      have : (2 * byteOfBits bs + b.toNat) / 2 = byteOfBits bs := by
        cases b <;> simp
        omega
      rw [this, ih j]
      simp

theorem bitsOfByte_byteOfBits (bs : List Bool) (h : bs.length ≤ 8) :
    bitsOfByte (byteOfBits bs) = bs ++ List.replicate (8 - bs.length) false := by
  apply List.ext_getElem
  · simp [bitsOfByte]; omega
  · intro j h1 h2
    simp only [bitsOfByte, List.getElem_map, List.getElem_range, byteOfBits_testBit]
    by_cases hj : j < bs.length
    · rw [List.getElem_append_left hj]
      simp [List.getD_eq_getElem?_getD, hj]
    · rw [List.getElem_append_right (by omega), List.getD_eq_default _ _ (by omega)]
      simp

theorem packBytes_nil : packBytes [] = [] := by
  simp [packBytes]

theorem packBytes_step (xs : List Bool) (h : xs ≠ []) :
    packBytes xs = byteOfBits (xs.take 8) :: packBytes (xs.drop 8) := by
  have hpos : 0 < xs.length := List.length_pos.mpr h
  have hm : (xs.length + 7) / 8 = ((xs.drop 8).length + 7) / 8 + 1 := by
    simp only [List.length_drop]; omega
  unfold packBytes
  rw [hm, List.range_succ_eq_map]
  simp only [List.map_cons, List.map_map, Nat.mul_zero, List.drop_zero]
  congr 1
  apply List.map_congr_left
  intro k _
  simp only [Function.comp, List.drop_drop]
  congr 3
  omega

theorem unpackBits_cons (b : Nat) (bs : List Nat) :
    unpackBits (b :: bs) = bitsOfByte b ++ unpackBits bs := by
  simp [unpackBits]

theorem unpackBits_packBytes (n : Nat) : ∀ xs : List Bool, xs.length = n →
    (unpackBits (packBytes xs)).take xs.length = xs := by
  induction n using Nat.strong_induction_on with
  | _ n ih =>
    intro xs hn
    by_cases hx : xs = []
    · subst hx; simp [packBytes_nil, unpackBits]
    · have hpos : 0 < xs.length := List.length_pos.mpr hx
      rw [packBytes_step xs hx, unpackBits_cons,
        bitsOfByte_byteOfBits _ (by simp)]
      by_cases h8 : 8 ≤ xs.length
      · have hl : (xs.take 8).length = 8 := by simp; omega
        rw [hl]
        simp only [Nat.sub_self, List.replicate_zero, List.append_nil]
        rw [List.take_append_eq_append_take, hl]
        have hrec := ih (xs.drop 8).length (by simp; omega) (xs.drop 8) rfl
        simp only [List.length_drop] at hrec
        rw [hrec, List.take_of_length_le (by rw [hl]; exact h8)]
        exact List.take_append_drop 8 xs
      · have ht : xs.take 8 = xs := List.take_of_length_le (by omega)
        rw [ht, List.append_assoc, List.take_append_eq_append_take]
        simp

theorem Encode_packBytes (xs bits : List Bool) :
    Encode bits (packBytes xs) xs.length = (packBytes (xs ++ bits), (xs ++ bits).length) := by
  unfold Encode
  rw [unpackBits_packBytes xs.length xs rfl, List.length_append]

/-! ## The length prefix -/

theorem EncodeUnsignedLeb128_length (value : Nat) :
    (EncodeUnsignedLeb128 value).length = UnsignedLeb128Size value := by
  have hlt : value % 2 ^ 32 < 2 ^ 32 := Nat.mod_lt _ (by decide)
  unfold EncodeUnsignedLeb128 UnsignedLeb128Size
  generalize value % 2 ^ 32 = v at hlt
  simp only [Leb128Bytes]
  norm_num at hlt ⊢
  split_ifs <;> simp <;> omega

theorem Leb128Bytes_decode (fuel : Nat) : ∀ v : Nat, v < 128 ^ fuel →
    DecodeUnsignedLeb128 (Leb128Bytes fuel v) = v := by
  induction fuel with
  | zero => intro v h; simp at h; subst h; simp [Leb128Bytes, DecodeUnsignedLeb128]
  | succ fuel ih =>
    intro v h
    unfold Leb128Bytes
    by_cases h0 : v / 128 = 0
    · simp only [h0, if_true, DecodeUnsignedLeb128]
      omega
    · simp only [h0, if_false, DecodeUnsignedLeb128]
      have hlt : v / 128 < 128 ^ fuel := by
        rw [pow_succ] at h
        exact Nat.div_lt_of_lt_mul (by rw [Nat.mul_comm]; exact h)
      rw [ih (v / 128) hlt]
      omega

theorem EncodeUnsignedLeb128_decode (value : Nat) :
    DecodeUnsignedLeb128 (EncodeUnsignedLeb128 value) = value % 2 ^ 32 := by
  unfold EncodeUnsignedLeb128
  apply Leb128Bytes_decode
  have hlt : value % 2 ^ 32 < 2 ^ 32 := Nat.mod_lt _ (by decide)
  calc value % 2 ^ 32 < 2 ^ 32 := hlt
    _ ≤ 128 ^ 5 := by norm_num

/-! ## Binary layout -/

theorem PrepareForFillIn_ok (C : TableCodec) (mem : Nat → BitVector) (s s1 : StackMapStream)
    (n : Nat) (h : s.PrepareForFillIn C mem = .ok (s1, n)) :
    s.out_ = [] ∧
    ∃ l, PrepareForFillInLoop mem s.lazy_stack_masks_ 0 (s.stack_maps_, s.stack_masks_) = .ok l ∧
      s1.stack_maps_ = l.1 ∧ s1.stack_masks_ = l.2 ∧
      s1.register_masks_ = s.register_masks_ ∧ s1.invoke_infos_ = s.invoke_infos_ ∧
      s1.inline_infos_ = s.inline_infos_ ∧ s1.dex_register_masks_ = s.dex_register_masks_ ∧
      s1.dex_register_maps_ = s.dex_register_maps_ ∧
      s1.dex_register_catalog_ = s.dex_register_catalog_ ∧
      s1.in_stack_map_ = s.in_stack_map_ ∧ s1.in_inline_info_ = s.in_inline_info_ ∧
      s1.method_infos_ = s.method_infos_ ∧
      s1.out_ = packBytes (C.stack_maps l.1 ++ C.register_masks s.register_masks_ ++
        C.stack_masks l.2 ++ C.invoke_infos s.invoke_infos_ ++
        C.inline_infos s.inline_infos_ ++ C.dex_register_masks s.dex_register_masks_ ++
        C.dex_register_maps s.dex_register_maps_ ++
        C.dex_register_catalog s.dex_register_catalog_) ∧
      n = UnsignedLeb128Size s1.out_.length + s1.out_.length := by
  unfold StackMapStream.PrepareForFillIn at h
  by_cases hout : s.out_ = []
  · simp only [hout, List.length_nil, ne_eq, not_true_eq_false, if_false] at h
    cases hl : PrepareForFillInLoop mem s.lazy_stack_masks_ 0 (s.stack_maps_, s.stack_masks_) with
    | error f => rw [hl] at h; exact absurd h (by simp)
    | ok l =>
      rw [hl] at h
      simp only [Except.ok.injEq, Prod.mk.injEq] at h
      obtain ⟨h1, h2⟩ := h
      have e1 := Encode_packBytes [] (C.stack_maps l.1)
      rw [packBytes_nil] at e1
      simp only [List.length_nil, List.nil_append] at e1
      have hout1 : s1.out_ = packBytes (C.stack_maps l.1 ++ C.register_masks s.register_masks_ ++
          C.stack_masks l.2 ++ C.invoke_infos s.invoke_infos_ ++
          C.inline_infos s.inline_infos_ ++ C.dex_register_masks s.dex_register_masks_ ++
          C.dex_register_maps s.dex_register_maps_ ++
          C.dex_register_catalog s.dex_register_catalog_) := by
        rw [← h1]
        simp only [e1, Encode_packBytes]
      refine ⟨hout, l, rfl, by rw [← h1], by rw [← h1], by rw [← h1], by rw [← h1],
        by rw [← h1], by rw [← h1], by rw [← h1], by rw [← h1], by rw [← h1], by rw [← h1],
        by rw [← h1], hout1, ?_⟩
      rw [← h2, ← h1]
  · have : s.out_.length ≠ 0 := fun h0 => hout (List.length_eq_zero.mp h0)
    simp [this] at h

/-- C9: after `PrepareForFillIn` the internal buffer is the payload: the bits of
the encodings of the Position sequence, Register Mask Table, Stack Mask Table,
Invoke-Info Table, Inline-Info Table, Dex-Register-Mask Table,
Dex-Register-Map Table and Register-Location Catalogue, in this order, each
starting at the bit where the previous one ended, in as many bytes as hold
them; the returned size is the LEB128 size of the payload length plus the
payload length.  `FillInCodeInfo`, when it passes its checks, writes exactly
the unsigned LEB128 bytes of the payload length followed by the payload, which
are as many bytes as `PrepareForFillIn` returned, into a destination of that
size; it passes them when no position and no inline frame is open and the
payload is not empty. -/
theorem FillInCodeInfo_layout (C : TableCodec) (mem : Nat → BitVector)
    (s s1 : StackMapStream) (n : Nat) (hprep : s.PrepareForFillIn C mem = .ok (s1, n)) :
    s1.out_ = packBytes (C.stack_maps s1.stack_maps_ ++ C.register_masks s1.register_masks_ ++
      C.stack_masks s1.stack_masks_ ++ C.invoke_infos s1.invoke_infos_ ++
      C.inline_infos s1.inline_infos_ ++ C.dex_register_masks s1.dex_register_masks_ ++
      C.dex_register_maps s1.dex_register_maps_ ++
      C.dex_register_catalog s1.dex_register_catalog_) ∧
    (unpackBits s1.out_).take (C.stack_maps s1.stack_maps_ ++
        C.register_masks s1.register_masks_ ++ C.stack_masks s1.stack_masks_ ++
        C.invoke_infos s1.invoke_infos_ ++ C.inline_infos s1.inline_infos_ ++
        C.dex_register_masks s1.dex_register_masks_ ++
        C.dex_register_maps s1.dex_register_maps_ ++
        C.dex_register_catalog s1.dex_register_catalog_).length =
      C.stack_maps s1.stack_maps_ ++ C.register_masks s1.register_masks_ ++
        C.stack_masks s1.stack_masks_ ++ C.invoke_infos s1.invoke_infos_ ++
        C.inline_infos s1.inline_infos_ ++ C.dex_register_masks s1.dex_register_masks_ ++
        C.dex_register_maps s1.dex_register_maps_ ++
        C.dex_register_catalog s1.dex_register_catalog_ ∧
    n = UnsignedLeb128Size s1.out_.length + s1.out_.length ∧
    (EncodeUnsignedLeb128 s1.out_.length).length = UnsignedLeb128Size s1.out_.length ∧
    DecodeUnsignedLeb128 (EncodeUnsignedLeb128 s1.out_.length) = s1.out_.length % 2 ^ 32 ∧
    (∀ (region_size : Nat) (bytes : List Nat), s1.FillInCodeInfo region_size = .ok bytes →
      region_size = n ∧ bytes = EncodeUnsignedLeb128 s1.out_.length ++ s1.out_ ∧
      bytes.length = n) ∧
    (s1.in_stack_map_ = false → s1.in_inline_info_ = false → s1.out_ ≠ [] →
      ∃ bytes, s1.FillInCodeInfo n = .ok bytes) := by
  obtain ⟨-, l, -, h1, h2, h3, h4, h5, h6, h7, h8, -, -, -, hout, hn⟩ :=
    PrepareForFillIn_ok C mem s s1 n hprep
  rw [← h1, ← h2, ← h3, ← h4, ← h5, ← h6, ← h7, ← h8] at hout
  refine ⟨hout, ?_, hn, EncodeUnsignedLeb128_length _, EncodeUnsignedLeb128_decode _, ?_, ?_⟩
  · rw [hout]
    exact unpackBits_packBytes _ _ rfl
  · intro region_size bytes hfill
    unfold StackMapStream.FillInCodeInfo at hfill
    split_ifs at hfill with c1 c2 c3 c4
    have hb : bytes = EncodeUnsignedLeb128 s1.out_.length ++ s1.out_ :=
      (Except.ok.inj hfill).symm
    have hr : region_size = n := by
      rw [hn]; exact not_not.mp c4
    refine ⟨hr, hb, ?_⟩
    rw [hb, List.length_append, EncodeUnsignedLeb128_length, hn]
  · intro c1 c2 c3
    have c3' : s1.out_.length ≠ 0 := fun h0 => c3 (List.length_eq_zero.mp h0)
    refine ⟨EncodeUnsignedLeb128 s1.out_.length ++ s1.out_, ?_⟩
    unfold StackMapStream.FillInCodeInfo
    simp [c1, c2, c3', hn]

/-- The theorem `FillInCodeInfo_layout` for one position on a new builder. -/
theorem FillInCodeInfo_layout_witness :
    ∃ (s1 : StackMapStream) (n : Nat),
      (StackMapStream.create 0).run sampleExternals
        [Call.BeginStackMapEntry 5 0x10 0b1010000 (some 7) 2 0,
         Call.AddDexRegisterEntry Kind.kInRegister 3,
         Call.AddDexRegisterEntry Kind.kInRegister 7,
         Call.EndStackMapEntry] = .ok sampleBuilder ∧
      sampleBuilder.PrepareForFillIn sampleCodec sampleMemory = .ok (s1, n) ∧
      s1.out_ = [21, 53] ∧ n = 3 ∧
      s1.FillInCodeInfo 3 = .ok [2, 21, 53] ∧
      (∀ (region_size : Nat) (bytes : List Nat), s1.FillInCodeInfo region_size = .ok bytes →
        region_size = n ∧ bytes = EncodeUnsignedLeb128 s1.out_.length ++ s1.out_ ∧
        bytes.length = n) :=
  ⟨_, _, rfl, rfl, rfl, rfl, rfl,
    (FillInCodeInfo_layout sampleCodec sampleMemory sampleBuilder _ _ rfl).2.2.2.2.2.1⟩

/-! ## Inlined-method identity -/

/-- C10: `BeginInlineInfoEntry`, when its checks pass, pushes one record that is
non-terminal (`kMore`), carries the supplied `dex_pc` and has both
dex-register indices `kNoValue`.  If `EncodeArtMethodInInlineInfo(method)`
holds, the record has `method_info_index = kNoValue` and `art_method_hi`,
`art_method_lo` are the high and low 32 bits of the method pointer, so that
`hi * 2^32 + lo` is the pointer, and the Method-Reference Table is unchanged;
otherwise `art_method_hi = art_method_lo = kNoValue` and `method_info_index` is
the index in the Method-Reference Table of the method's dex method index. -/
theorem BeginInlineInfoEntry_method_identity (E : Externals) (s : StackMapStream)
    (method : ArtMethod) (dex_pc num_dex_registers outer_dex_file : Nat)
    (hclosed : s.in_inline_info_ = false)
    (hquota : s.expected_num_dex_registers_ = s.current_dex_registers_.length)
    (hfile : E.EncodeArtMethodInInlineInfo method = true ∨ dex_pc = 0xFFFFFFFF ∨
      E.IsSameDexFile outer_dex_file method.dex_file = true)
    (haddr : method.address < 2 ^ 64) :
    ∃ (s1 : StackMapStream) (entry : InlineInfoEntry),
      s.BeginInlineInfoEntry E method dex_pc num_dex_registers outer_dex_file = .ok s1 ∧
      s1.current_inline_infos_ = s.current_inline_infos_ ++ [entry] ∧
      entry.is_last = IsLast.kMore ∧ entry.dex_pc = dex_pc ∧
      entry.dex_register_mask_index = kNoValue ∧ entry.dex_register_map_index = kNoValue ∧
      (E.EncodeArtMethodInInlineInfo method = true →
        entry.method_info_index = kNoValue ∧
        entry.art_method_hi = method.address / 2 ^ 32 ∧
        entry.art_method_lo = method.address % 2 ^ 32 ∧
        entry.art_method_hi < 2 ^ 32 ∧ entry.art_method_lo < 2 ^ 32 ∧
        entry.art_method_hi * 2 ^ 32 + entry.art_method_lo = method.address ∧
        s1.method_infos_ = s.method_infos_) ∧
      (E.EncodeArtMethodInInlineInfo method = false →
        entry.art_method_hi = kNoValue ∧ entry.art_method_lo = kNoValue ∧
        entry.method_info_index = (Dedup s.method_infos_ method.dex_method_index).1 ∧
        s1.method_infos_ = (Dedup s.method_infos_ method.dex_method_index).2 ∧
        s1.method_infos_[entry.method_info_index]? = some method.dex_method_index) := by
  have hhi : High32Bits method.address = method.address / 2 ^ 32 := by
    unfold High32Bits
    rw [Nat.shiftRight_eq_div_pow]
    apply Nat.mod_eq_of_lt
    apply Nat.div_lt_of_lt_mul
    calc method.address < 2 ^ 64 := haddr
      _ = 2 ^ 32 * 2 ^ 32 := by norm_num
  have hret : ∃ s1, s.BeginInlineInfoEntry E method dex_pc num_dex_registers outer_dex_file =
      .ok s1 := by
    cases henc : E.EncodeArtMethodInInlineInfo method with
    | true => simp [StackMapStream.BeginInlineInfoEntry, hclosed, hquota, henc]
    | false =>
      have hcheck : ¬ (dex_pc ≠ 0xFFFFFFFF ∧
          ¬ E.IsSameDexFile outer_dex_file method.dex_file = true) := by
        rintro ⟨h1, h2⟩
        rcases hfile with h | h | h
        · rw [henc] at h; exact absurd h (by simp)
        · exact h1 h
        · exact h2 h
      simp only [StackMapStream.BeginInlineInfoEntry, hclosed, hquota, henc, ne_eq,
        not_true_eq_false, if_false, Bool.false_eq_true, if_neg hcheck]
      exact ⟨_, rfl⟩
  obtain ⟨s1, hbegin⟩ := hret
  obtain ⟨-, -, hs1⟩ := BeginInlineInfoEntry_ok E s s1 _ _ _ _ hbegin
  refine ⟨s1, _, hbegin, by rw [hs1], rfl, rfl, rfl, rfl, ?_, ?_⟩
  · intro henc
    simp only [henc, if_true]
    refine ⟨trivial, hhi, rfl, ?_, ?_, ?_, by rw [hs1]; simp [henc]⟩
    · unfold High32Bits; exact Nat.mod_lt _ (by decide)
    · unfold Low32Bits; exact Nat.mod_lt _ (by decide)
    · rw [hhi]; unfold Low32Bits
      rw [Nat.mul_comm]; exact Nat.div_add_mod _ _
  · intro henc
    simp only [henc, Bool.false_eq_true, if_false]
    refine ⟨trivial, trivial, trivial, by rw [hs1]; simp [henc], ?_⟩
    have := Dedup_get s.method_infos_ method.dex_method_index []
    rw [hs1]
    simpa [henc] using this

/-- The theorem `BeginInlineInfoEntry_method_identity` for a method that is
encoded directly, on a new builder. -/
theorem BeginInlineInfoEntry_method_identity_witness :
    (StackMapStream.create 0).in_inline_info_ = false ∧
    (StackMapStream.create 0).expected_num_dex_registers_ =
      (StackMapStream.create 0).current_dex_registers_.length ∧
    (sampleExternals.EncodeArtMethodInInlineInfo ⟨0x123456789ABC, 7, 0⟩ = true ∨
      2 = 0xFFFFFFFF ∨ sampleExternals.IsSameDexFile 0 0 = true) ∧
    (⟨0x123456789ABC, 7, 0⟩ : ArtMethod).address < 2 ^ 64 ∧
    ∃ (s1 : StackMapStream) (entry : InlineInfoEntry),
      (StackMapStream.create 0).BeginInlineInfoEntry sampleExternals ⟨0x123456789ABC, 7, 0⟩
        2 0 0 = .ok s1 ∧
      s1.current_inline_infos_ = (StackMapStream.create 0).current_inline_infos_ ++ [entry] ∧
      entry.art_method_hi * 2 ^ 32 + entry.art_method_lo = 0x123456789ABC :=
  ⟨rfl, rfl, Or.inl rfl, by decide,
    (BeginInlineInfoEntry_method_identity sampleExternals (StackMapStream.create 0)
      ⟨0x123456789ABC, 7, 0⟩ 2 0 0 rfl rfl (Or.inl rfl) (by decide)).imp
      (fun _ h => h.imp (fun _ h => ⟨h.1, h.2.1, (h.2.2.2.2.2.2.1 rfl).2.2.2.2.2.1⟩))⟩

/-! ## Invoke-info records -/

theorem call_invoke_tables (E : Externals) (s s1 : StackMapStream) (c : Call)
    (h : s.call E c = .ok s1) :
    (∃ ext, s1.method_infos_ = s.method_infos_ ++ ext) ∧
    (∃ ext, s1.invoke_infos_ = s.invoke_infos_ ++ ext) ∧
    (c.isBeginStackMapEntry = false →
      s1.current_stack_map_.packed_native_pc = s.current_stack_map_.packed_native_pc) := by
  cases c with
  | BeginStackMapEntry dex_pc native_pc_offset register_mask stack_mask num_dex_registers
      inlining_depth =>
    obtain ⟨-, hs⟩ := BeginStackMapEntry_ok E s s1 dex_pc native_pc_offset register_mask
      stack_mask num_dex_registers inlining_depth h
    subst hs
    exact ⟨⟨[], by simp⟩, ⟨[], by simp⟩, fun hc => by simp [Call.isBeginStackMapEntry] at hc⟩
  | EndStackMapEntry =>
    obtain ⟨-, -, hs⟩ := EndStackMapEntry_ok s s1 h
    by_cases he : s.current_inline_infos_ = []
    · rw [if_pos he] at hs; subst hs
      exact ⟨⟨[], by simp⟩, ⟨[], by simp⟩, fun _ => rfl⟩
    · rw [if_neg he] at hs; subst hs
      exact ⟨⟨[], by simp⟩, ⟨[], by simp⟩, fun _ => rfl⟩
  | AddDexRegisterEntry kind value =>
    have hs := AddDexRegisterEntry_ok E s s1 kind value h
    by_cases hq : s.current_dex_registers_.length + 1 = s.expected_num_dex_registers_
    · rw [if_pos hq, CreateDexRegisterMap_eq] at hs
      dsimp only at hs
      by_cases he : s.current_inline_infos_ = []
      · rw [if_pos he] at hs; subst hs
        exact ⟨⟨[], by simp⟩, ⟨[], by simp⟩, fun _ => rfl⟩
      · rw [if_neg he] at hs; subst hs
        exact ⟨⟨[], by simp⟩, ⟨[], by simp⟩, fun _ => rfl⟩
    · rw [if_neg hq] at hs
      subst hs
      exact ⟨⟨[], by simp⟩, ⟨[], by simp⟩, fun _ => rfl⟩
  | AddInvoke invoke_type dex_method_index =>
    have hs := AddInvoke_ok s s1 _ _ h
    subst hs
    exact ⟨Dedup_extends _ _, ⟨_, rfl⟩, fun _ => rfl⟩
  | BeginInlineInfoEntry method dex_pc num_dex_registers outer_dex_file =>
    obtain ⟨-, -, hs⟩ := BeginInlineInfoEntry_ok E s s1 _ _ _ _ h
    subst hs
    refine ⟨?_, ⟨[], by simp⟩, fun _ => rfl⟩
    dsimp only
    split
    · exact ⟨[], by simp⟩
    · exact Dedup_extends _ _
  | EndInlineInfoEntry =>
    obtain ⟨-, -, hs⟩ := EndInlineInfoEntry_ok s s1 h
    subst hs
    exact ⟨⟨[], by simp⟩, ⟨[], by simp⟩, fun _ => rfl⟩

theorem run_invoke_tables (E : Externals) (cs : List Call) :
    ∀ (s s1 : StackMapStream), s.run E cs = .ok s1 →
      (∃ ext, s1.method_infos_ = s.method_infos_ ++ ext) ∧
      (∃ ext, s1.invoke_infos_ = s.invoke_infos_ ++ ext) ∧
      ((∀ c ∈ cs, c.isBeginStackMapEntry = false) →
        s1.current_stack_map_.packed_native_pc = s.current_stack_map_.packed_native_pc) := by
  induction cs with
  | nil =>
    intro s s1 h
    simp [StackMapStream.run] at h
    subst h
    exact ⟨⟨[], by simp⟩, ⟨[], by simp⟩, fun _ => rfl⟩
  | cons c cs ih =>
    intro s s1 h
    obtain ⟨sa, hca, hra⟩ := run_cons_ok E s s1 c cs h
    obtain ⟨⟨e1, a1⟩, ⟨e2, a2⟩, a3⟩ := call_invoke_tables E s sa c hca
    obtain ⟨⟨f1, b1⟩, ⟨f2, b2⟩, b3⟩ := ih sa s1 hra
    refine ⟨⟨e1 ++ f1, by rw [b1, a1, List.append_assoc]⟩,
      ⟨e2 ++ f2, by rw [b2, a2, List.append_assoc]⟩, ?_⟩
    intro hcs
    rw [b3 (fun c hc => hcs c (List.mem_cons_of_mem _ hc)),
      a3 (hcs c (List.mem_cons_self _ _))]

theorem Dedup_of_extension {α : Type} [DecidableEq α] (rows ext : List α) (x : α) :
    Dedup ((Dedup rows x).2 ++ ext) x = ((Dedup rows x).1, (Dedup rows x).2 ++ ext) := by
  have hmem : x ∈ (Dedup rows x).2 ++ ext := List.mem_append_left _ (Dedup_mem rows x)
  have h : Dedup ((Dedup rows x).2 ++ ext) x =
      if x ∈ (Dedup rows x).2 ++ ext then
        (((Dedup rows x).2 ++ ext).indexOf x, (Dedup rows x).2 ++ ext)
      else (((Dedup rows x).2 ++ ext).length, (Dedup rows x).2 ++ ext ++ [x]) := rfl
  rw [h, if_pos hmem, Dedup_index]

/-- C11: `AddInvoke` returns in every state and appends exactly one Invoke-Info
record to the end of the sequence, without deduplication (a second identical
call appends the same record again, after the first).  The record carries the
packed native position of the current Position Record, the supplied invocation
kind, and the Method-Reference-Table index of the supplied method id, where the
table holds that id; a later call with the same method id, after any accepted
calls, gets the same index.  The current Position Record, the Position sequence
and the open flag are unchanged.  When the position was opened by
`BeginStackMapEntry` and no other position was opened since, the native
position is the packed form of the offset supplied to that call. -/
theorem AddInvoke_appends_one_record (E : Externals) (s : StackMapStream)
    (invoke_type dex_method_index : Nat) :
    ∃ (s1 : StackMapStream) (record : InvokeInfoEntry),
      s.AddInvoke invoke_type dex_method_index = .ok s1 ∧
      s1.invoke_infos_ = s.invoke_infos_ ++ [record] ∧
      record.packed_native_pc = s.current_stack_map_.packed_native_pc ∧
      record.invoke_type = invoke_type ∧
      record.method_info_index = (Dedup s.method_infos_ dex_method_index).1 ∧
      s1.method_infos_ = (Dedup s.method_infos_ dex_method_index).2 ∧
      s1.method_infos_[record.method_info_index]? = some dex_method_index ∧
      s1.current_stack_map_ = s.current_stack_map_ ∧ s1.stack_maps_ = s.stack_maps_ ∧
      s1.in_stack_map_ = s.in_stack_map_ ∧
      (∃ s2, s1.AddInvoke invoke_type dex_method_index = .ok s2 ∧
        s2.invoke_infos_ = s.invoke_infos_ ++ [record, record]) ∧
      (∀ (cs : List Call) (s2 s3 : StackMapStream) (invoke_type2 : Nat),
        s1.run E cs = .ok s2 → s2.AddInvoke invoke_type2 dex_method_index = .ok s3 →
        ∃ (earlier : List InvokeInfoEntry) (record2 : InvokeInfoEntry),
          s3.invoke_infos_ = s.invoke_infos_ ++ [record] ++ earlier ++ [record2] ∧
          record2.invoke_type = invoke_type2 ∧
          record2.method_info_index = record.method_info_index) ∧
      (∀ (sb s0 : StackMapStream) (dex_pc native_pc_offset register_mask : Nat)
        (stack_mask : Option Nat) (num_dex_registers inlining_depth : Nat) (cs : List Call),
        sb.BeginStackMapEntry E dex_pc native_pc_offset register_mask stack_mask
          num_dex_registers inlining_depth = .ok s0 →
        (∀ c ∈ cs, c.isBeginStackMapEntry = false) → s0.run E cs = .ok s →
        record.packed_native_pc = E.PackNativePc native_pc_offset sb.instruction_set_) := by
  refine ⟨{ s with
      method_infos_ := (Dedup s.method_infos_ dex_method_index).2,
      invoke_infos_ := s.invoke_infos_ ++ [⟨s.current_stack_map_.packed_native_pc, invoke_type,
        (Dedup s.method_infos_ dex_method_index).1⟩] },
    ⟨s.current_stack_map_.packed_native_pc, invoke_type,
      (Dedup s.method_infos_ dex_method_index).1⟩, rfl, rfl, rfl, rfl, rfl, rfl, ?_, rfl, rfl,
    rfl, ?_, ?_, ?_⟩
  · simpa using Dedup_get s.method_infos_ dex_method_index []
  · refine ⟨_, rfl, ?_⟩
    simp [Add, Dedup_twice]
  · intro cs s2 s3 invoke_type2 hrun hadd
    obtain ⟨⟨e1, a1⟩, ⟨e2, a2⟩, -⟩ := run_invoke_tables E cs _ s2 hrun
    have hs3 := AddInvoke_ok s2 s3 _ _ hadd
    dsimp only at a1 a2
    refine ⟨e2, ⟨s2.current_stack_map_.packed_native_pc, invoke_type2,
      (Dedup s2.method_infos_ dex_method_index).1⟩, by rw [hs3, a2], rfl, ?_⟩
    show (Dedup s2.method_infos_ dex_method_index).1 = _
    rw [a1, Dedup_of_extension]
  · intro sb s0 dex_pc native_pc_offset register_mask stack_mask num_dex_registers
      inlining_depth cs hb hcs hrun
    obtain ⟨-, hs0⟩ := BeginStackMapEntry_ok E sb s0 dex_pc native_pc_offset register_mask
      stack_mask num_dex_registers inlining_depth hb
    obtain ⟨-, -, hpc⟩ := run_invoke_tables E cs s0 s hrun
    show s.current_stack_map_.packed_native_pc = _
    rw [hpc hcs, hs0]

/-- The theorem `AddInvoke_appends_one_record` for a call site recorded in an
open position on a new builder. -/
theorem AddInvoke_appends_one_record_witness :
    ∃ s0 : StackMapStream,
      (StackMapStream.create 0).BeginStackMapEntry sampleExternals 5 0x10 0 none 0 0 = .ok s0 ∧
      ∃ (s1 : StackMapStream) (record : InvokeInfoEntry),
        s0.AddInvoke 2 42 = .ok s1 ∧ s1.invoke_infos_ = s0.invoke_infos_ ++ [record] ∧
        record.packed_native_pc = 0x10 ∧ record.invoke_type = 2 :=
  ⟨_, rfl, (AddInvoke_appends_one_record sampleExternals _ 2 42).imp
    (fun _ h => h.imp (fun _ h => ⟨h.1, h.2.1,
      h.2.2.2.2.2.2.2.2.2.2.2.2 (StackMapStream.create 0) _ 5 0x10 0 none 0 0 [] rfl
        (by simp) rfl, h.2.2.2.1⟩))⟩

/-! ## Lifecycle checks -/

/-- C12: lifecycle balance.  `BeginStackMapEntry` is rejected when a position
is open and otherwise returns with the position flag set; `EndStackMapEntry` is
rejected when no position is open and, with a position open and the quota met,
returns with the position flag cleared.  `BeginInlineInfoEntry` is rejected when
an inline frame is open and, with none open and its quota and dex-file checks
passing, returns with the inline flag set; `EndInlineInfoEntry` is rejected when
no inline frame is open and, with one open and the quota met, returns with the
inline flag cleared.  Each call leaves the other flag as it was. -/
theorem lifecycle_balance (E : Externals) (s : StackMapStream) :
    (∀ (dex_pc native_pc_offset register_mask : Nat) (stack_mask : Option Nat)
      (num_dex_registers inlining_depth : Nat),
      (s.in_stack_map_ = true →
        s.BeginStackMapEntry E dex_pc native_pc_offset register_mask stack_mask
          num_dex_registers inlining_depth = .error .dcheck) ∧
      (s.in_stack_map_ = false →
        ∃ s1, s.BeginStackMapEntry E dex_pc native_pc_offset register_mask stack_mask
          num_dex_registers inlining_depth = .ok s1 ∧ s1.in_stack_map_ = true ∧
          s1.in_inline_info_ = s.in_inline_info_)) ∧
    (s.in_stack_map_ = false → s.EndStackMapEntry = .error .dcheck) ∧
    (s.in_stack_map_ = true →
      s.expected_num_dex_registers_ = s.current_dex_registers_.length →
      ∃ s1, s.EndStackMapEntry = .ok s1 ∧ s1.in_stack_map_ = false ∧
        s1.in_inline_info_ = s.in_inline_info_) ∧
    (∀ (method : ArtMethod) (dex_pc num_dex_registers outer_dex_file : Nat),
      (s.in_inline_info_ = true →
        s.BeginInlineInfoEntry E method dex_pc num_dex_registers outer_dex_file =
          .error .dcheck) ∧
      (s.in_inline_info_ = false →
        s.expected_num_dex_registers_ = s.current_dex_registers_.length →
        (E.EncodeArtMethodInInlineInfo method = true ∨ dex_pc = 0xFFFFFFFF ∨
          E.IsSameDexFile outer_dex_file method.dex_file = true) →
        ∃ s1, s.BeginInlineInfoEntry E method dex_pc num_dex_registers outer_dex_file =
          .ok s1 ∧ s1.in_inline_info_ = true ∧ s1.in_stack_map_ = s.in_stack_map_)) ∧
    (s.in_inline_info_ = false → s.EndInlineInfoEntry = .error .dcheck) ∧
    (s.in_inline_info_ = true →
      s.expected_num_dex_registers_ = s.current_dex_registers_.length →
      ∃ s1, s.EndInlineInfoEntry = .ok s1 ∧ s1.in_inline_info_ = false ∧
        s1.in_stack_map_ = s.in_stack_map_) := by
  refine ⟨?_, ?_, ?_, ?_, ?_, ?_⟩
  · intro dex_pc native_pc_offset register_mask stack_mask num_dex_registers inlining_depth
    refine ⟨?_, ?_⟩
    · intro h; simp [StackMapStream.BeginStackMapEntry, h]
    · intro h
      obtain ⟨s1, h1⟩ := BeginStackMapEntry_returns E s dex_pc native_pc_offset register_mask
        stack_mask num_dex_registers inlining_depth h
      obtain ⟨-, hs⟩ := BeginStackMapEntry_ok E s s1 _ _ _ _ _ inlining_depth h1
      exact ⟨s1, h1, by rw [hs], by rw [hs]⟩
  · intro h; simp [StackMapStream.EndStackMapEntry, h]
  · intro h hq
    obtain ⟨s1, h1⟩ := EndStackMapEntry_returns s h hq
    obtain ⟨-, -, hs⟩ := EndStackMapEntry_ok s s1 h1
    refine ⟨s1, h1, ?_, ?_⟩ <;> (rw [hs]; split <;> rfl)
  · intro method dex_pc num_dex_registers outer_dex_file
    refine ⟨?_, ?_⟩
    · intro h; simp [StackMapStream.BeginInlineInfoEntry, h]
    · intro h hq hfile
      have hret : ∃ s1, s.BeginInlineInfoEntry E method dex_pc num_dex_registers
          outer_dex_file = .ok s1 := by
        cases henc : E.EncodeArtMethodInInlineInfo method with
        | true => simp [StackMapStream.BeginInlineInfoEntry, h, hq, henc]
        | false =>
          have hcheck : ¬ (dex_pc ≠ 0xFFFFFFFF ∧
              ¬ E.IsSameDexFile outer_dex_file method.dex_file = true) := by
            rintro ⟨h1, h2⟩
            rcases hfile with h3 | h3 | h3
            · rw [henc] at h3; exact absurd h3 (by simp)
            · exact h1 h3
            · exact h2 h3
          simp only [StackMapStream.BeginInlineInfoEntry, h, hq, henc, ne_eq,
            not_true_eq_false, if_false, Bool.false_eq_true, if_neg hcheck]
          exact ⟨_, rfl⟩
      obtain ⟨s1, h1⟩ := hret
      obtain ⟨-, -, hs⟩ := BeginInlineInfoEntry_ok E s s1 _ _ _ _ h1
      exact ⟨s1, h1, by rw [hs], by rw [hs]⟩
  · intro h; simp [StackMapStream.EndInlineInfoEntry, h]
  · intro h hq
    refine ⟨{ s with in_inline_info_ := false }, ?_, rfl, rfl⟩
    simp [StackMapStream.EndInlineInfoEntry, h, hq]

/-- The theorem `lifecycle_balance` on a new builder, where nothing is open. -/
theorem lifecycle_balance_witness :
    (StackMapStream.create 0).in_stack_map_ = false ∧
    (StackMapStream.create 0).in_inline_info_ = false ∧
    (StackMapStream.create 0).EndStackMapEntry = .error .dcheck ∧
    (StackMapStream.create 0).EndInlineInfoEntry = .error .dcheck :=
  ⟨rfl, rfl, (lifecycle_balance sampleExternals (StackMapStream.create 0)).2.1 rfl,
    (lifecycle_balance sampleExternals (StackMapStream.create 0)).2.2.2.2.1 rfl⟩

/-- C13 fails as stated: `EndStackMapEntry` is accepted while the inline frame
opened in the position is still open, and `BeginInlineInfoEntry` is accepted on
a new builder, where no position is open. -/
theorem nesting_not_enforced_counterexample :
    ∃ s s1 s2 : StackMapStream,
      (StackMapStream.create 0).run sampleExternals
        [Call.BeginStackMapEntry 5 0x10 0 none 0 1,
         Call.BeginInlineInfoEntry ⟨0x1234, 7, 0⟩ 2 0 0] = .ok s ∧
      s.in_inline_info_ = true ∧
      s.EndStackMapEntry = .ok s1 ∧ s1.stack_maps_.length = 1 ∧
      (StackMapStream.create 0).in_stack_map_ = false ∧
      (StackMapStream.create 0).BeginInlineInfoEntry sampleExternals ⟨0x1234, 7, 0⟩ 2 0 0 =
        .ok s2 ∧
      s2.current_inline_infos_.length = 1 :=
  ⟨_, _, _, rfl, rfl, rfl, rfl, rfl, rfl, rfl⟩

/-- C13, as amended: nesting is not checked when a position or an inline frame
is opened or closed.  `EndStackMapEntry` is accepted with an inline frame open
whenever a position is open and the quota is met, and leaves the inline frame
open; `BeginInlineInfoEntry` is accepted with no position open whenever no
inline frame is open and its quota and dex-file checks pass.  A position or an
inline frame that is still open is rejected by `FillInCodeInfo`. -/
theorem nesting_checked_only_by_FillInCodeInfo (E : Externals) (s : StackMapStream) :
    (s.in_inline_info_ = true → s.in_stack_map_ = true →
      s.expected_num_dex_registers_ = s.current_dex_registers_.length →
      ∃ s1, s.EndStackMapEntry = .ok s1 ∧ s1.in_inline_info_ = true ∧
        s1.in_stack_map_ = false) ∧
    (∀ (method : ArtMethod) (dex_pc num_dex_registers outer_dex_file : Nat),
      s.in_stack_map_ = false → s.in_inline_info_ = false →
      s.expected_num_dex_registers_ = s.current_dex_registers_.length →
      (E.EncodeArtMethodInInlineInfo method = true ∨ dex_pc = 0xFFFFFFFF ∨
        E.IsSameDexFile outer_dex_file method.dex_file = true) →
      ∃ s1, s.BeginInlineInfoEntry E method dex_pc num_dex_registers outer_dex_file = .ok s1 ∧
        s1.in_inline_info_ = true ∧ s1.in_stack_map_ = false) ∧
    (s.in_stack_map_ = true ∨ s.in_inline_info_ = true →
      ∀ region_size, s.FillInCodeInfo region_size = .error .dcheck) := by
  refine ⟨?_, ?_, ?_⟩
  · intro hinl hin hq
    obtain ⟨s1, h1⟩ := EndStackMapEntry_returns s hin hq
    obtain ⟨-, -, hs⟩ := EndStackMapEntry_ok s s1 h1
    refine ⟨s1, h1, ?_, ?_⟩
    · rw [hs]; split <;> exact hinl
    · rw [hs]; split <;> rfl
  · intro method dex_pc num_dex_registers outer_dex_file hin hinl hq hfile
    have hret : ∃ s1, s.BeginInlineInfoEntry E method dex_pc num_dex_registers
        outer_dex_file = .ok s1 := by
      cases henc : E.EncodeArtMethodInInlineInfo method with
      | true => simp [StackMapStream.BeginInlineInfoEntry, hinl, hq, henc]
      | false =>
        have hcheck : ¬ (dex_pc ≠ 0xFFFFFFFF ∧
            ¬ E.IsSameDexFile outer_dex_file method.dex_file = true) := by
          rintro ⟨h1, h2⟩
          rcases hfile with h3 | h3 | h3
          · rw [henc] at h3; exact absurd h3 (by simp)
          · exact h1 h3
          · exact h2 h3
        simp only [StackMapStream.BeginInlineInfoEntry, hinl, hq, henc, ne_eq,
          not_true_eq_false, if_false, Bool.false_eq_true, if_neg hcheck]
        exact ⟨_, rfl⟩
    obtain ⟨s1, h1⟩ := hret
    obtain ⟨-, -, hs⟩ := BeginInlineInfoEntry_ok E s s1 _ _ _ _ h1
    exact ⟨s1, h1, by rw [hs], by rw [hs]; exact hin⟩
  · intro h region_size
    rcases h with h | h
    · simp [StackMapStream.FillInCodeInfo, h]
    · cases h2 : s.in_stack_map_ <;> simp [StackMapStream.FillInCodeInfo, h, h2]

/-- The theorem `nesting_checked_only_by_FillInCodeInfo` for a position that is
closed while its inline frame is open. -/
theorem nesting_checked_only_by_FillInCodeInfo_witness :
    ∃ s : StackMapStream,
      (StackMapStream.create 0).run sampleExternals
        [Call.BeginStackMapEntry 5 0x10 0 none 0 1,
         Call.BeginInlineInfoEntry ⟨0x1234, 7, 0⟩ 2 0 0] = .ok s ∧
      s.in_inline_info_ = true ∧ s.in_stack_map_ = true ∧
      s.expected_num_dex_registers_ = s.current_dex_registers_.length ∧
      (∃ s1, s.EndStackMapEntry = .ok s1 ∧ s1.in_inline_info_ = true ∧
        s1.in_stack_map_ = false) ∧
      ∀ region_size, s.FillInCodeInfo region_size = .error .dcheck :=
  ⟨_, rfl, rfl, rfl, rfl,
    (nesting_checked_only_by_FillInCodeInfo sampleExternals _).1 rfl rfl rfl,
    (nesting_checked_only_by_FillInCodeInfo sampleExternals _).2.2 (Or.inl rfl)⟩

/-! ## The virtual-register quota at frame boundaries -/

theorem BeginInlineInfoEntry_returns (E : Externals) (s : StackMapStream) (method : ArtMethod)
    (dex_pc num_dex_registers outer_dex_file : Nat) (hclosed : s.in_inline_info_ = false)
    (hq : s.expected_num_dex_registers_ = s.current_dex_registers_.length)
    (hfile : E.EncodeArtMethodInInlineInfo method = true ∨ dex_pc = 0xFFFFFFFF ∨
      E.IsSameDexFile outer_dex_file method.dex_file = true) :
    ∃ s1, s.BeginInlineInfoEntry E method dex_pc num_dex_registers outer_dex_file = .ok s1 := by
  cases henc : E.EncodeArtMethodInInlineInfo method with
  | true => simp [StackMapStream.BeginInlineInfoEntry, hclosed, hq, henc]
  | false =>
    have hcheck : ¬ (dex_pc ≠ 0xFFFFFFFF ∧
        ¬ E.IsSameDexFile outer_dex_file method.dex_file = true) := by
      rintro ⟨h1, h2⟩
      rcases hfile with h3 | h3 | h3
      · rw [henc] at h3; exact absurd h3 (by simp)
      · exact h1 h3
      · exact h2 h3
    simp only [StackMapStream.BeginInlineInfoEntry, hclosed, hq, henc, ne_eq,
      not_true_eq_false, if_false, Bool.false_eq_true, if_neg hcheck]
    exact ⟨_, rfl⟩

theorem EndInlineInfoEntry_returns (s : StackMapStream) (hopen : s.in_inline_info_ = true)
    (hq : s.expected_num_dex_registers_ = s.current_dex_registers_.length) :
    ∃ s1, s.EndInlineInfoEntry = .ok s1 := by
  simp [StackMapStream.EndInlineInfoEntry, hopen, hq]

theorem call_quota_count (E : Externals) (s s1 : StackMapStream) (c : Call)
    (h : s.call E c = .ok s1) (hb : c.isBeginStackMapEntry = false)
    (hi : c.isBeginInlineInfoEntry = false) :
    s1.expected_num_dex_registers_ = s.expected_num_dex_registers_ ∧
      s1.current_dex_registers_.length =
        s.current_dex_registers_.length + [c].countP Call.isAddDexRegisterEntry := by
  cases c with
  | BeginStackMapEntry dex_pc native_pc_offset register_mask stack_mask num_dex_registers
      inlining_depth => simp [Call.isBeginStackMapEntry] at hb
  | EndStackMapEntry =>
    obtain ⟨-, -, hs⟩ := EndStackMapEntry_ok s s1 h
    by_cases he : s.current_inline_infos_ = []
    · rw [if_pos he] at hs; subst hs; simp [Call.isAddDexRegisterEntry]
    · rw [if_neg he] at hs; subst hs; simp [Call.isAddDexRegisterEntry]
  | AddDexRegisterEntry kind value =>
    have hs := AddDexRegisterEntry_ok E s s1 kind value h
    by_cases hq : s.current_dex_registers_.length + 1 = s.expected_num_dex_registers_
    · rw [if_pos hq] at hs
      obtain ⟨h1, h2⟩ := CreateDexRegisterMap_registers E
        { s with current_dex_registers_ :=
          s.current_dex_registers_ ++ [DexRegisterLocation.mk kind value] }
      rw [← hs] at h1 h2
      rw [h1, h2]
      simp [Call.isAddDexRegisterEntry]
    · rw [if_neg hq] at hs; subst hs; simp [Call.isAddDexRegisterEntry]
  | AddInvoke invoke_type dex_method_index =>
    have hs := AddInvoke_ok s s1 _ _ h
    subst hs; simp [Call.isAddDexRegisterEntry]
  | BeginInlineInfoEntry method dex_pc num_dex_registers outer_dex_file =>
    simp [Call.isBeginInlineInfoEntry] at hi
  | EndInlineInfoEntry =>
    obtain ⟨-, -, hs⟩ := EndInlineInfoEntry_ok s s1 h
    subst hs; simp [Call.isAddDexRegisterEntry]

theorem run_quota_count (E : Externals) (cs : List Call) :
    ∀ (s s1 : StackMapStream), s.run E cs = .ok s1 →
      (∀ c ∈ cs, c.isBeginStackMapEntry = false ∧ c.isBeginInlineInfoEntry = false) →
      s1.expected_num_dex_registers_ = s.expected_num_dex_registers_ ∧
        s1.current_dex_registers_.length =
          s.current_dex_registers_.length + cs.countP Call.isAddDexRegisterEntry := by
  induction cs with
  | nil =>
    intro s s1 h _
    simp [StackMapStream.run] at h
    subst h; simp
  | cons c cs ih =>
    intro s s1 h hcs
    obtain ⟨sa, hca, hra⟩ := run_cons_ok E s s1 c cs h
    obtain ⟨h1, h2⟩ := call_quota_count E s sa c hca (hcs c (List.mem_cons_self _ _)).1
      (hcs c (List.mem_cons_self _ _)).2
    obtain ⟨h3, h4⟩ := ih sa s1 hra (fun c hc => hcs c (List.mem_cons_of_mem _ hc))
    refine ⟨h3.trans h1, ?_⟩
    rw [h4, h2, List.countP_cons, List.countP_cons, List.countP_nil]
    omega

/-- C14: the virtual-register quota is checked at every frame boundary.  When
the expected count differs from the number of registers in the accumulator,
`EndStackMapEntry`, `BeginInlineInfoEntry` and `EndInlineInfoEntry` are each
rejected; when the two are equal each is accepted as soon as its open/closed
check (and, for `BeginInlineInfoEntry`, its dex-file check) passes.  After the
`BeginStackMapEntry` or `BeginInlineInfoEntry` that opened the current frame and
any accepted calls that open no further frame, the expected count is the one
declared by that call and the accumulator holds exactly one register for every
`AddDexRegisterEntry` since, so too few and too many calls are both rejected. -/
theorem frame_boundary_quota (E : Externals) (s : StackMapStream) :
    (s.expected_num_dex_registers_ ≠ s.current_dex_registers_.length →
      s.EndStackMapEntry = .error .dcheck ∧
      (∀ (method : ArtMethod) (dex_pc num_dex_registers outer_dex_file : Nat),
        s.BeginInlineInfoEntry E method dex_pc num_dex_registers outer_dex_file =
          .error .dcheck) ∧
      s.EndInlineInfoEntry = .error .dcheck) ∧
    (s.expected_num_dex_registers_ = s.current_dex_registers_.length →
      (s.in_stack_map_ = true → ∃ s1, s.EndStackMapEntry = .ok s1) ∧
      (s.in_inline_info_ = false →
        ∀ (method : ArtMethod) (dex_pc num_dex_registers outer_dex_file : Nat),
          (E.EncodeArtMethodInInlineInfo method = true ∨ dex_pc = 0xFFFFFFFF ∨
            E.IsSameDexFile outer_dex_file method.dex_file = true) →
          ∃ s1, s.BeginInlineInfoEntry E method dex_pc num_dex_registers outer_dex_file =
            .ok s1) ∧
      (s.in_inline_info_ = true → ∃ s1, s.EndInlineInfoEntry = .ok s1)) ∧
    (∀ (sb s0 : StackMapStream) (dex_pc native_pc_offset register_mask : Nat)
      (stack_mask : Option Nat) (num_dex_registers inlining_depth : Nat) (cs : List Call),
      sb.BeginStackMapEntry E dex_pc native_pc_offset register_mask stack_mask
        num_dex_registers inlining_depth = .ok s0 →
      (∀ c ∈ cs, c.isBeginStackMapEntry = false ∧ c.isBeginInlineInfoEntry = false) →
      s0.run E cs = .ok s →
      s.expected_num_dex_registers_ = num_dex_registers ∧
        s.current_dex_registers_.length = cs.countP Call.isAddDexRegisterEntry) ∧
    (∀ (sb s0 : StackMapStream) (method : ArtMethod)
      (dex_pc num_dex_registers outer_dex_file : Nat) (cs : List Call),
      sb.BeginInlineInfoEntry E method dex_pc num_dex_registers outer_dex_file = .ok s0 →
      (∀ c ∈ cs, c.isBeginStackMapEntry = false ∧ c.isBeginInlineInfoEntry = false) →
      s0.run E cs = .ok s →
      s.expected_num_dex_registers_ = num_dex_registers ∧
        s.current_dex_registers_.length = cs.countP Call.isAddDexRegisterEntry) := by
  refine ⟨?_, ?_, ?_, ?_⟩
  · intro hq
    refine ⟨?_, ?_, ?_⟩
    · cases hin : s.in_stack_map_ <;> simp [StackMapStream.EndStackMapEntry, hin, hq]
    · intro method dex_pc num_dex_registers outer_dex_file
      cases hin : s.in_inline_info_ <;> simp [StackMapStream.BeginInlineInfoEntry, hin, hq]
    · cases hin : s.in_inline_info_ <;> simp [StackMapStream.EndInlineInfoEntry, hin, hq]
  · intro hq
    exact ⟨fun hin => EndStackMapEntry_returns s hin hq,
      fun hin method dex_pc num_dex_registers outer_dex_file hfile =>
        BeginInlineInfoEntry_returns E s method dex_pc num_dex_registers outer_dex_file hin hq
          hfile,
      fun hin => EndInlineInfoEntry_returns s hin hq⟩
  · intro sb s0 dex_pc native_pc_offset register_mask stack_mask num_dex_registers
      inlining_depth cs hb hcs hrun
    obtain ⟨-, hs0⟩ := BeginStackMapEntry_ok E sb s0 _ _ _ _ _ _ hb
    obtain ⟨h1, h2⟩ := run_quota_count E cs s0 s hrun hcs
    subst hs0
    exact ⟨h1, by simpa using h2⟩
  · intro sb s0 method dex_pc num_dex_registers outer_dex_file cs hb hcs hrun
    obtain ⟨-, -, hs0⟩ := BeginInlineInfoEntry_ok E sb s0 _ _ _ _ hb
    obtain ⟨h1, h2⟩ := run_quota_count E cs s0 s hrun hcs
    subst hs0
    exact ⟨h1, by simpa using h2⟩

/-- The theorem `frame_boundary_quota` for a position that declares two
registers: with one register supplied (too few) and with three (too many)
`EndStackMapEntry` is rejected, with two it is accepted. -/
theorem frame_boundary_quota_witness :
    ∃ few exact many : StackMapStream,
      (StackMapStream.create 0).run sampleExternals
        [Call.BeginStackMapEntry 5 0x10 0 none 2 0,
         Call.AddDexRegisterEntry Kind.kInRegister 3] = .ok few ∧
      few.EndStackMapEntry = .error .dcheck ∧
      (StackMapStream.create 0).run sampleExternals
        [Call.BeginStackMapEntry 5 0x10 0 none 2 0,
         Call.AddDexRegisterEntry Kind.kInRegister 3,
         Call.AddDexRegisterEntry Kind.kInRegister 7] = .ok exact ∧
      (∃ s1, exact.EndStackMapEntry = .ok s1) ∧
      (StackMapStream.create 0).run sampleExternals
        [Call.BeginStackMapEntry 5 0x10 0 none 2 0,
         Call.AddDexRegisterEntry Kind.kInRegister 3,
         Call.AddDexRegisterEntry Kind.kInRegister 7,
         Call.AddDexRegisterEntry Kind.kInRegister 9] = .ok many ∧
      many.EndStackMapEntry = .error .dcheck :=
  ⟨_, _, _, rfl,
    ((frame_boundary_quota sampleExternals _).1 (by decide)).1,
    rfl,
    ((frame_boundary_quota sampleExternals _).2.1 rfl).1 rfl,
    rfl,
    ((frame_boundary_quota sampleExternals _).1 (by decide)).1⟩

/-! ## `AddInvoke` outside a position -/

/-- C15 fails as stated: on a new builder, where no position is open, and again
after a position has been closed, `AddInvoke` is accepted and records an
Invoke-Info entry. -/
theorem AddInvoke_without_open_position_counterexample :
    ∃ s1 s2 s3 : StackMapStream,
      (StackMapStream.create 0).in_stack_map_ = false ∧
      (StackMapStream.create 0).AddInvoke 2 42 = .ok s1 ∧
      s1.invoke_infos_ = [⟨0, 2, 0⟩] ∧
      (StackMapStream.create 0).run sampleExternals
        [Call.BeginStackMapEntry 5 0x10 0 none 0 0, Call.EndStackMapEntry] = .ok s2 ∧
      s2.in_stack_map_ = false ∧
      s2.AddInvoke 2 42 = .ok s3 ∧
      s3.invoke_infos_ = [⟨0x10, 2, 0⟩] :=
  ⟨_, _, _, rfl, rfl, rfl, rfl, rfl, rfl, rfl⟩

/-- C15, as amended: `AddInvoke` has no check of its own.  With no position open
it is accepted all the same, records one Invoke-Info entry and leaves the
position flag clear; the entry carries the packed native position left in the
current Position Record, which after a closed position is the native position
of that position. -/
theorem AddInvoke_accepted_without_open_position (E : Externals) (s : StackMapStream)
    (invoke_type dex_method_index : Nat) (hclosed : s.in_stack_map_ = false) :
    ∃ (s1 : StackMapStream) (record : InvokeInfoEntry),
      s.AddInvoke invoke_type dex_method_index = .ok s1 ∧
      s1.invoke_infos_ = s.invoke_infos_ ++ [record] ∧
      s1.in_stack_map_ = false ∧
      record.packed_native_pc = s.current_stack_map_.packed_native_pc ∧
      record.invoke_type = invoke_type ∧
      (∀ (sb s0 sc : StackMapStream) (dex_pc native_pc_offset register_mask : Nat)
        (stack_mask : Option Nat) (num_dex_registers inlining_depth : Nat) (cs : List Call),
        sb.BeginStackMapEntry E dex_pc native_pc_offset register_mask stack_mask
          num_dex_registers inlining_depth = .ok s0 →
        (∀ c ∈ cs, c.isBeginStackMapEntry = false) →
        s0.run E cs = .ok sc → sc.EndStackMapEntry = .ok s →
        record.packed_native_pc = E.PackNativePc native_pc_offset sb.instruction_set_) := by
  refine ⟨{ s with
      method_infos_ := (Dedup s.method_infos_ dex_method_index).2,
      invoke_infos_ := s.invoke_infos_ ++ [⟨s.current_stack_map_.packed_native_pc, invoke_type,
        (Dedup s.method_infos_ dex_method_index).1⟩] },
    ⟨s.current_stack_map_.packed_native_pc, invoke_type,
      (Dedup s.method_infos_ dex_method_index).1⟩, rfl, rfl, hclosed, rfl, rfl, ?_⟩
  intro sb s0 sc dex_pc native_pc_offset register_mask stack_mask num_dex_registers
    inlining_depth cs hb hcs hrun hend
  obtain ⟨-, hs0⟩ := BeginStackMapEntry_ok E sb s0 _ _ _ _ _ _ hb
  have hpc := (run_invoke_tables E cs s0 sc hrun).2.2 hcs
  have hpc2 := (call_invoke_tables E sc s Call.EndStackMapEntry hend).2.2 rfl
  show s.current_stack_map_.packed_native_pc = _
  rw [hpc2, hpc, hs0]

/-- The theorem `AddInvoke_accepted_without_open_position` on a new builder. -/
theorem AddInvoke_accepted_without_open_position_witness :
    (StackMapStream.create 0).in_stack_map_ = false ∧
    ∃ (s1 : StackMapStream) (record : InvokeInfoEntry),
      (StackMapStream.create 0).AddInvoke 2 42 = .ok s1 ∧
      s1.invoke_infos_ = (StackMapStream.create 0).invoke_infos_ ++ [record] ∧
      s1.in_stack_map_ = false :=
  ⟨rfl, (AddInvoke_accepted_without_open_position sampleExternals (StackMapStream.create 0)
    2 42 rfl).imp (fun _ h => h.imp (fun _ h => ⟨h.1, h.2.1, h.2.2.1⟩))⟩

/-! ## Checks of `PrepareForFillIn` and `FillInCodeInfo` -/

theorem packBytes_ne_nil (xs : List Bool) (h : xs ≠ []) : packBytes xs ≠ [] := by
  rw [packBytes_step xs h]
  exact List.cons_ne_nil _ _

theorem PrepareForFillIn_out_ne_nil (C : TableCodec) (mem : Nat → BitVector)
    (s s1 : StackMapStream) (n : Nat) (hprep : s.PrepareForFillIn C mem = .ok (s1, n))
    (hC : ∀ t, C.stack_maps t ≠ []) : s1.out_ ≠ [] := by
  obtain ⟨-, l, -, -, -, -, -, -, -, -, -, -, -, -, hout, -⟩ :=
    PrepareForFillIn_ok C mem s s1 n hprep
  rw [hout]
  apply packBytes_ne_nil
  simp only [List.append_assoc]
  intro h
  exact hC l.1 (List.append_eq_nil.mp h).1

theorem PrepareForFillIn_flags (C : TableCodec) (mem : Nat → BitVector) (s s1 : StackMapStream)
    (n : Nat) (b1 b2 : Bool) (hprep : s.PrepareForFillIn C mem = .ok (s1, n)) :
    ({ s with in_stack_map_ := b1, in_inline_info_ := b2 }).PrepareForFillIn C mem =
      .ok ({ s1 with in_stack_map_ := b1, in_inline_info_ := b2 }, n) := by
  unfold StackMapStream.PrepareForFillIn at hprep ⊢
  dsimp only at hprep ⊢
  split at hprep
  · exact absurd hprep (by simp)
  · rename_i hout
    rw [if_neg hout]
    cases hl : PrepareForFillInLoop mem s.lazy_stack_masks_ 0 (s.stack_maps_, s.stack_masks_) with
    | error f => rw [hl] at hprep; exact absurd hprep (by simp)
    | ok l =>
      rw [hl] at hprep
      simp only [Except.ok.injEq, Prod.mk.injEq] at hprep ⊢
      obtain ⟨h1, h2⟩ := hprep
      exact ⟨by rw [← h1], h2⟩

theorem run_out (E : Externals) (instruction_set : Nat) (cs : List Call) (s : StackMapStream)
    (hrun : (StackMapStream.create instruction_set).run E cs = .ok s) : s.out_ = [] :=
  (run_stack_mask_invariant E cs _ s hrun).1

/-- C16 fails as stated: with a position and an inline frame both open,
`PrepareForFillIn` is accepted. -/
theorem PrepareForFillIn_with_open_position_counterexample :
    ∃ (s s1 : StackMapStream) (n : Nat),
      (StackMapStream.create 0).run sampleExternals
        [Call.BeginStackMapEntry 5 0x10 0 none 0 1,
         Call.BeginInlineInfoEntry ⟨0x1234, 7, 0⟩ 2 0 0] = .ok s ∧
      s.in_stack_map_ = true ∧ s.in_inline_info_ = true ∧
      s.PrepareForFillIn sampleCodec sampleMemory = .ok (s1, n) :=
  ⟨_, _, _, rfl, rfl, rfl, rfl⟩

/-- C16, as amended: `PrepareForFillIn` checks only that the buffer is empty.
After a call that returned, on any builder state, a second call is rejected
(the codec giving at least one bit for the Position sequence, the buffer is no
longer empty).  It does not look at whether a position or an inline frame is
open: had the two flags any other values the call would return all the same,
with the same size and buffer, and it leaves the flags as they are.  A position
or an inline frame still open is rejected afterwards by `FillInCodeInfo`. -/
theorem PrepareForFillIn_rejected_when_repeated (C : TableCodec) (mem : Nat → BitVector)
    (s s1 : StackMapStream) (n : Nat) (hprep : s.PrepareForFillIn C mem = .ok (s1, n))
    (hC : ∀ t, C.stack_maps t ≠ []) :
    (∀ (C2 : TableCodec) (mem2 : Nat → BitVector),
      s1.PrepareForFillIn C2 mem2 = .error .dcheck) ∧
    (∀ b1 b2 : Bool, ∃ s2,
      ({ s with in_stack_map_ := b1, in_inline_info_ := b2 }).PrepareForFillIn C mem =
        .ok (s2, n) ∧
      s2.in_stack_map_ = b1 ∧ s2.in_inline_info_ = b2 ∧ s2.out_ = s1.out_) ∧
    s1.in_stack_map_ = s.in_stack_map_ ∧ s1.in_inline_info_ = s.in_inline_info_ ∧
    (s.in_stack_map_ = true ∨ s.in_inline_info_ = true →
      ∀ region_size, s1.FillInCodeInfo region_size = .error .dcheck) := by
  have hne := PrepareForFillIn_out_ne_nil C mem s s1 n hprep hC
  obtain ⟨-, l, -, -, -, -, -, -, -, -, -, hf1, hf2, -, -, -⟩ :=
    PrepareForFillIn_ok C mem s s1 n hprep
  refine ⟨?_, ?_, hf1, hf2, ?_⟩
  · intro C2 mem2
    have hlen : s1.out_.length ≠ 0 := fun h0 => hne (List.length_eq_zero.mp h0)
    simp [StackMapStream.PrepareForFillIn, hlen]
  · intro b1 b2
    exact ⟨_, PrepareForFillIn_flags C mem s s1 n b1 b2 hprep, rfl, rfl, rfl⟩
  · intro h region_size
    rw [← hf1, ← hf2] at h
    rcases h with h | h
    · simp [StackMapStream.FillInCodeInfo, h]
    · cases h2 : s1.in_stack_map_ <;> simp [StackMapStream.FillInCodeInfo, h, h2]

/-- The theorem `PrepareForFillIn_rejected_when_repeated` on a new builder, with
zero positions: the first call returns and the second is rejected. -/
theorem PrepareForFillIn_rejected_when_repeated_witness :
    ∃ (s1 : StackMapStream) (n : Nat),
      (StackMapStream.create 0).PrepareForFillIn sampleCodec sampleMemory = .ok (s1, n) ∧
      (∀ t, sampleCodec.stack_maps t ≠ []) ∧
      s1.PrepareForFillIn sampleCodec sampleMemory = .error .dcheck :=
  ⟨_, _, rfl, by simp [sampleCodec],
    (PrepareForFillIn_rejected_when_repeated sampleCodec sampleMemory (StackMapStream.create 0)
      _ _ rfl (by simp [sampleCodec])).1 sampleCodec sampleMemory⟩

/-- C17: `FillInCodeInfo` is rejected on every builder reached by builder calls
alone, on which `PrepareForFillIn` has not run, and on the builder handed to
`PrepareForFillIn` before that call.  After `PrepareForFillIn` has returned, on
any builder state, the buffer is not empty (the codec giving at least one bit
for the Position sequence), the reported size is the size of the length prefix
plus the buffer, `FillInCodeInfo` is rejected for a destination of any other
size, and with no position and no inline frame open it returns for a
destination of exactly the reported size, filling it entirely. -/
theorem FillInCodeInfo_preconditions (C : TableCodec) (mem : Nat → BitVector)
    (s s1 : StackMapStream) (n : Nat) (hprep : s.PrepareForFillIn C mem = .ok (s1, n))
    (hC : ∀ t, C.stack_maps t ≠ []) :
    (∀ (E : Externals) (instruction_set : Nat) (cs : List Call) (sc : StackMapStream),
      (StackMapStream.create instruction_set).run E cs = .ok sc →
      ∀ region_size, sc.FillInCodeInfo region_size = .error .dcheck) ∧
    (∀ region_size, s.FillInCodeInfo region_size = .error .dcheck) ∧
    s1.out_.length ≠ 0 ∧
    n = UnsignedLeb128Size s1.out_.length + s1.out_.length ∧
    (∀ region_size, region_size ≠ n → s1.FillInCodeInfo region_size = .error .dcheck) ∧
    (s1.in_stack_map_ = false → s1.in_inline_info_ = false →
      ∃ bytes, s1.FillInCodeInfo n = .ok bytes ∧ bytes.length = n) := by
  have hne := PrepareForFillIn_out_ne_nil C mem s s1 n hprep hC
  have hlen : s1.out_.length ≠ 0 := fun h0 => hne (List.length_eq_zero.mp h0)
  obtain ⟨hout, l, -, -, -, -, -, -, -, -, -, -, -, -, -, hn⟩ :=
    PrepareForFillIn_ok C mem s s1 n hprep
  have hempty : ∀ (t : StackMapStream), t.out_ = [] →
      ∀ region_size, t.FillInCodeInfo region_size = .error .dcheck := by
    intro t ht region_size
    unfold StackMapStream.FillInCodeInfo
    simp only [ht, List.length_nil, if_true]
    split_ifs <;> rfl
  refine ⟨?_, hempty s hout, hlen, hn, ?_, ?_⟩
  · intro E instruction_set cs sc hrun
    exact hempty sc (run_out E instruction_set cs sc hrun)
  · intro region_size hr
    rw [hn] at hr
    unfold StackMapStream.FillInCodeInfo
    simp only [hr, ne_eq, not_false_eq_true, if_true]
    split_ifs <;> rfl
  · intro h1 h2
    refine ⟨EncodeUnsignedLeb128 s1.out_.length ++ s1.out_, ?_, ?_⟩
    · simp [StackMapStream.FillInCodeInfo, h1, h2, hlen, hn]
    · rw [List.length_append, EncodeUnsignedLeb128_length, hn]

/-- The theorem `FillInCodeInfo_preconditions` on a new builder, with zero
positions: before `PrepareForFillIn` the call is rejected, after it a
destination of the reported size is accepted and one byte more is rejected. -/
theorem FillInCodeInfo_preconditions_witness :
    ∃ (s1 : StackMapStream) (n : Nat),
      (StackMapStream.create 0).PrepareForFillIn sampleCodec sampleMemory = .ok (s1, n) ∧
      (∀ t, sampleCodec.stack_maps t ≠ []) ∧
      (∀ region_size, (StackMapStream.create 0).FillInCodeInfo region_size = .error .dcheck) ∧
      (∃ bytes, s1.FillInCodeInfo n = .ok bytes ∧ bytes.length = n) ∧
      s1.FillInCodeInfo (n + 1) = .error .dcheck :=
  ⟨_, _, rfl, by simp [sampleCodec],
    (FillInCodeInfo_preconditions sampleCodec sampleMemory (StackMapStream.create 0)
      _ _ rfl (by simp [sampleCodec])).2.1,
    (FillInCodeInfo_preconditions sampleCodec sampleMemory (StackMapStream.create 0)
      _ _ rfl (by simp [sampleCodec])).2.2.2.2.2 rfl rfl,
    (FillInCodeInfo_preconditions sampleCodec sampleMemory (StackMapStream.create 0)
      _ _ rfl (by simp [sampleCodec])).2.2.2.2.1 _ (by decide)⟩

/-! ## The Method-Reference outputs -/

theorem set_append_length {α : Type} (pre : List α) (x v : α) (rest : List α) :
    (pre ++ x :: rest).set pre.length v = pre ++ v :: rest := by
  induction pre with
  | nil => rfl
  | cons p pre ih => simp [List.set, ih]

theorem FillInMethodInfoLoop_spec (values : List Nat) :
    ∀ (i : Nat) (info : MethodInfo) (pre slots : List Nat),
      info.method_indices = pre ++ slots → pre.length = i → slots.length = values.length →
      (FillInMethodInfoLoop values i info).method_indices = pre ++ values ∧
        (FillInMethodInfoLoop values i info).num_method_indices = info.num_method_indices := by
  induction values with
  | nil =>
    intro i info pre slots h _ hs
    have : slots = [] := List.length_eq_zero.mp hs
    subst this
    exact ⟨h, rfl⟩
  | cons v rest ih =>
    intro i info pre slots h hi hs
    cases slots with
    | nil => simp at hs
    | cons x slots =>
      have hset : (info.SetMethodIndex i v).method_indices = (pre ++ [v]) ++ slots := by
        show info.method_indices.set i v = _
        rw [h, ← hi, set_append_length]
        simp
      obtain ⟨h1, h2⟩ := ih (i + 1) (info.SetMethodIndex i v) (pre ++ [v]) slots hset
        (by simp [hi]) (by simpa using hs)
      unfold FillInMethodInfoLoop
      exact ⟨by rw [h1]; simp, h2⟩

theorem FillInMethodInfo_returns (s : StackMapStream) (region : List Nat) :
    s.FillInMethodInfo region = .ok ⟨s.method_infos_.length, s.method_infos_⟩ := by
  have hcreate : (MethodInfo.create region s.method_infos_.length).method_indices =
      [] ++ (region ++ List.replicate s.method_infos_.length 0).take s.method_infos_.length := rfl
  obtain ⟨h1, h2⟩ := FillInMethodInfoLoop_spec s.method_infos_ 0
    (MethodInfo.create region s.method_infos_.length) [] _ hcreate rfl (by simp)
  have hinfo : FillInMethodInfoLoop s.method_infos_ 0
      (MethodInfo.create region s.method_infos_.length) =
      ⟨s.method_infos_.length, s.method_infos_⟩ := by
    cases hr : FillInMethodInfoLoop s.method_infos_ 0
      (MethodInfo.create region s.method_infos_.length) with
    | mk num indices =>
      rw [hr] at h1 h2
      simp only [List.nil_append] at h1
      simp only at h2
      rw [h1, h2]
      rfl
  unfold StackMapStream.FillInMethodInfo
  simp [hinfo, MethodInfo.NumMethodIndices, MethodInfo.GetMethodIndex]

/-- C18 fails as stated: on a builder that holds one method reference and on
which `PrepareForFillIn` has not run, `FillInMethodInfo` is accepted and writes
the table, while `ComputeMethodInfoSize` is rejected. -/
theorem FillInMethodInfo_before_PrepareForFillIn_counterexample :
    ∃ s : StackMapStream,
      (StackMapStream.create 0).run sampleExternals
        [Call.BeginStackMapEntry 5 0x10 0 none 0 0, Call.AddInvoke 2 42,
         Call.EndStackMapEntry] = .ok s ∧
      s.out_ = [] ∧
      s.FillInMethodInfo [0] = .ok ⟨1, [42]⟩ ∧
      s.ComputeMethodInfoSize (fun count => 4 * (count + 1)) = .error .dcheck :=
  ⟨_, rfl, rfl, rfl, rfl⟩

/-- C18, as amended: of the two Method-Reference outputs only
`ComputeMethodInfoSize` checks that `PrepareForFillIn` has run: it is rejected
while the buffer is empty, as it is on every builder reached by builder calls
alone, and after `PrepareForFillIn` has returned it returns a size that depends
only on the number of entries of the Method-Reference Table.
`FillInMethodInfo` has no such check: in every builder state it returns, and
the region then holds the number of entries of the table and, for every `i`
below that number, the table's entry `i` at position `i`. -/
theorem method_reference_outputs (ComputeSize : Nat → Nat) (s : StackMapStream)
    (region : List Nat) :
    (s.out_ = [] → s.ComputeMethodInfoSize ComputeSize = .error .dcheck) ∧
    (∀ (E : Externals) (instruction_set : Nat) (cs : List Call) (sc : StackMapStream),
      (StackMapStream.create instruction_set).run E cs = .ok sc →
      sc.ComputeMethodInfoSize ComputeSize = .error .dcheck) ∧
    (∃ info : MethodInfo, s.FillInMethodInfo region = .ok info ∧
      info.NumMethodIndices = s.method_infos_.length ∧
      info.method_indices.length = s.method_infos_.length ∧
      ∀ i, i < s.method_infos_.length →
        info.GetMethodIndex i = s.method_infos_.getD i 0 ∧
        info.method_indices[i]? = s.method_infos_[i]?) ∧
    (s.out_ ≠ [] →
      s.ComputeMethodInfoSize ComputeSize = .ok (ComputeSize s.method_infos_.length)) ∧
    (∀ s2 : StackMapStream, s.out_ ≠ [] → s2.out_ ≠ [] →
      s2.method_infos_.length = s.method_infos_.length →
      s2.ComputeMethodInfoSize ComputeSize = s.ComputeMethodInfoSize ComputeSize) ∧
    (∀ (C : TableCodec) (mem : Nat → BitVector) (s1 : StackMapStream) (n : Nat),
      s.PrepareForFillIn C mem = .ok (s1, n) → (∀ t, C.stack_maps t ≠ []) →
      s1.ComputeMethodInfoSize ComputeSize = .ok (ComputeSize s.method_infos_.length)) := by
  have hcompute : ∀ t : StackMapStream, t.out_ ≠ [] →
      t.ComputeMethodInfoSize ComputeSize = .ok (ComputeSize t.method_infos_.length) := by
    intro t ht
    have hlen : t.out_.length ≠ 0 := fun h0 => ht (List.length_eq_zero.mp h0)
    simp [StackMapStream.ComputeMethodInfoSize, hlen]
  refine ⟨?_, ?_, ?_, hcompute s, ?_, ?_⟩
  · intro hout
    simp [StackMapStream.ComputeMethodInfoSize, hout]
  · intro E instruction_set cs sc hrun
    simp [StackMapStream.ComputeMethodInfoSize, run_out E instruction_set cs sc hrun]
  · exact ⟨_, FillInMethodInfo_returns s region, rfl, rfl, fun i _ => ⟨rfl, rfl⟩⟩
  · intro s2 h1 h2 hlen
    rw [hcompute s h1, hcompute s2 h2, hlen]
  · intro C mem s1 n hprep hC
    have hne := PrepareForFillIn_out_ne_nil C mem s s1 n hprep hC
    obtain ⟨-, l, -, -, -, -, -, -, -, -, -, -, -, hm, -, -⟩ :=
      PrepareForFillIn_ok C mem s s1 n hprep
    rw [hcompute s1 hne, hm]

/-- The theorem `method_reference_outputs` on a builder with two invokes of
different methods: the region gets the two method ids in table order. -/
theorem method_reference_outputs_witness :
    ∃ s : StackMapStream,
      (StackMapStream.create 0).run sampleExternals
        [Call.BeginStackMapEntry 5 0x10 0 none 0 0, Call.AddInvoke 2 42, Call.AddInvoke 1 17,
         Call.AddInvoke 2 42, Call.EndStackMapEntry] = .ok s ∧
      s.method_infos_ = [42, 17] ∧
      (∃ info : MethodInfo, s.FillInMethodInfo [9, 9] = .ok info ∧
        info.NumMethodIndices = 2 ∧ info.GetMethodIndex 1 = 17) ∧
      s.ComputeMethodInfoSize (fun count => 4 * (count + 1)) = .error .dcheck :=
  ⟨_, rfl, rfl,
    (method_reference_outputs (fun count => 4 * (count + 1)) _ [9, 9]).2.2.1.imp
      (fun _ h => ⟨h.1, h.2.1, (h.2.2.2 1 (by decide)).1⟩),
    (method_reference_outputs (fun count => 4 * (count + 1)) _ [9, 9]).1 rfl⟩

/-! ## The mask index of a synthesis -/

theorem CreateDexRegisterMapLoop_dead (E : Externals) (regs : List DexRegisterLocation) :
    ∀ (i : Nat) (acc : BitVector × List Nat × List DexRegisterEntry),
      (∀ reg ∈ regs, reg.IsLive = false) → CreateDexRegisterMapLoop E regs i acc = acc := by
  induction regs with
  | nil => intro i acc _; rfl
  | cons reg rest ih =>
    intro i acc h
    obtain ⟨mask, map, catalog⟩ := acc
    have hreg : reg.IsLive = false := h reg (List.mem_cons_self _ _)
    unfold CreateDexRegisterMapLoop
    simp only [hreg, Bool.false_eq_true, if_false]
    exact ih (i + 1) _ (fun r hr => h r (List.mem_cons_of_mem _ hr))

theorem CreateDexRegisterMap_frame_index (E : Externals) (s : StackMapStream) :
    (s.CreateDexRegisterMap E).frameDexRegisterMaskIndex =
        (if (s.CreateDexRegisterMap E).temp_dex_register_mask_.bits.length ≠ 0 then
          DedupBitmap s.dex_register_masks_ (s.CreateDexRegisterMap E).temp_dex_register_mask_.bits
            (s.CreateDexRegisterMap E).temp_dex_register_mask_.bits.length
        else (kNoValue, s.dex_register_masks_)).1 ∧
      (s.CreateDexRegisterMap E).dex_register_masks_ =
        (if (s.CreateDexRegisterMap E).temp_dex_register_mask_.bits.length ≠ 0 then
          DedupBitmap s.dex_register_masks_ (s.CreateDexRegisterMap E).temp_dex_register_mask_.bits
            (s.CreateDexRegisterMap E).temp_dex_register_mask_.bits.length
        else (kNoValue, s.dex_register_masks_)).2 := by
  rw [(CreateDexRegisterMap_temp E s).1, CreateDexRegisterMap_eq]
  dsimp only
  by_cases he : s.current_inline_infos_ = []
  · rw [if_pos he]
    refine ⟨?_, rfl⟩
    simp [StackMapStream.frameDexRegisterMaskIndex, he]
  · rw [if_neg he]
    refine ⟨?_, rfl⟩
    rcases List.eq_nil_or_concat s.current_inline_infos_ with hl | ⟨init, x, hl⟩
    · exact absurd hl he
    · rw [List.concat_eq_append] at hl
      simp only [StackMapStream.frameDexRegisterMaskIndex, hl, modifyBack_concat,
        List.getLast?_append, List.getLast?_singleton]
      rfl

/-- C19: when `CreateDexRegisterMap` runs on an accumulator in which no register
is live, no bit of the liveness bitset is set, the dex-register-mask index
stored on the frame is `kNoValue` and the Dex-Register-Mask Table is unchanged.
When at least one register is live, the stored index is the index that
deduplicating the liveness bitset into the table returns, the table is the one
after that deduplication, and at the stored index it holds the liveness bitset,
whose bit `i` is set iff register `i` is live. -/
theorem CreateDexRegisterMap_mask_index (E : Externals) (s : StackMapStream) :
    ((∀ reg ∈ s.current_dex_registers_, reg.IsLive = false) →
      (∀ i, (s.CreateDexRegisterMap E).temp_dex_register_mask_.IsBitSet i = false) ∧
      (s.CreateDexRegisterMap E).frameDexRegisterMaskIndex = kNoValue ∧
      (s.CreateDexRegisterMap E).dex_register_masks_ = s.dex_register_masks_) ∧
    ((∃ reg ∈ s.current_dex_registers_, reg.IsLive = true) →
      (∀ i, (s.CreateDexRegisterMap E).temp_dex_register_mask_.IsBitSet i =
        (s.current_dex_registers_.map (fun reg => reg.IsLive)).getD i false) ∧
      (s.CreateDexRegisterMap E).frameDexRegisterMaskIndex =
        (Dedup s.dex_register_masks_
          (s.CreateDexRegisterMap E).temp_dex_register_mask_.bits).1 ∧
      (s.CreateDexRegisterMap E).dex_register_masks_ =
        (Dedup s.dex_register_masks_
          (s.CreateDexRegisterMap E).temp_dex_register_mask_.bits).2 ∧
      (s.CreateDexRegisterMap E).dex_register_masks_[
          (s.CreateDexRegisterMap E).frameDexRegisterMaskIndex]? =
        some (s.CreateDexRegisterMap E).temp_dex_register_mask_.bits) := by
  obtain ⟨hidx, htable⟩ := CreateDexRegisterMap_frame_index E s
  have htemp := (CreateDexRegisterMap_temp E s).1
  obtain ⟨-, -, -, -, hbit, hcount⟩ := CreateDexRegisterMapLoop_spec E s.current_dex_registers_ 0
    ⟨[]⟩ [] s.dex_register_catalog_ (by simp)
  rw [← htemp] at hbit hcount
  refine ⟨?_, ?_⟩
  · intro hdead
    have hloop := CreateDexRegisterMapLoop_dead E s.current_dex_registers_ 0
      (⟨[]⟩, [], s.dex_register_catalog_) hdead
    have hbits : (s.CreateDexRegisterMap E).temp_dex_register_mask_.bits = [] := by
      rw [htemp, hloop]
    rw [hbits] at hidx htable
    refine ⟨?_, by simpa using hidx, by simpa using htable⟩
    intro i
    simp [BitVector.IsBitSet, hbits]
  · rintro ⟨reg, hmem, hlive⟩
    have hpos : 0 < (s.current_dex_registers_.filter (fun reg => reg.IsLive)).length :=
      List.length_pos_of_mem (List.mem_filter.mpr ⟨hmem, hlive⟩)
    have hne : (s.CreateDexRegisterMap E).temp_dex_register_mask_.bits.length ≠ 0 := by
      intro h0
      rw [List.length_eq_zero.mp h0] at hcount
      simp at hcount
      omega
    rw [if_pos hne] at hidx htable
    simp only [DedupBitmap, List.take_length] at hidx htable
    refine ⟨?_, hidx, htable, ?_⟩
    · intro i
      simpa using hbit i
    · rw [hidx, htable]
      simpa using Dedup_get s.dex_register_masks_
        (s.CreateDexRegisterMap E).temp_dex_register_mask_.bits []

/-- The theorem `CreateDexRegisterMap_mask_index` for a position whose only
register has no location, and for one whose second register is live. -/
theorem CreateDexRegisterMap_mask_index_witness :
    ∃ dead live : StackMapStream,
      (StackMapStream.create 0).BeginStackMapEntry sampleExternals 5 0x10 0 none 1 0 = .ok dead ∧
      (({ dead with current_dex_registers_ := [⟨Kind.kNone, 0⟩] }).CreateDexRegisterMap
        sampleExternals).frameDexRegisterMaskIndex = kNoValue ∧
      (({ dead with current_dex_registers_ := [⟨Kind.kNone, 0⟩] }).CreateDexRegisterMap
        sampleExternals).dex_register_masks_ = [] ∧
      (StackMapStream.create 0).BeginStackMapEntry sampleExternals 5 0x10 0 none 2 0 = .ok live ∧
      (({ live with current_dex_registers_ :=
          [⟨Kind.kNone, 0⟩, ⟨Kind.kInRegister, 3⟩] }).CreateDexRegisterMap
        sampleExternals).dex_register_masks_ = [[false, true]] ∧
      (({ live with current_dex_registers_ :=
          [⟨Kind.kNone, 0⟩, ⟨Kind.kInRegister, 3⟩] }).CreateDexRegisterMap
        sampleExternals).dex_register_masks_[
          (({ live with current_dex_registers_ :=
            [⟨Kind.kNone, 0⟩, ⟨Kind.kInRegister, 3⟩] }).CreateDexRegisterMap
          sampleExternals).frameDexRegisterMaskIndex]? =
        some (({ live with current_dex_registers_ :=
            [⟨Kind.kNone, 0⟩, ⟨Kind.kInRegister, 3⟩] }).CreateDexRegisterMap
          sampleExternals).temp_dex_register_mask_.bits :=
  ⟨_, _, rfl,
    ((CreateDexRegisterMap_mask_index sampleExternals _).1 (by decide)).2.1,
    rfl, rfl, rfl,
    ((CreateDexRegisterMap_mask_index sampleExternals _).2
      ⟨⟨Kind.kInRegister, 3⟩, by decide, by decide⟩).2.2.2⟩

/-! ## The retained stack-mask references -/

theorem PrepareForFillInLoop_append (mem : Nat → BitVector) (refs1 : List (Option Nat)) :
    ∀ (refs2 : List (Option Nat)) (i : Nat) (acc : List StackMapEntry × List (List Bool)),
      PrepareForFillInLoop mem (refs1 ++ refs2) i acc =
        match PrepareForFillInLoop mem refs1 i acc with
        | .error f => .error f
        | .ok acc1 => PrepareForFillInLoop mem refs2 (i + refs1.length) acc1 := by
  induction refs1 with
  | nil => intro refs2 i acc; simp [PrepareForFillInLoop]
  | cons p rest ih =>
    intro refs2 i acc
    obtain ⟨maps, masks⟩ := acc
    have harith : i + (p :: rest).length = i + 1 + rest.length := by
      simp only [List.length_cons]; omega
    rw [harith, List.cons_append]
    cases p with
    | none =>
      rw [PrepareForFillInLoop, PrepareForFillInLoop]
      exact ih refs2 (i + 1) _
    | some a =>
      rw [PrepareForFillInLoop, PrepareForFillInLoop]
      by_cases hbits : (mem a).GetNumberOfBits ≠ 0
      · rw [if_pos hbits, if_pos hbits]
        cases hget : maps[i]? with
        | none => rfl
        | some e => exact ih refs2 (i + 1) _
      · rw [if_neg hbits, if_neg hbits]
        exact ih refs2 (i + 1) _

theorem zip_suppliedPositions_suppliedStackMasks (E : Externals) (instruction_set : Nat)
    (cs : List Call) :
    (suppliedPositions E instruction_set cs).zip (suppliedStackMasks cs) =
      suppliedBegins E instruction_set cs := by
  induction cs with
  | nil => rfl
  | cons c cs ih =>
    cases c <;> simp [suppliedPositions, suppliedStackMasks, suppliedBegins, ih]

/-- C20: after every call sequence on a new builder that passes every check,
the number of retained stack-mask references is the number of Position Records
plus one if a position is open, and the references are the ones supplied to the
`BeginStackMapEntry` calls, in call order, as the records are the ones opened by
those calls: the `i`-th reference is the one supplied to the call that opened
the `i`-th record.  With no position open every index below the number of references
addresses a Position Record and `PrepareForFillIn` returns.  With a position
open the last index, the number of references less one, is the length of the
Position sequence, so it addresses no record, and `PrepareForFillIn` runs out
of range when the last reference is not null and has a non-zero number of
bits. -/
theorem retained_stack_mask_references (E : Externals) (instruction_set : Nat)
    (cs : List Call) (s : StackMapStream)
    (hrun : (StackMapStream.create instruction_set).run E cs = .ok s) :
    s.lazy_stack_masks_.length = s.stack_maps_.length + (if s.in_stack_map_ then 1 else 0) ∧
    s.lazy_stack_masks_ = suppliedStackMasks cs ∧
    s.stack_maps_.map (fun e => (e.dex_pc, e.packed_native_pc)) ++
        (if s.in_stack_map_ then
          [(s.current_stack_map_.dex_pc, s.current_stack_map_.packed_native_pc)] else []) =
      suppliedPositions E instruction_set cs ∧
    (s.stack_maps_.map (fun e => (e.dex_pc, e.packed_native_pc)) ++
        (if s.in_stack_map_ then
          [(s.current_stack_map_.dex_pc, s.current_stack_map_.packed_native_pc)] else [])).zip
      s.lazy_stack_masks_ = suppliedBegins E instruction_set cs ∧
    (s.in_stack_map_ = false →
      (∀ i, i < s.lazy_stack_masks_.length → ∃ e, s.stack_maps_[i]? = some e) ∧
      (∀ (C : TableCodec) (mem : Nat → BitVector),
        ∃ s1 n, s.PrepareForFillIn C mem = .ok (s1, n))) ∧
    (s.in_stack_map_ = true →
      s.lazy_stack_masks_ ≠ [] ∧
      s.lazy_stack_masks_.length - 1 = s.stack_maps_.length ∧
      s.stack_maps_[s.lazy_stack_masks_.length - 1]? = none ∧
      (∀ (C : TableCodec) (mem : Nat → BitVector) (a : Nat),
        s.lazy_stack_masks_.getLast? = some (some a) → (mem a).GetNumberOfBits ≠ 0 →
        s.PrepareForFillIn C mem = .error .outOfRange)) := by
  obtain ⟨hout, -, hlazy, hlen, -⟩ := run_stack_mask_invariant E cs _ s hrun
  have hout : s.out_ = [] := hout
  have hlazy : s.lazy_stack_masks_ = suppliedStackMasks cs := by
    simpa [StackMapStream.create] using hlazy
  have hlen := hlen rfl
  obtain ⟨-, -, hpos⟩ := run_positions E cs _ s hrun
  have hpos : s.stack_maps_.map (fun e => (e.dex_pc, e.packed_native_pc)) ++
      (if s.in_stack_map_ then
        [(s.current_stack_map_.dex_pc, s.current_stack_map_.packed_native_pc)] else []) =
      suppliedPositions E instruction_set cs := by
    simpa [StackMapStream.create] using hpos
  refine ⟨hlen, hlazy, hpos, ?_, ?_, ?_⟩
  · rw [hpos, hlazy]
    exact zip_suppliedPositions_suppliedStackMasks E instruction_set cs
  · intro hclosed
    have hlen2 : s.lazy_stack_masks_.length = s.stack_maps_.length := by
      simpa [hclosed] using hlen
    refine ⟨?_, ?_⟩
    · intro i hi
      exact ⟨_, List.getElem?_eq_getElem (show i < s.stack_maps_.length by omega)⟩
    · intro C mem
      obtain ⟨maps1, hloop, -⟩ :=
        PrepareForFillInLoop_spec mem s.lazy_stack_masks_ 0 s.stack_maps_ s.stack_masks_
          (by omega)
      obtain ⟨out, n, hprep⟩ := PrepareForFillIn_of_loop C mem s _ hout hloop
      exact ⟨_, n, hprep⟩
  · intro hopen
    have hlen2 : s.lazy_stack_masks_.length = s.stack_maps_.length + 1 := by
      simpa [hopen] using hlen
    have hne : s.lazy_stack_masks_ ≠ [] := by
      intro h0; rw [h0] at hlen2; simp at hlen2
    refine ⟨hne, by omega, ?_, ?_⟩
    · rw [List.getElem?_eq_none (by omega)]
    · intro C mem a hlast hbits
      rcases List.eq_nil_or_concat s.lazy_stack_masks_ with h0 | ⟨init, last, hl⟩
      · exact absurd h0 hne
      · rw [List.concat_eq_append] at hl
        rw [hl] at hlast hlen2
        simp only [List.getLast?_append, List.getLast?_singleton, Option.some.injEq] at hlast
        have hlast : last = some a := by simpa using hlast
        subst hlast
        have hinit : init.length = s.stack_maps_.length := by simpa using hlen2
        obtain ⟨maps1, hloop, hlen1, -⟩ :=
          PrepareForFillInLoop_spec mem init 0 s.stack_maps_ s.stack_masks_ (by omega)
        have hget : maps1[0 + init.length]? = none :=
          List.getElem?_eq_none (by omega)
        have hfull : PrepareForFillInLoop mem s.lazy_stack_masks_ 0
            (s.stack_maps_, s.stack_masks_) = .error .outOfRange := by
          rw [hl, PrepareForFillInLoop_append, hloop]
          simp only [PrepareForFillInLoop, hbits, ne_eq, not_false_eq_true, if_true, hget]
        unfold StackMapStream.PrepareForFillIn
        simp only [hout, List.length_nil, ne_eq, not_true_eq_false, if_false, hfull]

/-- The theorem `retained_stack_mask_references` for one closed position
followed by an open one whose stack mask has three bits: two references, one
record, and `PrepareForFillIn` runs out of range. -/
theorem retained_stack_mask_references_witness :
    ∃ s : StackMapStream,
      (StackMapStream.create 0).run sampleExternals
        [Call.BeginStackMapEntry 5 0x10 0 none 0 0, Call.EndStackMapEntry,
         Call.BeginStackMapEntry 6 0x20 0 (some 7) 0 0] = .ok s ∧
      s.in_stack_map_ = true ∧
      s.lazy_stack_masks_ = [none, some 7] ∧
      s.stack_maps_.length = 1 ∧
      s.stack_maps_[s.lazy_stack_masks_.length - 1]? = none ∧
      s.PrepareForFillIn sampleCodec sampleMemory = .error .outOfRange :=
  ⟨_, rfl, rfl, rfl, rfl,
    ((retained_stack_mask_references sampleExternals 0
      [Call.BeginStackMapEntry 5 0x10 0 none 0 0, Call.EndStackMapEntry,
       Call.BeginStackMapEntry 6 0x20 0 (some 7) 0 0] _ rfl).2.2.2.2.2 rfl).2.2.1,
    ((retained_stack_mask_references sampleExternals 0
      [Call.BeginStackMapEntry 5 0x10 0 none 0 0, Call.EndStackMapEntry,
       Call.BeginStackMapEntry 6 0x20 0 (some 7) 0 0] _ rfl).2.2.2.2.2 rfl).2.2.2
      sampleCodec sampleMemory 7 rfl (by decide)⟩

end art
